import Mathlib

/-!
# Live bidding platform: bid processing, timers and store

A shallow embedding of `backend/src/services/BidService.js`,
`backend/src/services/TimerService.js`, `backend/src/store/InMemoryStore.js`, the handlers
of `backend/src/socket/index.js` and the login route of `backend/src/routes/auth.js`.

Conventions of the embedding

* A JavaScript `Map` with string keys is an insertion-ordered association list (`JSMap`).
* `Date.now()` and `Math.random()` are inputs: every read of the clock in a function body is
  a separate argument (or a field of `BidClock`), so nothing is assumed about how the readings
  relate to one another.
* Timestamps and money amounts are integers (`Int`); the untyped arguments that reach
  `validateInput` are `JSValue`s, whose numbers include `NaN`, the infinities and fractions.
* A function that can throw returns `Except String _`; mutable objects are passed as state.
-/

namespace Bidding

/-! ## JavaScript values -/

/-- A JavaScript number: `NaN`, the two infinities, or a finite value. Every finite double is
a rational, so finite values are embedded in `ℚ`. -/
inductive JSNumber where
  | nan
  | posInf
  | negInf
  | finite (q : ℚ)
  deriving DecidableEq

/-- The JavaScript values a caller can pass to the service. -/
inductive JSValue where
  | undefined
  | null
  | boolean (b : Bool)
  | string (s : String)
  | number (n : JSNumber)
  | object
  deriving DecidableEq

/-- Expression `x <= 0` on numbers. -/
def JSNumber.leZero : JSNumber → Bool
  | .nan => false
  | .posInf => false
  | .negInf => true
  | .finite q => decide (q ≤ 0)

/-- Expression `x > c` on numbers, for a finite constant `c`. -/
def JSNumber.gtConst (c : ℚ) : JSNumber → Bool
  | .nan => false
  | .posInf => true
  | .negInf => false
  | .finite q => decide (q > c)

/-- Expression `Number.isInteger(x)`. -/
def JSNumber.isInteger : JSNumber → Bool
  | .finite q => decide (q.den = 1)
  | _ => false

/-- Expression `isNaN(x)` for a value whose `typeof` is `'number'`. -/
def JSNumber.isNaN : JSNumber → Bool
  | .nan => true
  | _ => false

/-- The code points removed by `String.prototype.trim`: ECMAScript `WhiteSpace` and
`LineTerminator`. -/
def isJSWhiteSpace (c : Char) : Bool :=
  let n := c.toNat
  n == 0x09 || n == 0x0A || n == 0x0B || n == 0x0C || n == 0x0D || n == 0x20 ||
  n == 0xA0 || n == 0x1680 || (0x2000 ≤ n && n ≤ 0x200A) || n == 0x2028 || n == 0x2029 ||
  n == 0x202F || n == 0x205F || n == 0x3000 || n == 0xFEFF

/-- Expression `s.trim()`. -/
def jsTrim (s : String) : String :=
  String.mk ((s.data.dropWhile isJSWhiteSpace).reverse.dropWhile isJSWhiteSpace).reverse

/-- The string carried by a value (`""` for a value that is not a string). -/
def JSValue.asString : JSValue → String
  | .string s => s
  | _ => ""

/-- The integer carried by a value (`0` for a value that is not an integral number). -/
def JSValue.asInt : JSValue → Int
  | .number (.finite q) => if q.den = 1 then q.num else 0
  | _ => 0

/-! ## JavaScript `Map` -/

/-- A `Map` with string keys: entries in insertion order. -/
abbrev JSMap (β : Type) := List (String × β)

namespace JSMap

variable {β : Type}

/-- Method `map.get(k)` (`none` is `undefined`). -/
def get : JSMap β → String → Option β
  | [], _ => none
  | (k', v) :: rest, k => if k' = k then some v else get rest k

/-- Method `map.has(k)`. -/
def has (m : JSMap β) (k : String) : Bool := (get m k).isSome

/-- Method `map.set(k, v)`: an existing key keeps its position, a new key goes last. -/
def set : JSMap β → String → β → JSMap β
  | [], k, v => [(k, v)]
  | (k', v') :: rest, k, v => if k' = k then (k, v) :: rest else (k', v') :: set rest k v

/-- Method `map.delete(k)`. -/
def delete (m : JSMap β) (k : String) : JSMap β := m.filter (fun e => decide (e.1 ≠ k))

/-- Expression `Array.from(map.values())`. -/
def values (m : JSMap β) : List β := m.map Prod.snd

end JSMap

/-! ## Data model -/

/-- A bid record, as built by `executeBid`. -/
structure Bid where
  id : String
  userId : String
  itemId : String
  amount : Int
  timestamp : Int
  deriving DecidableEq

/-- An auction object of the store. `title`, `description` and `imageUrl` are display data;
`updatedAt` and `endedAt` are absent until first written. -/
structure Auction where
  id : String
  title : String
  description : String
  imageUrl : String
  startingPrice : Int
  currentBid : Int
  currentBidder : Option String
  endTime : Int
  status : String
  bids : List Bid
  createdAt : Int
  updatedAt : Option Int
  endedAt : Option Int
  deriving DecidableEq

/-- The object handed to `createAuction` (an item of `seedData`); `id` may be missing. -/
structure AuctionData where
  id : Option String
  title : String
  description : String
  imageUrl : String
  startingPrice : Int
  currentBid : Int
  currentBidder : Option String
  endTime : Int
  status : String
  deriving DecidableEq

/-- A user of the store, as `createUser` builds it from the data of the login route. -/
structure User where
  id : String
  username : String
  avatar : String
  createdAt : Int
  deriving DecidableEq

/-! ## InMemoryStore -/

/-- State of `InMemoryStore`: the two maps. -/
structure InMemoryStore where
  auctions : JSMap Auction
  users : JSMap User
  deriving DecidableEq

namespace InMemoryStore

/-- The constructor: two empty maps. -/
def new : InMemoryStore := { auctions := [], users := [] }

/-- Method `getAuction(id)`. -/
def getAuction (st : InMemoryStore) (id : String) : Option Auction := st.auctions.get id

/-- Method `getAllAuctions()`. -/
def getAllAuctions (st : InMemoryStore) : List Auction := st.auctions.values

/-- Method `updateAuction(id, data)`: stores and returns `data`. -/
def updateAuction (st : InMemoryStore) (id : String) (data : Auction) : Auction × InMemoryStore :=
  (data, { st with auctions := st.auctions.set id data })

/-- Method `createAuction(data)` at clock reading `now`: `data.id || "auction_" + now`, the data
fields spread, `bids: []`, `createdAt: now`. -/
def createAuction (st : InMemoryStore) (now : Int) (data : AuctionData) : Auction × InMemoryStore :=
  let id := match data.id with
    | some i => if i = "" then "auction_" ++ toString now else i
    | none => "auction_" ++ toString now
  let auction : Auction :=
    { id := id, title := data.title, description := data.description, imageUrl := data.imageUrl,
      startingPrice := data.startingPrice, currentBid := data.currentBid,
      currentBidder := data.currentBidder, endTime := data.endTime, status := data.status,
      bids := [], createdAt := now, updatedAt := none, endedAt := none }
  (auction, { st with auctions := st.auctions.set id auction })

end InMemoryStore

/-- The store interface `BidService` is constructed with: each call may throw and may change
the state of the store behind it. -/
structure StoreApi (σ : Type) where
  getAuction : String → σ → Except String (Option Auction) × σ
  updateAuction : String → Auction → σ → Except String Auction × σ

/-- The interface of `InMemoryStore`: neither call throws. -/
def InMemoryStore.api : StoreApi InMemoryStore where
  getAuction := fun id st => (.ok (st.getAuction id), st)
  updateAuction := fun id data st => (.ok (st.updateAuction id data).1, (st.updateAuction id data).2)

/-! ## BidService -/

/-- Constant `this.MAX_BIDS_PER_WINDOW`. -/
def MAX_BIDS_PER_WINDOW : Nat := 5

/-- Constant `this.RATE_LIMIT_WINDOW` (milliseconds). -/
def RATE_LIMIT_WINDOW : Int := 10000

/-- A lock entry of `bidLocks`. -/
structure BidLock where
  acquiredAt : Int
  userId : String
  deriving DecidableEq

/-- State of a `BidService`: the lock table and the per-user log of attempt timestamps. -/
structure BidService where
  bidLocks : JSMap BidLock
  userRateLimits : JSMap (List Int)
  deriving DecidableEq

/-- The constructor: both maps empty. -/
def BidService.new : BidService := { bidLocks := [], userRateLimits := [] }

/-- Result of `checkRateLimit`: `retryAfter` is present on a rejection. -/
structure RateCheck where
  allowed : Bool
  retryAfter : Option Int
  deriving DecidableEq

/-- Expression `Math.ceil((t0 + RATE_LIMIT_WINDOW - now) / 1000)`. The operands are integers far below
`2^53`, where the double quotient rounds up to the same integer as the exact one. -/
def retryAfterOf (t0 now : Int) : Int := ⌈(((t0 + RATE_LIMIT_WINDOW - now : Int) : ℚ)) / 1000⌉

/-- Expression `userBids.filter(t => now - t < this.RATE_LIMIT_WINDOW)`. -/
def recentOf (now : Int) (userBids : List Int) : List Int :=
  userBids.filter (fun t => decide (now - t < RATE_LIMIT_WINDOW))

/-- Method `checkRateLimit(userId)` with `Date.now() = now`. -/
def BidService.checkRateLimit (svc : BidService) (now : Int) (userId : String) :
    RateCheck × BidService :=
  let svc1 : BidService :=
    if svc.userRateLimits.has userId then svc
    else { svc with userRateLimits := svc.userRateLimits.set userId [] }
  let userBids := (svc1.userRateLimits.get userId).getD []
  let recentBids := recentOf now userBids
  if recentBids.length ≥ MAX_BIDS_PER_WINDOW then
    ({ allowed := false, retryAfter := recentBids.head?.map (fun t0 => retryAfterOf t0 now) }, svc1)
  else
    ({ allowed := true, retryAfter := none },
      { svc1 with userRateLimits := svc1.userRateLimits.set userId (recentBids ++ [now]) })

/-- Result of `validateInput`. -/
structure InputValidation where
  valid : Bool
  error : Option String
  code : Option String
  deriving DecidableEq

/-- Method `validateInput(itemId, userId, bidAmount)`. -/
def BidService.validateInput (itemId userId bidAmount : JSValue) : InputValidation :=
  let stringBlank : JSValue → Bool := fun v =>
    match v with
    | .string s => jsTrim s == ""
    | _ => true
  if stringBlank itemId then
    { valid := false, error := some "Invalid item ID", code := some "INVALID_ITEM_ID" }
  else if stringBlank userId then
    { valid := false, error := some "Invalid user ID", code := some "INVALID_USER_ID" }
  else
    match bidAmount with
    | .number n =>
      if n.isNaN then
        { valid := false, error := some "Bid amount must be a number", code := some "INVALID_BID_TYPE" }
      else if n.leZero then
        { valid := false, error := some "Bid must be positive", code := some "NEGATIVE_BID" }
      else if n.gtConst 10000000 then
        { valid := false, error := some "Bid exceeds maximum allowed", code := some "BID_TOO_HIGH" }
      else if !n.isInteger then
        { valid := false, error := some "Bid must be a whole number", code := some "FRACTIONAL_BID" }
      else
        { valid := true, error := none, code := none }
    | _ =>
      { valid := false, error := some "Bid amount must be a number", code := some "INVALID_BID_TYPE" }

/-- Result of `validateBid`. -/
structure BidValidation where
  isValid : Bool
  error : Option String
  code : Option String
  deriving DecidableEq

/-- The decision of `validateBid` once the store has answered; `auction` is what
`getAuction` returned and `now` the reading of `Date.now()`. -/
def BidService.validateBidRules (auction : Option Auction) (now : Int) (userId : String)
    (bidAmount : Int) : BidValidation :=
  match auction with
  | none =>
    { isValid := false, error := some "Auction not found", code := some "AUCTION_NOT_FOUND" }
  | some auction =>
    if auction.status ≠ "active" then
      { isValid := false, error := some "Auction has ended", code := some "AUCTION_ENDED" }
    else if now ≥ auction.endTime then
      { isValid := false, error := some "Auction time has expired", code := some "AUCTION_EXPIRED" }
    else if bidAmount ≤ auction.currentBid then
      { isValid := false,
        error := some ("Bid must be higher than $" ++ toString auction.currentBid),
        code := some "BID_TOO_LOW" }
    else if auction.currentBidder = some userId then
      { isValid := false, error := some "You are already the highest bidder",
        code := some "ALREADY_HIGHEST_BIDDER" }
    else
      { isValid := true, error := none, code := none }

/-- Method `validateBid(itemId, userId, bidAmount)`: one `getAuction`, then the rules. -/
def BidService.validateBid {σ : Type} (api : StoreApi σ) (now : Int) (itemId userId : String)
    (bidAmount : Int) (st : σ) : Except String BidValidation × σ :=
  match api.getAuction itemId st with
  | (.error e, st1) => (.error e, st1)
  | (.ok auction, st1) => (.ok (BidService.validateBidRules auction now userId bidAmount), st1)

/-- The clock and random readings of one `processBid` call, in program order. -/
structure BidClock where
  /-- Reading of `Date.now()` in `checkRateLimit`. -/
  rateLimitNow : Int
  /-- Reading of `Date.now()` for `acquiredAt`. -/
  lockNow : Int
  /-- Reading of `Date.now()` in `validateBid`. -/
  validateNow : Int
  /-- Reading of `Date.now()` inside the bid id. -/
  bidIdNow : Int
  /-- Value of `Math.random().toString(36).substr(2, 6)`. -/
  randomSuffix : String
  /-- Reading of `Date.now()` for the bid timestamp. -/
  bidTimestamp : Int
  /-- Reading of `Date.now()` for `updatedAt`. -/
  updatedNow : Int
  deriving DecidableEq

/-- The object returned by `executeBid`. -/
structure ExecutedBid where
  auction : Auction
  bid : Bid
  previousBid : Int
  previousBidder : Option String
  deriving DecidableEq

/-- Method `executeBid(itemId, userId, bidAmount)`. Reading a field of a missing auction is a
`TypeError`. The auction object is the stored one, so the returned `auction` is the updated
auction. -/
def BidService.executeBid {σ : Type} (api : StoreApi σ) (clk : BidClock) (itemId userId : String)
    (bidAmount : Int) (st : σ) : Except String ExecutedBid × σ :=
  match api.getAuction itemId st with
  | (.error e, st1) => (.error e, st1)
  | (.ok none, st1) => (.error "TypeError", st1)
  | (.ok (some auction), st1) =>
    let bid : Bid :=
      { id := "bid_" ++ toString clk.bidIdNow ++ "_" ++ clk.randomSuffix,
        userId := userId, itemId := itemId, amount := bidAmount, timestamp := clk.bidTimestamp }
    let previousBid := auction.currentBid
    let previousBidder := auction.currentBidder
    let updated : Auction :=
      { auction with
        currentBid := bidAmount, currentBidder := some userId,
        bids := auction.bids ++ [bid], updatedAt := some clk.updatedNow }
    match api.updateAuction itemId updated st1 with
    | (.error e, st2) => (.error e, st2)
    | (.ok _, st2) =>
      (.ok { auction := updated, bid := bid, previousBid := previousBid,
             previousBidder := previousBidder }, st2)

/-- The object returned by `processBid`. -/
structure BidResult where
  success : Bool
  error : Option String
  code : Option String
  data : Option ExecutedBid
  deriving DecidableEq

/-- A `{ success: false, error, code }` result. -/
def BidResult.failure (error code : Option String) : BidResult :=
  { success := false, error := error, code := code, data := none }

/-- The `try` block of `processBid` with its `catch`: steps 5 and 6. -/
def BidService.processBidLocked {σ : Type} (api : StoreApi σ) (clk : BidClock)
    (itemId userId : String) (bidAmount : Int) (st : σ) : BidResult × σ :=
  match BidService.validateBid api clk.validateNow itemId userId bidAmount st with
  | (.error _, st1) =>
    (BidResult.failure (some "Failed to process bid") (some "PROCESSING_ERROR"), st1)
  | (.ok validation, st1) =>
    if !validation.isValid then
      (BidResult.failure validation.error validation.code, st1)
    else
      match BidService.executeBid api clk itemId userId bidAmount st1 with
      | (.error _, st2) =>
        (BidResult.failure (some "Failed to process bid") (some "PROCESSING_ERROR"), st2)
      | (.ok result, st2) =>
        ({ success := true, error := none, code := none, data := some result }, st2)

/-- Method `processBid(itemId, userId, bidAmount)` run to completion. Past step 1 the arguments are
known to be two strings and an integral number, which `asString` and `asInt` read off. -/
def BidService.processBid {σ : Type} (api : StoreApi σ) (svc : BidService) (clk : BidClock)
    (itemId userId bidAmount : JSValue) (st : σ) : BidResult × BidService × σ :=
  let inputValidation := BidService.validateInput itemId userId bidAmount
  if !inputValidation.valid then
    (BidResult.failure inputValidation.error inputValidation.code, svc, st)
  else
    let item := itemId.asString
    let user := userId.asString
    let amount := bidAmount.asInt
    let (rateCheck, svc1) := svc.checkRateLimit clk.rateLimitNow user
    if !rateCheck.allowed then
      (BidResult.failure
        (some ("Too many bids. Try again in " ++ toString (rateCheck.retryAfter.getD 0) ++ "s"))
        (some "RATE_LIMITED"), svc1, st)
    else if svc1.bidLocks.has item then
      (BidResult.failure (some "Another bid is being processed") (some "BID_IN_PROGRESS"), svc1, st)
    else
      let svc2 : BidService :=
        { svc1 with bidLocks := svc1.bidLocks.set item { acquiredAt := clk.lockNow, userId := user } }
      let (result, st1) := BidService.processBidLocked api clk item user amount st
      (result, { svc2 with bidLocks := svc2.bidLocks.delete item }, st1)

/-! ## TimerService -/

/-- What a callback handed to `setTimeout` or `setInterval` does when it runs. -/
inductive TimerCallback where
  /-- Callback `() => this.endAuction(itemId)`. -/
  | endAuction (itemId : String)
  /-- Callback `() => this.startCountdownBroadcast(itemId, endTime)`. -/
  | startCountdownBroadcast (itemId : String) (endTime : Int)
  /-- The body given to `setInterval` in `startCountdownBroadcast`. -/
  | countdownTick (itemId : String) (endTime : Int)
  deriving DecidableEq

/-- Constant `TIMEOUT_MAX` of the host (Node.js): `2 ** 31 - 1` milliseconds, about 24.8 days. -/
def TIMEOUT_MAX : Int := 2147483647

/-- The delay the host gives a timer created with the argument `after`: Node.js keeps an
argument between 1 and `TIMEOUT_MAX` and replaces every other one by 1
(`if (!(after >= 1 && after <= TIMEOUT_MAX)) after = 1`). -/
def timerDelay (after : Int) : Int := if 1 ≤ after ∧ after ≤ TIMEOUT_MAX then after else 1

/-- A live registration in the host's timer queue. -/
structure ScheduledTimer where
  handle : Nat
  /-- The delay the host waits before it runs the callback, in milliseconds. -/
  delay : Int
  /-- Flag: `true` for `setInterval`, `false` for `setTimeout`. -/
  repeating : Bool
  callback : TimerCallback
  deriving DecidableEq

/-- A broadcast made with `this.io.emit`. -/
inductive IoEvent where
  | countdownUpdate (itemId : String) (timeRemaining : Int) (serverTime : Int)
  | auctionEnd (itemId : String) (winner : Option String) (finalBid : Int) (timestamp : Int)
  | auctionExtended (itemId : String) (newEndTime : Int) (extensionSeconds : Int)
  deriving DecidableEq

/-- State of a `TimerService` together with the host objects it drives: the two registration
maps, the host's queue of live timers with the next fresh handle, the asynchronous calls that
were started without being awaited and have not run yet, and the log of broadcasts (oldest
first). -/
structure TimerService where
  timers : JSMap Nat
  intervals : JSMap Nat
  scheduled : List ScheduledTimer
  nextHandle : Nat
  pending : List TimerCallback
  emitted : List IoEvent
  deriving DecidableEq

namespace TimerService

/-- The constructor, on a host with no timers. -/
def new : TimerService :=
  { timers := [], intervals := [], scheduled := [], nextHandle := 0, pending := [], emitted := [] }

/-- Host function `setTimeout(callback, delay)`: returns the handle. The timer is queued with
the delay the host gives it, `timerDelay delay`. -/
def setTimeout (ts : TimerService) (callback : TimerCallback) (delay : Int) : Nat × TimerService :=
  (ts.nextHandle,
   { ts with
     scheduled := ts.scheduled ++
       [{ handle := ts.nextHandle, delay := timerDelay delay, repeating := false,
          callback := callback }],
     nextHandle := ts.nextHandle + 1 })

/-- Host function `setInterval(callback, delay)`: returns the handle. The timer is queued
with the delay the host gives it, `timerDelay delay`. -/
def setInterval (ts : TimerService) (callback : TimerCallback) (delay : Int) : Nat × TimerService :=
  (ts.nextHandle,
   { ts with
     scheduled := ts.scheduled ++
       [{ handle := ts.nextHandle, delay := timerDelay delay, repeating := true,
          callback := callback }],
     nextHandle := ts.nextHandle + 1 })

/-- Host function `clearTimeout(handle)` / `clearInterval(handle)`. -/
def clearTimer (ts : TimerService) (handle : Nat) : TimerService :=
  { ts with scheduled := ts.scheduled.filter (fun t => decide (t.handle ≠ handle)) }

/-- Method `this.io.emit(...)`. -/
def emit (ts : TimerService) (e : IoEvent) : TimerService :=
  { ts with emitted := ts.emitted ++ [e] }

/-- Method `cancelTimer(itemId)`. -/
def cancelTimer (ts : TimerService) (itemId : String) : TimerService :=
  let timeout := ts.timers.get itemId
  let interval := ts.intervals.get itemId
  let ts1 := match timeout with
    | some h => ts.clearTimer h
    | none => ts
  let ts2 := match interval with
    | some h => ts1.clearTimer h
    | none => ts1
  { ts2 with timers := ts2.timers.delete itemId, intervals := ts2.intervals.delete itemId }

/-- Method `startCountdownBroadcast(itemId, endTime)`. -/
def startCountdownBroadcast (ts : TimerService) (itemId : String) (endTime : Int) : TimerService :=
  if ts.intervals.has itemId then ts
  else
    let (interval, ts1) := ts.setInterval (.countdownTick itemId endTime) 1000
    { ts1 with intervals := ts1.intervals.set itemId interval }

/-- One run of the interval body registered under `interval`; `now` and `serverNow` are its
two clock readings. -/
def countdownTick (ts : TimerService) (now serverNow : Int) (interval : Nat) (itemId : String)
    (endTime : Int) : TimerService :=
  let remaining := endTime - now
  if remaining ≤ 0 then
    let ts1 := ts.clearTimer interval
    { ts1 with intervals := ts1.intervals.delete itemId }
  else
    ts.emit (.countdownUpdate itemId remaining serverNow)

/-- Method `startTimer(itemId, endTime)` with `Date.now() = now`. The call `this.endAuction(itemId)`
is not awaited: it is recorded in `pending`. -/
def startTimer (ts : TimerService) (now : Int) (itemId : String) (endTime : Int) : TimerService :=
  let timeRemaining := endTime - now
  if timeRemaining ≤ 0 then
    { ts with pending := ts.pending ++ [.endAuction itemId] }
  else
    let (timeout, ts1) := ts.setTimeout (.endAuction itemId) timeRemaining
    let ts2 := { ts1 with timers := ts1.timers.set itemId timeout }
    if timeRemaining ≤ 60000 then
      ts2.startCountdownBroadcast itemId endTime
    else
      let broadcastDelay := timeRemaining - 60000
      (ts2.setTimeout (.startCountdownBroadcast itemId endTime) broadcastDelay).2

/-- Method `endAuction(itemId)` with `Date.now() = now`, on the in-memory store (whose calls do not
throw, so the `catch` is never entered). -/
def endAuction (ts : TimerService) (now : Int) (itemId : String) (st : InMemoryStore) :
    InMemoryStore × TimerService :=
  match st.getAuction itemId with
  | none => (st, ts)
  | some auction =>
    if auction.status ≠ "active" then (st, ts)
    else
      let ended : Auction := { auction with status := "ended", endedAt := some now }
      let st1 := (st.updateAuction itemId ended).2
      let ts1 := ts.cancelTimer itemId
      (st1, ts1.emit (.auctionEnd itemId ended.currentBidder ended.currentBid now))

/-- Method `extendIfNeeded(itemId)` on the in-memory store; `now` is its own clock reading and
`startNow` the one taken by `startTimer`. Reading `endTime` of a missing auction is a
`TypeError`, which leaves everything as it was. -/
def extendIfNeeded (ts : TimerService) (now startNow : Int) (itemId : String)
    (st : InMemoryStore) : Except String Bool × InMemoryStore × TimerService :=
  match st.getAuction itemId with
  | none => (.error "TypeError", st, ts)
  | some auction =>
    let timeRemaining := auction.endTime - now
    if timeRemaining < 30000 ∧ timeRemaining > 0 then
      let newEndTime := auction.endTime + 30000
      let st1 := (st.updateAuction itemId { auction with endTime := newEndTime }).2
      let ts1 := ts.cancelTimer itemId
      let ts2 := ts1.startTimer startNow itemId newEndTime
      (.ok true, st1, ts2.emit (.auctionExtended itemId newEndTime 30))
    else
      (.ok false, st, ts)

end TimerService

/-! ## Sequences of calls -/

/-- One `processBid` call: the arguments and the clock it runs on. -/
structure BidRequest where
  clk : BidClock
  itemId : JSValue
  userId : JSValue
  bidAmount : JSValue
  deriving DecidableEq

/-- A sequence of `processBid` calls, each run to completion before the next; returns the
results in call order and the final state. -/
def runBids {σ : Type} (api : StoreApi σ) (svc : BidService) (st : σ) :
    List BidRequest → List BidResult × BidService × σ
  | [] => ([], svc, st)
  | c :: cs =>
    let out := BidService.processBid api svc c.clk c.itemId c.userId c.bidAmount st
    let rest := runBids api out.2.1 out.2.2 cs
    (out.1 :: rest.1, rest.2.1, rest.2.2)

/-- The amount argument of the last call whose result has `success: true`, or `init` when
there is none. -/
def lastAcceptedAmount (init : JSValue) : List BidRequest → List BidResult → JSValue
  | c :: cs, r :: rs => lastAcceptedAmount (if r.success then c.bidAmount else init) cs rs
  | _, _ => init

/-- The number of results with `success: true`. -/
def acceptedCount (rs : List BidResult) : Nat := rs.countP (fun r => r.success)

/-- The process state the services share: the store, the bid service, the timer service. -/
structure World where
  store : InMemoryStore
  bidService : BidService
  timerService : TimerService
  deriving DecidableEq

/-- A call of one of the operations that write auctions. -/
inductive Operation where
  | processBid (clk : BidClock) (itemId userId bidAmount : JSValue)
  | endAuction (now : Int) (itemId : String)
  | extendIfNeeded (now startNow : Int) (itemId : String)
  deriving DecidableEq

/-- The state after one operation has run to completion. -/
def World.step (w : World) : Operation → World
  | .processBid clk itemId userId bidAmount =>
    let out := BidService.processBid InMemoryStore.api w.bidService clk itemId userId bidAmount
      w.store
    { w with bidService := out.2.1, store := out.2.2 }
  | .endAuction now itemId =>
    let out := w.timerService.endAuction now itemId w.store
    { w with store := out.1, timerService := out.2 }
  | .extendIfNeeded now startNow itemId =>
    let out := w.timerService.extendIfNeeded now startNow itemId w.store
    { w with store := out.2.1, timerService := out.2.2 }

/-- The state after a sequence of operations. -/
def World.run (w : World) (ops : List Operation) : World := ops.foldl World.step w

/-- Expression `max(startingPrice, max(bid.amount for bid in bids))`. -/
def maxBid (startingPrice : Int) (bids : List Bid) : Int :=
  (bids.map (fun b => b.amount)).foldr max startingPrice

/-- The data invariant of an auction, in the words of the data model: `currentBid` is the
maximum of `startingPrice` and the bid amounts, `currentBidder` is the bidder of the last
bid (none when there is no bid), and the amounts are non-decreasing in list order. -/
def Auction.Invariant (a : Auction) : Prop :=
  a.currentBid = maxBid a.startingPrice a.bids ∧
  a.currentBidder = a.bids.getLast?.map (fun b => b.userId) ∧
  a.bids.Pairwise (fun b1 b2 => b1.amount ≤ b2.amount)

/-! ## Auxiliary definitions used in the statements -/

/-- The bid record `executeBid` builds. -/
def newBidOf (clk : BidClock) (itemId userId : String) (amount : Int) : Bid :=
  { id := "bid_" ++ toString clk.bidIdNow ++ "_" ++ clk.randomSuffix,
    userId := userId, itemId := itemId, amount := amount, timestamp := clk.bidTimestamp }

/-- The auction object after the four assignments of `executeBid`. -/
def committed (clk : BidClock) (itemId userId : String) (amount : Int) (a : Auction) : Auction :=
  { a with
    currentBid := amount, currentBidder := some userId,
    bids := a.bids ++ [newBidOf clk itemId userId amount], updatedAt := some clk.updatedNow }

/-- An auction used in worked examples: item 1 of the seed data, created at time 0. -/
def exampleAuction : Auction :=
  { id := "item_1", title := "Rolex Submariner Date", description := "41mm, Black Dial, Oystersteel",
    imageUrl := "", startingPrice := 8500, currentBid := 8500, currentBidder := none,
    endTime := 180000, status := "active", bids := [], createdAt := 0, updatedAt := none,
    endedAt := none }

/-- A store holding `exampleAuction` only. -/
def exampleStore : InMemoryStore := { auctions := [("item_1", exampleAuction)], users := [] }

/-- A clock on which every reading is `t`. -/
def BidClock.at (t : Int) : BidClock :=
  { rateLimitNow := t, lockNow := t, validateNow := t, bidIdNow := t, randomSuffix := "abc123",
    bidTimestamp := t, updatedNow := t }

/-- The decision of `validateInput` on a number amount, once both ids have passed. -/
def amountValidation (n : JSNumber) : InputValidation :=
  BidService.validateInput (.string "x") (.string "x") (.number n)

/-- The lock entry written at step 4. -/
def lockOf (clk : BidClock) (user : String) : BidLock := { acquiredAt := clk.lockNow, userId := user }

/-- The success result of `processBid` for an accepted bid on auction `a`. -/
def acceptedResult (clk : BidClock) (item user : String) (amount : Int) (a : Auction) : BidResult :=
  { success := true, error := none, code := none,
    data := some { auction := committed clk item user amount a,
                   bid := newBidOf clk item user amount,
                   previousBid := a.currentBid, previousBidder := a.currentBidder } }

/-- A request on `"item_1"` by user `u` for the integer amount `n`, on a clock reading `t` throughout. -/
def requestAt (t : Int) (u : String) (n : Int) : BidRequest :=
  { clk := BidClock.at t, itemId := .string "item_1", userId := .string u,
    bidAmount := .number (.finite (n : ℚ)) }

/-- Four calls on the example auction: accepted, already highest, too low, accepted. -/
def exampleCalls : List BidRequest :=
  [requestAt 1000 "A" 9000, requestAt 2000 "A" 9500, requestAt 3000 "B" 8000,
   requestAt 4000 "B" 9600]

/-- Operations on the example auction: two bids, an extension check, the end of the auction
and a late bid. -/
def exampleOperations : List Operation :=
  [.processBid (BidClock.at 1000) (.string "item_1") (.string "A") (.number (.finite 9000)),
   .processBid (BidClock.at 160000) (.string "item_1") (.string "B") (.number (.finite 9600)),
   .extendIfNeeded 160001 160002 "item_1",
   .endAuction 210000 "item_1",
   .processBid (BidClock.at 210500) (.string "item_1") (.string "A") (.number (.finite 9900))]

/-- The example store with fresh services. -/
def exampleWorld : World :=
  { store := exampleStore, bidService := BidService.new, timerService := TimerService.new }

/-- The timestamps stored for a user in `userRateLimits` (none when there is no entry). -/
def BidService.logOf (svc : BidService) (userId : String) : List Int :=
  (svc.userRateLimits.get userId).getD []

/-- A service in which user `"A"` has made five attempts, at 1000, 1100, 1200, 1300, 1400. -/
def exampleBusyService : BidService :=
  { bidLocks := [], userRateLimits := [("A", [1000, 1100, 1200, 1300, 1400])] }

/-- A store whose every call throws. -/
def failingApi : StoreApi Unit where
  getAuction := fun _ s => (.error "store unavailable", s)
  updateAuction := fun _ _ s => (.error "store unavailable", s)

/-- The in-memory store with a counter of the calls made to it. -/
def countingApi : StoreApi (Nat × InMemoryStore) where
  getAuction := fun id s => (.ok (s.2.getAuction id), (s.1 + 1, s.2))
  updateAuction := fun id data s =>
    (.ok (s.2.updateAuction id data).1, (s.1 + 1, (s.2.updateAuction id data).2))

/-- A service in which a bid by `"B"` on `"item_1"` is in progress. -/
def exampleLockedService : BidService :=
  { bidLocks := [("item_1", { acquiredAt := 900, userId := "B" })], userRateLimits := [] }

/-- The stable codes a `processBid` failure can carry. -/
def processBidCodes : List String :=
  ["INVALID_ITEM_ID", "INVALID_USER_ID", "INVALID_BID_TYPE", "NEGATIVE_BID", "BID_TOO_HIGH",
   "FRACTIONAL_BID", "RATE_LIMITED", "BID_IN_PROGRESS", "AUCTION_NOT_FOUND", "AUCTION_ENDED",
   "AUCTION_EXPIRED", "BID_TOO_LOW", "ALREADY_HIGHEST_BIDDER", "PROCESSING_ERROR"]

/-- The two shapes of a `processBid` result: `{ success: true, data }`, or
`{ success: false, error, code }` with a code of the list. -/
def BidResult.WellFormed (r : BidResult) : Prop :=
  (r.success = true ∧ r.data.isSome = true ∧ r.error = none ∧ r.code = none) ∨
  (r.success = false ∧ r.data = none ∧ r.error.isSome = true ∧
    ∃ c, r.code = some c ∧ c ∈ processBidCodes)

/-- Running a callback that the host took from its queue (or that was started without being
awaited): `handle` is the handle it was registered under, `now` and `serverNow` the clock
readings it takes. -/
def TimerService.runCallback (ts : TimerService) (now serverNow : Int) (handle : Nat)
    (callback : TimerCallback) (st : InMemoryStore) : InMemoryStore × TimerService :=
  match callback with
  | .endAuction itemId => ts.endAuction now itemId st
  | .startCountdownBroadcast itemId endTime => (st, ts.startCountdownBroadcast itemId endTime)
  | .countdownTick itemId endTime => (st, ts.countdownTick now serverNow handle itemId endTime)

/-- The host fires the timer registered under `handle`: nothing happens when no such timer
is live; a timeout leaves the queue before its callback runs, an interval stays. -/
def TimerService.fire (ts : TimerService) (now serverNow : Int) (handle : Nat)
    (st : InMemoryStore) : InMemoryStore × TimerService :=
  match ts.scheduled.find? (fun t => decide (t.handle = handle)) with
  | none => (st, ts)
  | some t =>
    let ts1 := if t.repeating then ts else ts.clearTimer handle
    ts1.runCallback now serverNow handle t.callback st

/-- The oldest call that was started without being awaited runs. -/
def TimerService.runPending (ts : TimerService) (now : Int) (st : InMemoryStore) :
    InMemoryStore × TimerService :=
  match ts.pending with
  | [] => (st, ts)
  | callback :: rest => ({ ts with pending := rest }).runCallback now now 0 callback st

/-- A call of any of the five operations named in the data model: the three that write
auctions, `startTimer` and `cancelTimer`. -/
inductive ServiceCall where
  | operation (op : Operation)
  | startTimer (now : Int) (itemId : String) (endTime : Int)
  | cancelTimer (itemId : String)
  deriving DecidableEq

/-- The state after one service call. -/
def World.call (w : World) : ServiceCall → World
  | .operation op => w.step op
  | .startTimer now itemId endTime =>
    { w with timerService := w.timerService.startTimer now itemId endTime }
  | .cancelTimer itemId => { w with timerService := w.timerService.cancelTimer itemId }

/-- Something the event loop does of its own accord: it fires a live timer, or it runs the
oldest call that was started without being awaited. -/
inductive LoopEvent where
  | fire (handle : Nat) (now serverNow : Int)
  | runPending (now : Int)
  deriving DecidableEq

/-- The state after one event of the loop. -/
def TimerService.onEvent (ts : TimerService) (e : LoopEvent) (st : InMemoryStore) :
    InMemoryStore × TimerService :=
  match e with
  | .fire handle now serverNow => ts.fire now serverNow handle st
  | .runPending now => ts.runPending now st

/-- The state after a sequence of events of the loop. -/
def TimerService.runLoop (ts : TimerService) (st : InMemoryStore) :
    List LoopEvent → InMemoryStore × TimerService
  | [] => (st, ts)
  | e :: rest => (ts.onEvent e st).2.runLoop (ts.onEvent e st).1 rest

/-- The example world after `endAuction("item_1")` ran at time 170000, 10 s before the
auction's `endTime` of 180000. -/
def exampleEndedWorld : World := exampleWorld.step (.endAuction 170000 "item_1")

/-- A fresh timer service after `startTimer("item_1", 180000)` at time 0 (180 s remain, so
the ticker start is deferred by 120 s) followed by `cancelTimer("item_1")`. -/
def exampleCancelled : TimerService :=
  (TimerService.new.startTimer 0 "item_1" 180000).cancelTimer "item_1"

/-- Whether a broadcast is the AUCTION_END of `itemId`. -/
def IoEvent.isAuctionEndOf (itemId : String) : IoEvent → Bool
  | .auctionEnd i _ _ _ => decide (i = itemId)
  | _ => false

/-- Whether an event of the loop is the firing of the timer `handle`. -/
def LoopEvent.fires (handle : Nat) : LoopEvent → Bool
  | .fire h _ _ => decide (h = handle)
  | .runPending _ => false

/-- No call of `endAuction(itemId)` is scheduled or pending. -/
def TimerService.QuietFor (ts : TimerService) (itemId : String) : Prop :=
  (∀ t ∈ ts.scheduled, t.callback ≠ .endAuction itemId) ∧
  (∀ c ∈ ts.pending, c ≠ .endAuction itemId)

/-- The end of `itemId` is armed under `handle`: it is the handle registered in `timers`, it
was handed out already, every live timer that would call `endAuction(itemId)` carries it, and
no such call is pending. -/
def TimerService.ArmedFor (ts : TimerService) (itemId : String) (handle : Nat) : Prop :=
  ts.timers.get itemId = some handle ∧ handle < ts.nextHandle ∧
  (∀ t ∈ ts.scheduled, t.callback = .endAuction itemId → t.handle = handle) ∧
  (∀ c ∈ ts.pending, c ≠ .endAuction itemId)

/-- The events between the start of the example timer and the extension of the example
auction: the deferred ticker start fires at 120000, the ticker runs once at 121000. -/
def exampleTicks : List LoopEvent := [.fire 1 120000 120000, .fire 2 121000 121000]

/-! ## The socket gateway: the `BID_PLACED` handler -/

/-- The parts of `ToNumber` that the embedding leaves open: the number a string converts to
and the number the opaque object converts to. -/
structure Coercion where
  stringToNumber : String → JSNumber
  objectToNumber : JSNumber

/-- Truthiness of a value, as in `!x`. -/
def JSValue.truthy : JSValue → Bool
  | .undefined => false
  | .null => false
  | .boolean b => b
  | .string s => decide (s ≠ "")
  | .number .nan => false
  | .number (.finite q) => decide (q ≠ 0)
  | .number _ => true
  | .object => true

/-- Conversion `ToNumber(x)`. -/
def JSValue.toNumber (co : Coercion) : JSValue → JSNumber
  | .undefined => .nan
  | .null => .finite 0
  | .boolean b => if b then .finite 1 else .finite 0
  | .string s => co.stringToNumber s
  | .number n => n
  | .object => co.objectToNumber

/-- The payload of an inbound event as the handler reads it. -/
inductive Payload where
  /-- Payload `undefined` or `null`: destructuring it throws. -/
  | nullish
  /-- Any other payload, with the values of its properties `itemId` and `bidAmount`
  (`undefined` for a property it does not have). -/
  | fields (itemId bidAmount : JSValue)
  deriving DecidableEq

/-- An event sent by the gateway. -/
inductive SocketEvent where
  | bidError (itemId : JSValue) (error code : Option String)
  | bidSuccess (itemId : JSValue) (bid : Bid) (currentBid : Int)
  | updateBid (itemId : JSValue) (currentBid : Int) (currentBidder : Option String)
      (bidCount : Nat) (timestamp : Int)
  | outbidNotification (itemId : JSValue) (newBid yourBid : Int)
  deriving DecidableEq

/-- Who an event is sent to: `socket.emit`, `io.emit`, `io.to(room).emit`. -/
inductive Recipient where
  | socket (id : String)
  | everyone
  | room (name : String)
  deriving DecidableEq

/-- One `emit` of the gateway. -/
structure Emission where
  recipient : Recipient
  event : SocketEvent
  deriving DecidableEq

/-- The `services` object given to `setupSocket`, as far as the handler tests it: whether
it has the property `timerService`. -/
structure SocketServices where
  timerService : Bool
  deriving DecidableEq

/-- The object `startServer` passes to `setupSocket`: `{ store, bidService, userService }`.
The timer service is constructed afterwards and put on `app.locals.services`, another
object. -/
def startServerServices : SocketServices := { timerService := false }

/-- The clock readings of one run of the handler. -/
structure HandlerClock where
  bid : BidClock
  /-- Reading of `Date.now()` in `extendIfNeeded`. -/
  extendNow : Int
  /-- Reading of `Date.now()` in the `startTimer` that `extendIfNeeded` calls. -/
  startNow : Int
  deriving DecidableEq

/-- The process state seen from the gateway: the world and the events sent so far (oldest
first). -/
structure Gateway where
  world : World
  sent : List Emission
  deriving DecidableEq

/-- Method `socket.emit` / `io.emit` / `io.to(room).emit` of the gateway. -/
def Gateway.send (g : Gateway) (recipient : Recipient) (event : SocketEvent) : Gateway :=
  { g with sent := g.sent ++ [{ recipient := recipient, event := event }] }

/-- The test `!itemId || !bidAmount || bidAmount <= 0` of the handler. -/
def invalidBidData (co : Coercion) (itemId bidAmount : JSValue) : Bool :=
  !itemId.truthy || !bidAmount.truthy || (bidAmount.toNumber co).leZero

/-- The part of the handler that follows a successful `processBid`: the three emits and the
extension check. A throw of `extendIfNeeded` is caught by the handler's `catch`. -/
def afterAcceptedBid (services : SocketServices) (socketId : String) (userId itemId : JSValue)
    (clk : HandlerClock) (d : ExecutedBid) (g : Gateway) : Gateway :=
  let g1 := g.send (.socket socketId) (.bidSuccess itemId d.bid d.auction.currentBid)
  let g2 := g1.send .everyone
    (.updateBid itemId d.auction.currentBid d.auction.currentBidder d.auction.bids.length
      d.bid.timestamp)
  let g3 := match d.previousBidder with
    | some p =>
      if p ≠ "" ∧ JSValue.string p ≠ userId then
        g2.send (.room ("user_" ++ p))
          (.outbidNotification itemId d.auction.currentBid d.previousBid)
      else g2
    | none => g2
  if services.timerService then
    let out := g3.world.timerService.extendIfNeeded clk.extendNow clk.startNow itemId.asString
      g3.world.store
    match out.1 with
    | .ok _ =>
      { g3 with world := { g3.world with store := out.2.1, timerService := out.2.2 } }
    | .error _ =>
      g3.send (.socket socketId)
        (.bidError itemId (some "Server error processing bid") (some "SERVER_ERROR"))
  else g3

/-- The handler of `BID_PLACED` for the socket `socketId` of user `userId`, run to
completion. A throw outside the `try` (destructuring a nullish payload) rejects the handler:
that is the `error` result. -/
def handleBidPlaced (co : Coercion) (services : SocketServices) (socketId : String)
    (userId : JSValue) (clk : HandlerClock) (data : Payload) (g : Gateway) :
    Except String Unit × Gateway :=
  match data with
  | .nullish => (.error "TypeError", g)
  | .fields itemId bidAmount =>
    if invalidBidData co itemId bidAmount then
      (.ok (), g.send (.socket socketId)
        (.bidError itemId (some "Invalid bid data") (some "INVALID_INPUT")))
    else
      let out := BidService.processBid InMemoryStore.api g.world.bidService clk.bid itemId
        userId bidAmount g.world.store
      let g1 : Gateway :=
        { g with world := { g.world with bidService := out.2.1, store := out.2.2 } }
      if !out.1.success then
        (.ok (), g1.send (.socket socketId) (.bidError itemId out.1.error out.1.code))
      else
        match out.1.data with
        | some d => (.ok (), afterAcceptedBid services socketId userId itemId clk d g1)
        | none =>
          (.ok (), g1.send (.socket socketId)
            (.bidError itemId (some "Server error processing bid") (some "SERVER_ERROR")))

/-- A coercion used in worked examples: decimal digits are not parsed, every string and the
object convert to `NaN`. -/
def exampleCoercion : Coercion := { stringToNumber := fun _ => .nan, objectToNumber := .nan }

/-- A clock on which every reading of one run of the handler is `t`. -/
def HandlerClock.at (t : Int) : HandlerClock :=
  { bid := BidClock.at t, extendNow := t, startNow := t }

/-- The example world with the example timer started at time 0, seen from the gateway. -/
def exampleGateway : Gateway :=
  { world := { exampleWorld with
      timerService := TimerService.new.startTimer 0 "item_1" 180000 },
    sent := [] }

/-! ## Interleaved `processBid` calls -/

/-- Where one `processBid` call on the in-memory store stands. Between two states lies the
code between two `await`s, which runs without interruption. The auction object that
`getAuction` hands out is the stored object itself, so a call that resumes reads the fields
the stored auction has at that moment; `found` records whether an object was handed out. -/
inductive BidTask where
  /-- The call has not been made yet. -/
  | notStarted (req : BidRequest)
  /-- The lock is held; `validateBid` has called `getAuction` and awaits it. -/
  | validating (clk : BidClock) (item user : String) (amount : Int) (found : Bool)
  /-- Task state in which `validateBid` has returned and `processBid` awaits it. -/
  | validated (clk : BidClock) (item user : String) (amount : Int) (validation : BidValidation)
  /-- Task state in which `executeBid` has called `getAuction` and awaits it. -/
  | executing (clk : BidClock) (item user : String) (amount : Int) (found : Bool)
  /-- Task state in which `executeBid` has written the auction, called `updateAuction` and
  awaits it. -/
  | persisting (item : String) (result : ExecutedBid)
  /-- Task state in which `executeBid` has returned or thrown and `processBid` awaits it. -/
  | executed (item : String) (outcome : Except String ExecutedBid)
  /-- The call has returned `result`. -/
  | returned (result : BidResult)

/-- The item whose lock a call holds, if it holds one. -/
def BidTask.lockedItem : BidTask → Option String
  | .validating _ item _ _ _ => some item
  | .validated _ item _ _ _ => some item
  | .executing _ item _ _ _ => some item
  | .persisting item _ => some item
  | .executed item _ => some item
  | _ => none

/-- The code of one call up to its next `await` (or to its return). -/
def BidTask.advance (svc : BidService) (st : InMemoryStore) :
    BidTask → BidTask × BidService × InMemoryStore
  | .notStarted req =>
    let inputValidation := BidService.validateInput req.itemId req.userId req.bidAmount
    if !inputValidation.valid then
      (.returned (BidResult.failure inputValidation.error inputValidation.code), svc, st)
    else
      let item := req.itemId.asString
      let user := req.userId.asString
      let (rateCheck, svc1) := svc.checkRateLimit req.clk.rateLimitNow user
      if !rateCheck.allowed then
        (.returned (BidResult.failure
          (some ("Too many bids. Try again in " ++ toString (rateCheck.retryAfter.getD 0) ++ "s"))
          (some "RATE_LIMITED")), svc1, st)
      else if svc1.bidLocks.has item then
        (.returned (BidResult.failure (some "Another bid is being processed")
          (some "BID_IN_PROGRESS")), svc1, st)
      else
        (.validating req.clk item user req.bidAmount.asInt (st.getAuction item).isSome,
         { svc1 with
           bidLocks := svc1.bidLocks.set item { acquiredAt := req.clk.lockNow, userId := user } },
         st)
  | .validating clk item user amount found =>
    (.validated clk item user amount
      (BidService.validateBidRules (if found then st.getAuction item else none)
        clk.validateNow user amount), svc, st)
  | .validated clk item user amount validation =>
    if !validation.isValid then
      (.returned (BidResult.failure validation.error validation.code),
       { svc with bidLocks := svc.bidLocks.delete item }, st)
    else
      (.executing clk item user amount (st.getAuction item).isSome, svc, st)
  | .executing clk item user amount found =>
    match (if found then st.getAuction item else none) with
    | none => (.executed item (.error "TypeError"), svc, st)
    | some auction =>
      let bid : Bid := newBidOf clk item user amount
      let updated : Auction := committed clk item user amount auction
      (.persisting item
        { auction := updated, bid := bid, previousBid := auction.currentBid,
          previousBidder := auction.currentBidder },
       svc, (st.updateAuction item updated).2)
  | .persisting item result => (.executed item (.ok result), svc, st)
  | .executed item (.ok result) =>
    (.returned { success := true, error := none, code := none, data := some result },
     { svc with bidLocks := svc.bidLocks.delete item }, st)
  | .executed item (.error _) =>
    (.returned (BidResult.failure (some "Failed to process bid") (some "PROCESSING_ERROR")),
     { svc with bidLocks := svc.bidLocks.delete item }, st)
  | .returned result => (.returned result, svc, st)

/-- Concurrent `processBid` calls on one process: the shared service and store, and where
each call stands. -/
structure BidSystem where
  service : BidService
  store : InMemoryStore
  tasks : List BidTask

/-- The system before any of the calls `reqs` has been made. -/
def BidSystem.initial (svc : BidService) (st : InMemoryStore) (reqs : List BidRequest) :
    BidSystem :=
  { service := svc, store := st, tasks := reqs.map BidTask.notStarted }

/-- The scheduler lets call number `i` run up to its next `await`. -/
def BidSystem.step (sys : BidSystem) (i : Nat) : BidSystem :=
  match sys.tasks[i]? with
  | none => sys
  | some t =>
    let out := t.advance sys.service sys.store
    { service := out.2.1, store := out.2.2, tasks := sys.tasks.set i out.1 }

/-- An interleaving: the calls run in the order the `schedule` names them, one stretch of
code between two `await`s at a time. -/
def BidSystem.run (sys : BidSystem) (schedule : List Nat) : BidSystem :=
  schedule.foldl BidSystem.step sys

/-- Two calls on the example auction: a bid of 9000 by `"B"` at 1450, and a bid of 9500 by
`"A"` at 1500. -/
def exampleOverlap : List BidRequest :=
  [requestAt 1450 "B" 9000, requestAt 1500 "A" 9500]

/-- The commit a call has made, once it has made one: the record `executeBid` built. -/
def BidTask.commit : BidTask → Option ExecutedBid
  | .persisting _ result => some result
  | .executed _ (.ok result) => some result
  | .returned result => if result.success then result.data else none
  | _ => none

/-- At most one call holds the lock of an item, and the lock of an item that a call holds is
in `bidLocks`. -/
def BidSystem.Exclusive (sys : BidSystem) : Prop :=
  (∀ (i j : Nat) (ti tj : BidTask) (item : String),
    sys.tasks[i]? = some ti → sys.tasks[j]? = some tj →
    ti.lockedItem = some item → tj.lockedItem = some item → i = j) ∧
  (∀ (i : Nat) (t : BidTask) (item : String),
    sys.tasks[i]? = some t → t.lockedItem = some item → sys.service.bidLocks.has item = true)

/-- Every commit made by a call is in the bid list of its auction, and a call that returned
`success: true` has made one. -/
def BidSystem.NoLostBid (sys : BidSystem) : Prop :=
  (∀ (i : Nat) (t : BidTask) (d : ExecutedBid), sys.tasks[i]? = some t → t.commit = some d →
    ∃ a, sys.store.getAuction d.bid.itemId = some a ∧ d.bid ∈ a.bids) ∧
  (∀ (i : Nat) (r : BidResult), sys.tasks[i]? = some (.returned r) → r.success = true →
    r.data.isSome = true)

/-! ## Observing one run of the handler -/

/-- The events sent between the gateway state `g0` and the later state `g`: what `sent`
holds beyond what it held at `g0`. -/
def Gateway.sentSince (g g0 : Gateway) : List Emission := g.sent.drop g0.sent.length

/-- Whether an event is a `BID_SUCCESS`. -/
def SocketEvent.isBidSuccess : SocketEvent → Bool
  | .bidSuccess _ _ _ => true
  | _ => false

/-- Whether an event is a `BID_ERROR`. -/
def SocketEvent.isBidError : SocketEvent → Bool
  | .bidError _ _ _ => true
  | _ => false

/-- Whether an event is an `OUTBID_NOTIFICATION`. -/
def SocketEvent.isOutbidNotification : SocketEvent → Bool
  | .outbidNotification _ _ _ => true
  | _ => false

/-- The notification the handler sends after an accepted bid, if it sends one: the test
`previousBidder && previousBidder !== userId` and the emit to the room of the previous
bidder. -/
def outbidEmissions (userId itemId : JSValue) (d : ExecutedBid) : List Emission :=
  match d.previousBidder with
  | some p =>
    if p ≠ "" ∧ JSValue.string p ≠ userId then
      [{ recipient := .room ("user_" ++ p),
         event := .outbidNotification itemId d.auction.currentBid d.previousBid }]
    else []
  | none => []

/-- Every stored `currentBidder` is null or a non-empty string: the empty string is no user
id (`validateInput` rejects it, and the ids `createUser` makes start with `user_`). -/
def InMemoryStore.BiddersNamed (st : InMemoryStore) : Prop :=
  ∀ (id : String) (a : Auction), st.getAuction id = some a → a.currentBidder ≠ some ""

/-- The example gateway after user `"A"` bid 9000 on `"item_1"` at time 1000 from the socket
`"socket_1"`. -/
def exampleLeadGateway : Gateway :=
  (handleBidPlaced exampleCoercion startServerServices "socket_1" (.string "A")
    (HandlerClock.at 1000) (.fields (.string "item_1") (.number (.finite 9000)))
    exampleGateway).2

/-! ## The socket gateway: the connection registries -/

/-- A JavaScript `Set` of strings: its members in insertion order. -/
abbrev JSSet := List String

namespace JSSet

/-- Method `set.add(x)`: a member keeps its position, a new value goes last. -/
def add (s : JSSet) (x : String) : JSSet := if x ∈ s then s else s ++ [x]

/-- Method `set.delete(x)`. -/
def delete (s : JSSet) (x : String) : JSSet := s.filter (fun y => decide (y ≠ x))

/-- Property `set.size`. -/
def size (s : JSSet) : Nat := s.length

end JSSet

/-- A connected socket that passed the authentication middleware: its id and the user the
token named. The user id is a string: tokens are signed by `/auth/login` over `user.id`. -/
structure Socket where
  id : String
  userId : String
  username : String
  deriving DecidableEq

/-- An event sent by the connection and disconnect handlers. -/
inductive PresenceEvent where
  | connected (userId username : String) (serverTime : Int)
  | activeUsers (count : Nat)
  deriving DecidableEq

/-- One `emit` of the connection or disconnect handler. -/
structure PresenceEmission where
  recipient : Recipient
  event : PresenceEvent
  deriving DecidableEq

/-- The state `setupSocket` closes over, with the rooms of the server and the events sent
(oldest first): `activeConnections`, `userSockets`, the pairs of a socket id and a room it
has joined. -/
structure Presence where
  activeConnections : JSSet
  userSockets : JSMap JSSet
  rooms : List (String × String)
  sent : List PresenceEmission
  deriving DecidableEq

namespace Presence

/-- The state when `setupSocket` returns: both registries empty. -/
def new : Presence := { activeConnections := [], userSockets := [], rooms := [], sent := [] }

/-- Method `socket.emit` / `io.emit` of the connection handlers. -/
def send (p : Presence) (recipient : Recipient) (event : PresenceEvent) : Presence :=
  { p with sent := p.sent ++ [{ recipient := recipient, event := event }] }

/-- The handler of `connection`, up to the registration of the event handlers; `now` is the
reading of `Date.now()` for `serverTime`. -/
def onConnection (p : Presence) (now : Int) (socket : Socket) : Presence :=
  let p1 := { p with activeConnections := p.activeConnections.add socket.id }
  let p2 :=
    if !p1.userSockets.has socket.userId then
      { p1 with userSockets := p1.userSockets.set socket.userId [] }
    else p1
  let p3 := { p2 with
    userSockets := p2.userSockets.set socket.userId
      (((p2.userSockets.get socket.userId).getD []).add socket.id) }
  let p4 := { p3 with rooms := p3.rooms ++ [(socket.id, "user_" ++ socket.userId)] }
  let p5 := p4.send (.socket socket.id) (.connected socket.userId socket.username now)
  p5.send .everyone (.activeUsers p5.activeConnections.size)

/-- The handler of `disconnect` of a socket. -/
def onDisconnect (p : Presence) (socket : Socket) : Presence :=
  let p1 := { p with activeConnections := p.activeConnections.delete socket.id }
  let p2 :=
    if p1.userSockets.has socket.userId then
      let sockets := ((p1.userSockets.get socket.userId).getD []).delete socket.id
      let p11 := { p1 with userSockets := p1.userSockets.set socket.userId sockets }
      if sockets.size = 0 then
        { p11 with userSockets := p11.userSockets.delete socket.userId }
      else p11
    else p1
  let p3 := { p2 with
    rooms := p2.rooms.filter (fun r => decide (r ≠ (socket.id, "user_" ++ socket.userId))) }
  p3.send .everyone (.activeUsers p3.activeConnections.size)

end Presence

/-- What happens to a socket: it connects (at the clock reading `now`) or it disconnects. -/
inductive SocketLife where
  | connect (now : Int) (socket : Socket)
  | disconnect (socket : Socket)
  deriving DecidableEq

/-- The state after one connect or disconnect event. -/
def Presence.step (p : Presence) : SocketLife → Presence
  | .connect now socket => p.onConnection now socket
  | .disconnect socket => p.onDisconnect socket

/-- The state after a sequence of connect and disconnect events. -/
def Presence.run (p : Presence) (events : List SocketLife) : Presence :=
  events.foldl Presence.step p

/-- The sockets that are connected after an event, given the ones connected before it. -/
def liveStep (live : List Socket) : SocketLife → List Socket
  | .connect _ socket => live ++ [socket]
  | .disconnect socket => live.filter (fun s => decide (s.id ≠ socket.id))

/-- The sockets that are connected after a sequence of events. -/
def liveAfter (live : List Socket) (events : List SocketLife) : List Socket :=
  events.foldl liveStep live

/-- Whether a sequence of events can happen when the sockets `live` are connected: a socket
that connects has an id no connected socket has, a socket that disconnects is connected. -/
def validLife : List Socket → List SocketLife → Bool
  | _, [] => true
  | live, .connect now socket :: rest =>
    decide (socket.id ∉ live.map (fun s => s.id)) &&
      validLife (liveStep live (.connect now socket)) rest
  | live, .disconnect socket :: rest =>
    decide (socket ∈ live) && validLife (liveStep live (.disconnect socket)) rest

/-- The ids of the connected sockets of user `u`, in connection order. -/
def socketsOf (live : List Socket) (u : String) : List String :=
  (live.filter (fun s => decide (s.userId = u))).map (fun s => s.id)

/-- The registries describe the connected sockets `live`: `activeConnections` holds their
ids, and `userSockets` has an entry exactly for the users with a connected socket, which
holds the ids of that user's connected sockets. -/
def Presence.Tracks (p : Presence) (live : List Socket) : Prop :=
  p.activeConnections = live.map (fun s => s.id) ∧
  (live.map (fun s => s.id)).Nodup ∧
  ∀ u : String, p.userSockets.get u =
    if socketsOf live u = [] then none else some (socketsOf live u)

/-- The counts of the ACTIVE_USERS broadcasts among the events sent. -/
def activeUsersCounts (sent : List PresenceEmission) : List Nat :=
  sent.filterMap (fun e =>
    match e.event with
    | .activeUsers count => some count
    | _ => none)

/-- The number of connected sockets after each event of a sequence, in order. -/
def liveCounts : List Socket → List SocketLife → List Nat
  | _, [] => []
  | live, e :: rest => (liveStep live e).length :: liveCounts (liveStep live e) rest

/-- Five events on two users: `"u1"` opens two sockets, `"u2"` one, then the first socket of
`"u1"` and the socket of `"u2"` close. -/
def exampleLife : List SocketLife :=
  [.connect 1000 { id := "s1", userId := "u1", username := "ann" },
   .connect 2000 { id := "s2", userId := "u1", username := "ann" },
   .connect 3000 { id := "s3", userId := "u2", username := "bob" },
   .disconnect { id := "s1", userId := "u1", username := "ann" },
   .disconnect { id := "s3", userId := "u2", username := "bob" }]

/-! ## The login route: `POST /auth/login` -/

/-- Property `s.length`: the number of UTF-16 code units of the string. -/
def jsLength (s : String) : Nat :=
  (s.data.map (fun c => if c.toNat < 0x10000 then 1 else 2)).sum

/-- Method `getUserByUsername(username)`. -/
def InMemoryStore.getUserByUsername (st : InMemoryStore) (username : String) : Option User :=
  st.users.values.find? (fun u => decide (u.username = username))

/-- Method `createUser(data)` for `data = { username, avatar }`: `idNow` and `createdNow` are
its two readings of `Date.now()`, `suffix` the value of
`Math.random().toString(36).substr(2, 6)`. -/
def InMemoryStore.createUser (st : InMemoryStore) (idNow : Int) (suffix : String)
    (createdNow : Int) (username avatar : String) : User × InMemoryStore :=
  let id := "user_" ++ toString idNow ++ "_" ++ suffix
  let user : User := { id := id, username := username, avatar := avatar, createdAt := createdNow }
  (user, { st with users := st.users.set id user })

/-- The host functions the login route calls that the embedding leaves open:
`String.prototype.toLowerCase`, and `jwt.sign` of `{ userId, username }` with the configured
secret and expiry, which throws on a malformed configuration. -/
structure LoginHost where
  toLowerCase : String → String
  sign : String → String → Except String String

/-- The clock and random readings of one login, all taken in `createUser`. -/
structure LoginClock where
  idNow : Int
  randomSuffix : String
  createdNow : Int
  deriving DecidableEq

/-- The `user` object of a login response. -/
structure PublicUser where
  id : String
  username : String
  avatar : String
  deriving DecidableEq

/-- The response of the login route: the status code and the JSON body, which is either
`{ success: true, data: { token, user } }` or `{ success: false, error: { message, code } }`. -/
structure LoginResponse where
  status : Nat
  success : Bool
  message : Option String
  code : Option String
  token : Option String
  user : Option PublicUser
  deriving DecidableEq

/-- The response `res.status(status).json({ success: false, error: { message, code } })`. -/
def LoginResponse.failure (status : Nat) (message code : String) : LoginResponse :=
  { status := status, success := false, message := some message, code := some code,
    token := none, user := none }

/-- The handler of `POST /auth/login` on the in-memory store; `username` is the value of the
property `username` of the parsed body (`undefined` when the body has none). A throw inside
the `try` (calling `trim` on a value that has no such method, or `jwt.sign`) is answered by
the `catch`. -/
def login (host : LoginHost) (clk : LoginClock) (username : JSValue) (st : InMemoryStore) :
    LoginResponse × InMemoryStore :=
  if !username.truthy then
    (LoginResponse.failure 400 "Username must be at least 2 characters" "INVALID_USERNAME", st)
  else
    match username with
    | .string s =>
      if jsLength (jsTrim s) < 2 then
        (LoginResponse.failure 400 "Username must be at least 2 characters" "INVALID_USERNAME",
         st)
      else
        let trimmedUsername := host.toLowerCase (jsTrim s)
        let found :=
          match st.getUserByUsername trimmedUsername with
          | some user => (user, st)
          | none =>
            st.createUser clk.idNow clk.randomSuffix clk.createdNow trimmedUsername
              ("https://api.dicebear.com/7.x/avataaars/svg?seed=" ++ trimmedUsername)
        match host.sign found.1.id found.1.username with
        | .ok token =>
          ({ status := 200, success := true, message := none, code := none,
             token := some token,
             user := some { id := found.1.id, username := found.1.username,
                            avatar := found.1.avatar } },
           found.2)
        | .error _ => (LoginResponse.failure 500 "Login failed" "LOGIN_ERROR", found.2)
    | _ => (LoginResponse.failure 500 "Login failed" "LOGIN_ERROR", st)

/-- A host used in worked examples: ASCII lower-casing, and a token that only names the
user. -/
def exampleLoginHost : LoginHost :=
  { toLowerCase := fun s => String.mk (s.data.map Char.toLower),
    sign := fun userId username => .ok ("token:" ++ userId ++ ":" ++ username) }

/-- A clock used in worked examples for the login route. -/
def exampleLoginClock : LoginClock :=
  { idNow := 5000, randomSuffix := "k3x9qz", createdNow := 5000 }

/-! ## The scenario of four bids -/

/-- The payload `{ itemId: item, bidAmount: n }` for a string `item` and an integer `n`. -/
def bidPayload (item : String) (n : Int) : Payload :=
  .fields (.string item) (.number (.finite (n : ℚ)))

/-- The service after `checkRateLimit` let an attempt of `user` at time `now` pass: the
entries of the user's log still inside the window, followed by `now`. -/
def BidService.attempted (svc : BidService) (now : Int) (user : String) : BidService :=
  { svc with
    userRateLimits := svc.userRateLimits.set user (recentOf now (svc.logOf user) ++ [now]) }

/-- The record `executeBid` returns for the bid of `n` by `user` on the auction `a`. -/
def executedOf (clk : BidClock) (item user : String) (n : Int) (a : Auction) : ExecutedBid :=
  { auction := committed clk item user n a, bid := newBidOf clk item user n,
    previousBid := a.currentBid, previousBidder := a.currentBidder }

/-- An auction that starts at 100: the example auction with `startingPrice = currentBid = 100`. -/
def scenarioAuction : Auction := { exampleAuction with startingPrice := 100, currentBid := 100 }

/-- A gateway with fresh services whose store holds `scenarioAuction` only. -/
def scenarioGateway : Gateway :=
  { world := { store := { auctions := [("item_1", scenarioAuction)], users := [] },
               bidService := BidService.new, timerService := TimerService.new },
    sent := [] }

/-! # Properties -/

/-! ## Business rules: `validateBid` -/

/-- C1. `validateBid` on the in-memory store never throws and leaves the store as it was; it
answers `isValid = true` exactly when the auction exists, is `'active'`, `now < endTime`,
`amount > currentBid` and the bidder is not the current highest bidder; otherwise the code is
that of the first failing rule in the order AUCTION_NOT_FOUND, AUCTION_ENDED, AUCTION_EXPIRED
(`now ≥ endTime`), BID_TOO_LOW (`amount ≤ currentBid`), ALREADY_HIGHEST_BIDDER. A bid at or
below `currentBid` by the current highest bidder is BID_TOO_LOW, and a bid equal to
`currentBid` is rejected. -/
theorem validateBid_first_failing_rule (st : InMemoryStore) (now : Int) (itemId userId : String)
    (amount : Int) :
    ∃ v : BidValidation,
      BidService.validateBid InMemoryStore.api now itemId userId amount st = (.ok v, st) ∧
      (v.isValid = true ↔
        ∃ a, st.getAuction itemId = some a ∧ a.status = "active" ∧ now < a.endTime ∧
          amount > a.currentBid ∧ a.currentBidder ≠ some userId) ∧
      (st.getAuction itemId = none → v.isValid = false ∧ v.code = some "AUCTION_NOT_FOUND") ∧
      (∀ a, st.getAuction itemId = some a →
        (a.status ≠ "active" → v.isValid = false ∧ v.code = some "AUCTION_ENDED") ∧
        (a.status = "active" → now ≥ a.endTime →
          v.isValid = false ∧ v.code = some "AUCTION_EXPIRED") ∧
        (a.status = "active" → now < a.endTime → amount ≤ a.currentBid →
          v.isValid = false ∧ v.code = some "BID_TOO_LOW") ∧
        (a.status = "active" → now < a.endTime → amount > a.currentBid →
          a.currentBidder = some userId →
          v.isValid = false ∧ v.code = some "ALREADY_HIGHEST_BIDDER") ∧
        (amount = a.currentBid → v.isValid = false)) := by
  refine ⟨BidService.validateBidRules (st.getAuction itemId) now userId amount, rfl, ?_⟩
  cases hget : st.getAuction itemId with
  | none => simp [BidService.validateBidRules]
  | some a =>
    simp only [BidService.validateBidRules]
    by_cases h1 : a.status = "active"
    · by_cases h2 : now < a.endTime
      · by_cases h3 : amount ≤ a.currentBid
        · have h3' : ¬ a.currentBid < amount := not_lt.mpr h3
          simp [h1, h2, h3, h3', not_le.mpr h2]
        · have h3' : a.currentBid < amount := not_le.mp h3
          by_cases h4 : a.currentBidder = some userId
          · simp [h1, h2, h3, h3', h4, not_le.mpr h2]
          · simp [h1, h2, h3, h3', h4, not_le.mpr h2]
            intro h; omega
      · have h2' : a.endTime ≤ now := not_lt.mp h2
        simp [h1, h2, h2']
    · simp [h1]

/-! ## `Map` lemmas -/

namespace JSMap

variable {β : Type}

theorem get_set_self (m : JSMap β) (k : String) (v : β) : (m.set k v).get k = some v := by
  induction m with
  | nil => simp [set, get]
  | cons e rest ih =>
    obtain ⟨k', v'⟩ := e
    by_cases h : k' = k
    · simp [set, get, h]
    · simp [set, get, h, ih]

theorem get_set_of_ne (m : JSMap β) {k j : String} (v : β) (h : j ≠ k) :
    (m.set k v).get j = m.get j := by
  induction m with
  | nil => simp [set, get, Ne.symm h]
  | cons e rest ih =>
    obtain ⟨k', v'⟩ := e
    by_cases hk : k' = k
    · subst hk
      simp [set, get, Ne.symm h]
    · by_cases hj : k' = j
      · subst hj
        simp [set, get, hk]
      · simp [set, get, hk, hj, ih]

theorem get_delete_self (m : JSMap β) (k : String) : (m.delete k).get k = none := by
  induction m with
  | nil => simp [delete, get]
  | cons e rest ih =>
    obtain ⟨k', v'⟩ := e
    by_cases h : k' = k
    · simpa [delete, List.filter_cons, h] using ih
    · simpa [delete, List.filter_cons, h, get] using ih

theorem get_delete_of_ne (m : JSMap β) {k j : String} (h : j ≠ k) :
    (m.delete k).get j = m.get j := by
  induction m with
  | nil => simp [delete, get]
  | cons e rest ih =>
    obtain ⟨k', v'⟩ := e
    by_cases hk : k' = k
    · subst hk
      simpa [delete, List.filter_cons, get, Ne.symm h] using ih
    · by_cases hj : k' = j
      · subst hj
        simp [delete, List.filter_cons, hk, get]
      · simpa [delete, List.filter_cons, hk, hj, get] using ih

theorem has_set_self (m : JSMap β) (k : String) (v : β) : (m.set k v).has k = true := by
  simp [has, get_set_self]

theorem has_delete_self (m : JSMap β) (k : String) : (m.delete k).has k = false := by
  simp [has, get_delete_self]

theorem has_set_of_ne (m : JSMap β) {k j : String} (v : β) (h : j ≠ k) :
    (m.set k v).has j = m.has j := by
  simp [has, get_set_of_ne m v h]

theorem has_delete_of_ne (m : JSMap β) {k j : String} (h : j ≠ k) :
    (m.delete k).has j = m.has j := by
  simp [has, get_delete_of_ne m h]

/-- Deleting a key that is not in the map changes nothing. -/
theorem delete_of_get_none (m : JSMap β) (k : String) (h : m.get k = none) : m.delete k = m := by
  induction m with
  | nil => simp [delete]
  | cons e rest ih =>
    obtain ⟨k', v'⟩ := e
    by_cases hk : k' = k
    · simp [get, hk] at h
    · simp only [get, hk, if_false] at h
      have := ih h
      simp only [delete] at this ⊢
      rw [List.filter_cons]
      simp only [ne_eq, hk, not_false_eq_true, decide_True, if_true, this]

/-- Setting a fresh key and deleting it again gives the map back. -/
theorem delete_set_of_get_none (m : JSMap β) (k : String) (v : β) (h : m.get k = none) :
    (m.set k v).delete k = m := by
  induction m with
  | nil => simp [set, delete]
  | cons e rest ih =>
    obtain ⟨k', v'⟩ := e
    by_cases hk : k' = k
    · simp [get, hk] at h
    · simp only [get, hk, if_false] at h
      have := ih h
      simp only [delete] at this ⊢
      simp only [set, hk, if_false]
      rw [List.filter_cons]
      simp only [ne_eq, hk, not_false_eq_true, decide_True, if_true, this]

end JSMap

/-! ## The commit step: `executeBid` -/

theorem executeBid_inMemory (st : InMemoryStore) (clk : BidClock) (itemId userId : String)
    (amount : Int) (a : Auction) (h : st.getAuction itemId = some a) :
    BidService.executeBid InMemoryStore.api clk itemId userId amount st =
      (.ok { auction := committed clk itemId userId amount a,
             bid := newBidOf clk itemId userId amount,
             previousBid := a.currentBid, previousBidder := a.currentBidder },
       { st with auctions := st.auctions.set itemId (committed clk itemId userId amount a) }) := by
  simp [BidService.executeBid, InMemoryStore.api, InMemoryStore.updateAuction, h, committed,
    newBidOf]

theorem executeBid_inMemory_missing (st : InMemoryStore) (clk : BidClock) (itemId userId : String)
    (amount : Int) (h : st.getAuction itemId = none) :
    BidService.executeBid InMemoryStore.api clk itemId userId amount st =
      (.error "TypeError", st) := by
  simp [BidService.executeBid, InMemoryStore.api, h]

/-- C2. On a stored auction `a`, `executeBid` returns normally; afterwards the stored auction
has `currentBid = amount`, `currentBidder = userId` and `bids` = the old bids followed by one
new record carrying the arguments; `id`, `startingPrice`, `endTime`, `status` (and the earlier
bid records) are unchanged; the returned record holds the new bid, the updated auction and
`previousBid`, `previousBidder` as they were before the call. -/
theorem executeBid_commits (st : InMemoryStore) (clk : BidClock) (itemId userId : String)
    (amount : Int) (a : Auction) (h : st.getAuction itemId = some a) :
    ∃ (r : ExecutedBid) (st1 : InMemoryStore) (a1 : Auction),
      BidService.executeBid InMemoryStore.api clk itemId userId amount st = (.ok r, st1) ∧
      st1.getAuction itemId = some a1 ∧
      a1.currentBid = amount ∧ a1.currentBidder = some userId ∧
      a1.bids = a.bids ++ [r.bid] ∧
      r.bid.userId = userId ∧ r.bid.itemId = itemId ∧ r.bid.amount = amount ∧
      a1.id = a.id ∧ a1.startingPrice = a.startingPrice ∧ a1.endTime = a.endTime ∧
      a1.status = a.status ∧
      r.previousBid = a.currentBid ∧ r.previousBidder = a.currentBidder ∧ r.auction = a1 := by
  refine ⟨_, _, committed clk itemId userId amount a,
    executeBid_inMemory st clk itemId userId amount a h, ?_⟩
  simp [InMemoryStore.getAuction, JSMap.get_set_self, committed, newBidOf]

/-- C2 at a concrete input: a bid of 9000 by `"u1"` on the example store. -/
theorem executeBid_commits_witness :
    exampleStore.getAuction "item_1" = some exampleAuction ∧
    ∃ (r : ExecutedBid) (st1 : InMemoryStore) (a1 : Auction),
      BidService.executeBid InMemoryStore.api (BidClock.at 1000) "item_1" "u1" 9000 exampleStore
        = (.ok r, st1) ∧
      st1.getAuction "item_1" = some a1 ∧
      a1.currentBid = 9000 ∧ a1.currentBidder = some "u1" ∧
      a1.bids = exampleAuction.bids ++ [r.bid] ∧
      r.bid.userId = "u1" ∧ r.bid.itemId = "item_1" ∧ r.bid.amount = 9000 ∧
      a1.id = exampleAuction.id ∧ a1.startingPrice = exampleAuction.startingPrice ∧
      a1.endTime = exampleAuction.endTime ∧ a1.status = exampleAuction.status ∧
      r.previousBid = exampleAuction.currentBid ∧
      r.previousBidder = exampleAuction.currentBidder ∧ r.auction = a1 :=
  ⟨rfl, executeBid_commits exampleStore (BidClock.at 1000) "item_1" "u1" 9000 exampleAuction rfl⟩

/-! ## Input validation: `validateInput` -/

theorem jsTrim_x : jsTrim "x" ≠ "" := by decide

theorem validateInput_of_ids (item user : String) (hi : jsTrim item ≠ "") (hu : jsTrim user ≠ "")
    (amount : JSValue) :
    BidService.validateInput (.string item) (.string user) amount =
      BidService.validateInput (.string "x") (.string "x") amount := by
  have hx : jsTrim "x" ≠ "" := jsTrim_x
  simp [BidService.validateInput, hi, hu, hx]

theorem finite_valid_iff (q : ℚ) :
    (amountValidation (.finite q)).valid = true ↔ ∃ n : Int, q = (n : ℚ) ∧ 1 ≤ n ∧ n ≤ 10000000 := by
  have hx : jsTrim "x" ≠ "" := jsTrim_x
  simp only [amountValidation, BidService.validateInput, beq_iff_eq, hx, if_false,
    JSNumber.isNaN, JSNumber.leZero, JSNumber.gtConst, JSNumber.isInteger]
  constructor
  · intro h
    by_cases h1 : q ≤ 0
    · simp [h1] at h
    · by_cases h2 : q > 10000000
      · simp [h1, h2] at h
      · by_cases h3 : q.den = 1
        · have hq : ((q.num : Int) : ℚ) = q := Rat.coe_int_num_of_den_eq_one h3
          refine ⟨q.num, hq.symm, ?_, ?_⟩
          · have : (0 : ℚ) < (q.num : ℚ) := by rw [hq]; exact not_le.mp h1
            have : (0 : Int) < q.num := by exact_mod_cast this
            omega
          · have : (q.num : ℚ) ≤ 10000000 := by rw [hq]; exact not_lt.mp h2
            exact_mod_cast this
        · simp [h1, h2, h3] at h
  · rintro ⟨n, rfl, h1, h2⟩
    have e1 : ¬ ((n : ℚ) ≤ 0) := by
      have : (0 : ℚ) < (n : ℚ) := by exact_mod_cast (by omega : (0 : Int) < n)
      exact not_le.mpr this
    have e2 : ¬ ((n : ℚ) > 10000000) := by
      have : (n : ℚ) ≤ 10000000 := by exact_mod_cast h2
      exact not_lt.mpr this
    have e3 : ((n : ℚ)).den = 1 := Rat.den_intCast n
    simp [e1, e2, e3]

theorem validateInput_valid_iff (itemId userId bidAmount : JSValue) :
    (BidService.validateInput itemId userId bidAmount).valid = true ↔
      ∃ (item user : String) (n : Int), itemId = .string item ∧ jsTrim item ≠ "" ∧
        userId = .string user ∧ jsTrim user ≠ "" ∧
        bidAmount = .number (.finite (n : ℚ)) ∧ 1 ≤ n ∧ n ≤ 10000000 := by
  constructor
  · intro h
    cases itemId with
    | string item =>
      by_cases hi : jsTrim item = ""
      · simp [BidService.validateInput, hi] at h
      · cases userId with
        | string user =>
          by_cases hu : jsTrim user = ""
          · simp [BidService.validateInput, hi, hu] at h
          · rw [validateInput_of_ids item user hi hu] at h
            cases bidAmount with
            | number n =>
              cases n with
              | finite q =>
                obtain ⟨n, hq, h1, h2⟩ := (finite_valid_iff q).mp h
                exact ⟨item, user, n, rfl, hi, rfl, hu, by rw [hq], h1, h2⟩
              | nan => simp [BidService.validateInput, jsTrim_x, JSNumber.isNaN] at h
              | posInf =>
                simp [BidService.validateInput, jsTrim_x, JSNumber.isNaN, JSNumber.leZero,
                  JSNumber.gtConst] at h
              | negInf =>
                simp [BidService.validateInput, jsTrim_x, JSNumber.isNaN, JSNumber.leZero] at h
            | undefined => simp [BidService.validateInput, jsTrim_x] at h
            | null => simp [BidService.validateInput, jsTrim_x] at h
            | boolean b => simp [BidService.validateInput, jsTrim_x] at h
            | string s => simp [BidService.validateInput, jsTrim_x] at h
            | object => simp [BidService.validateInput, jsTrim_x] at h
        | undefined => simp [BidService.validateInput, hi] at h
        | null => simp [BidService.validateInput, hi] at h
        | boolean b => simp [BidService.validateInput, hi] at h
        | number n => simp [BidService.validateInput, hi] at h
        | object => simp [BidService.validateInput, hi] at h
    | undefined => simp [BidService.validateInput] at h
    | null => simp [BidService.validateInput] at h
    | boolean b => simp [BidService.validateInput] at h
    | number n => simp [BidService.validateInput] at h
    | object => simp [BidService.validateInput] at h
  · rintro ⟨item, user, n, rfl, hi, rfl, hu, rfl, h1, h2⟩
    rw [validateInput_of_ids item user hi hu]
    exact (finite_valid_iff (n : ℚ)).mpr ⟨n, rfl, h1, h2⟩

/-- C5. `validateInput` answers `valid = true` exactly when `itemId` and `userId` are strings
that are non-empty after trimming and the amount is an integer `n` with `1 ≤ n ≤ 10,000,000`.
With both ids in order, a number amount is rejected by the first check it fails, in the order
of the source: non-positive (including `-Infinity`) gives NEGATIVE_BID; above 10,000,000
(including `Infinity`, and whether or not it is an integer) gives BID_TOO_HIGH; a non-integer
in the remaining range gives FRACTIONAL_BID. The amount 10,000,000 itself is accepted. -/
theorem validateInput_contract :
    (∀ itemId userId amount : JSValue,
      (BidService.validateInput itemId userId amount).valid = true ↔
        ∃ (item user : String) (n : Int), itemId = .string item ∧ jsTrim item ≠ "" ∧
          userId = .string user ∧ jsTrim user ≠ "" ∧
          amount = .number (.finite (n : ℚ)) ∧ 1 ≤ n ∧ n ≤ 10000000) ∧
    (∀ (item user : String), jsTrim item ≠ "" → jsTrim user ≠ "" →
      (∀ q : ℚ, q ≤ 0 →
        (BidService.validateInput (.string item) (.string user) (.number (.finite q))).valid = false ∧
        (BidService.validateInput (.string item) (.string user) (.number (.finite q))).code
          = some "NEGATIVE_BID") ∧
      (∀ q : ℚ, q > 10000000 →
        (BidService.validateInput (.string item) (.string user) (.number (.finite q))).valid = false ∧
        (BidService.validateInput (.string item) (.string user) (.number (.finite q))).code
          = some "BID_TOO_HIGH") ∧
      (∀ q : ℚ, 0 < q → q ≤ 10000000 → q.den ≠ 1 →
        (BidService.validateInput (.string item) (.string user) (.number (.finite q))).valid = false ∧
        (BidService.validateInput (.string item) (.string user) (.number (.finite q))).code
          = some "FRACTIONAL_BID") ∧
      (BidService.validateInput (.string item) (.string user) (.number .negInf)).code
        = some "NEGATIVE_BID" ∧
      (BidService.validateInput (.string item) (.string user) (.number .posInf)).code
        = some "BID_TOO_HIGH" ∧
      (BidService.validateInput (.string item) (.string user)
        (.number (.finite ((10000000 : Int) : ℚ)))).valid = true) := by
  refine ⟨validateInput_valid_iff, ?_⟩
  intro item user hi hu
  have hx : jsTrim "x" ≠ "" := jsTrim_x
  simp only [validateInput_of_ids item user hi hu]
  refine ⟨?_, ?_, ?_, ?_, ?_, ?_⟩
  · intro q hq
    simp [BidService.validateInput, hx, JSNumber.isNaN, JSNumber.leZero, hq]
  · intro q hq
    have h0 : ¬ q ≤ 0 := by
      have : (0 : ℚ) < q := lt_trans (by norm_num) hq
      exact not_le.mpr this
    simp [BidService.validateInput, hx, JSNumber.isNaN, JSNumber.leZero, JSNumber.gtConst, h0, hq]
  · intro q h0 h1 h2
    simp [BidService.validateInput, hx, JSNumber.isNaN, JSNumber.leZero, JSNumber.gtConst,
      JSNumber.isInteger, not_le.mpr h0, not_lt.mpr h1, h2]
  · simp [BidService.validateInput, hx, JSNumber.isNaN, JSNumber.leZero]
  · simp [BidService.validateInput, hx, JSNumber.isNaN, JSNumber.leZero, JSNumber.gtConst]
  · exact (finite_valid_iff _).mpr ⟨10000000, rfl, by norm_num, by norm_num⟩

/-! ## One `processBid` call, branch by branch -/

section Branches

variable {σ : Type} (api : StoreApi σ) (svc : BidService) (clk : BidClock)
  (itemId userId bidAmount : JSValue) (st : σ)

theorem processBid_invalid
    (h : (BidService.validateInput itemId userId bidAmount).valid = false) :
    BidService.processBid api svc clk itemId userId bidAmount st =
      (BidResult.failure (BidService.validateInput itemId userId bidAmount).error
        (BidService.validateInput itemId userId bidAmount).code, svc, st) := by
  simp [BidService.processBid, h]

theorem processBid_rateLimited
    (h : (BidService.validateInput itemId userId bidAmount).valid = true)
    (hr : (svc.checkRateLimit clk.rateLimitNow userId.asString).1.allowed = false) :
    BidService.processBid api svc clk itemId userId bidAmount st =
      (BidResult.failure
        (some ("Too many bids. Try again in " ++
          toString ((svc.checkRateLimit clk.rateLimitNow userId.asString).1.retryAfter.getD 0) ++ "s"))
        (some "RATE_LIMITED"),
       (svc.checkRateLimit clk.rateLimitNow userId.asString).2, st) := by
  simp [BidService.processBid, h, hr]

theorem processBid_inProgress
    (h : (BidService.validateInput itemId userId bidAmount).valid = true)
    (hr : (svc.checkRateLimit clk.rateLimitNow userId.asString).1.allowed = true)
    (hl : (svc.checkRateLimit clk.rateLimitNow userId.asString).2.bidLocks.has itemId.asString
      = true) :
    BidService.processBid api svc clk itemId userId bidAmount st =
      (BidResult.failure (some "Another bid is being processed") (some "BID_IN_PROGRESS"),
       (svc.checkRateLimit clk.rateLimitNow userId.asString).2, st) := by
  simp [BidService.processBid, h, hr, hl]

theorem processBid_underLock
    (h : (BidService.validateInput itemId userId bidAmount).valid = true)
    (hr : (svc.checkRateLimit clk.rateLimitNow userId.asString).1.allowed = true)
    (hl : (svc.checkRateLimit clk.rateLimitNow userId.asString).2.bidLocks.has itemId.asString
      = false) :
    BidService.processBid api svc clk itemId userId bidAmount st =
      ((BidService.processBidLocked api clk itemId.asString userId.asString bidAmount.asInt st).1,
       { (svc.checkRateLimit clk.rateLimitNow userId.asString).2 with
         bidLocks :=
           (((svc.checkRateLimit clk.rateLimitNow userId.asString).2.bidLocks.set itemId.asString
             (lockOf clk userId.asString)).delete itemId.asString) },
       (BidService.processBidLocked api clk itemId.asString userId.asString bidAmount.asInt st).2) := by
  simp [BidService.processBid, h, hr, hl, lockOf]

end Branches

/-! ## One `processBid` call on the in-memory store -/

@[simp] theorem asInt_intCast (n : Int) : (JSValue.number (.finite (n : ℚ))).asInt = n := by
  simp [JSValue.asInt]

theorem validateBidRules_isValid_iff (auction : Option Auction) (now : Int) (user : String)
    (amount : Int) :
    (BidService.validateBidRules auction now user amount).isValid = true ↔
      ∃ a, auction = some a ∧ a.status = "active" ∧ now < a.endTime ∧ a.currentBid < amount ∧
        a.currentBidder ≠ some user := by
  cases auction with
  | none => simp [BidService.validateBidRules]
  | some a =>
    simp only [BidService.validateBidRules]
    by_cases h1 : a.status = "active"
    · by_cases h2 : now < a.endTime
      · by_cases h3 : amount ≤ a.currentBid
        · simp [h1, h2, h3, not_lt.mpr h3, not_le.mpr h2]
        · by_cases h4 : a.currentBidder = some user
          · simp [h1, h2, h3, not_le.mp h3, h4, not_le.mpr h2]
          · simp [h1, h2, h3, not_le.mp h3, h4, not_le.mpr h2]
      · simp [h1, h2, not_lt.mp h2]
    · simp [h1]

/-- A rejected validation carries a code, so does every failure of `validateBidRules`. -/
theorem validateBidRules_invalid_code (auction : Option Auction) (now : Int) (user : String)
    (amount : Int) (h : (BidService.validateBidRules auction now user amount).isValid = false) :
    (BidService.validateBidRules auction now user amount).code ∈
      [some "AUCTION_NOT_FOUND", some "AUCTION_ENDED", some "AUCTION_EXPIRED", some "BID_TOO_LOW",
       some "ALREADY_HIGHEST_BIDDER"] := by
  cases auction with
  | none => simp [BidService.validateBidRules]
  | some a =>
    simp only [BidService.validateBidRules] at h ⊢
    split_ifs at h ⊢ <;> simp_all

theorem processBidLocked_inMemory_reject (st : InMemoryStore) (clk : BidClock)
    (item user : String) (amount : Int)
    (h : (BidService.validateBidRules (st.getAuction item) clk.validateNow user amount).isValid
      = false) :
    BidService.processBidLocked InMemoryStore.api clk item user amount st =
      (BidResult.failure
        (BidService.validateBidRules (st.getAuction item) clk.validateNow user amount).error
        (BidService.validateBidRules (st.getAuction item) clk.validateNow user amount).code, st) := by
  simp [BidService.processBidLocked, BidService.validateBid, InMemoryStore.api, h]

theorem processBidLocked_inMemory_accept (st : InMemoryStore) (clk : BidClock)
    (item user : String) (amount : Int) (a : Auction) (ha : st.getAuction item = some a)
    (h : (BidService.validateBidRules (some a) clk.validateNow user amount).isValid = true) :
    BidService.processBidLocked InMemoryStore.api clk item user amount st =
      (acceptedResult clk item user amount a,
       { st with auctions := st.auctions.set item (committed clk item user amount a) }) := by
  have hx := executeBid_inMemory st clk item user amount a ha
  have hv : BidService.validateBid InMemoryStore.api clk.validateNow item user amount st =
      (.ok (BidService.validateBidRules (some a) clk.validateNow user amount), st) := by
    simp [BidService.validateBid, InMemoryStore.api, ha]
  simp only [BidService.processBidLocked, hv, h, hx, acceptedResult]
  simp

/-- What one call does to the in-memory store: a failure leaves it as it was, a success
commits the bid on the addressed auction, which passed every business rule. -/
theorem processBid_inMemory_step (svc : BidService) (clk : BidClock)
    (itemId userId bidAmount : JSValue) (st : InMemoryStore) :
    ((BidService.processBid InMemoryStore.api svc clk itemId userId bidAmount st).1.success = false ∧
      (BidService.processBid InMemoryStore.api svc clk itemId userId bidAmount st).2.2 = st) ∨
    (∃ (item user : String) (n : Int) (a : Auction),
      itemId = .string item ∧ userId = .string user ∧ bidAmount = .number (.finite (n : ℚ)) ∧
      1 ≤ n ∧ n ≤ 10000000 ∧
      st.getAuction item = some a ∧ a.status = "active" ∧ clk.validateNow < a.endTime ∧
      a.currentBid < n ∧ a.currentBidder ≠ some user ∧
      (BidService.processBid InMemoryStore.api svc clk itemId userId bidAmount st).1 =
        acceptedResult clk item user n a ∧
      (BidService.processBid InMemoryStore.api svc clk itemId userId bidAmount st).2.2 =
        { st with auctions := st.auctions.set item (committed clk item user n a) }) := by
  cases hv : (BidService.validateInput itemId userId bidAmount).valid with
  | false =>
    left
    rw [processBid_invalid _ _ _ _ _ _ _ hv]
    simp [BidResult.failure]
  | true =>
    obtain ⟨item, user, n, rfl, _, rfl, _, rfl, h1, h2⟩ :=
      (validateInput_valid_iff itemId userId bidAmount).mp hv
    cases hr : (svc.checkRateLimit clk.rateLimitNow (JSValue.string user).asString).1.allowed with
    | false =>
      left
      rw [processBid_rateLimited _ _ _ _ _ _ _ hv hr]
      simp [BidResult.failure]
    | true =>
      cases hl : (svc.checkRateLimit clk.rateLimitNow
          (JSValue.string user).asString).2.bidLocks.has (JSValue.string item).asString with
      | true =>
        left
        rw [processBid_inProgress _ _ _ _ _ _ _ hv hr hl]
        simp [BidResult.failure]
      | false =>
        rw [processBid_underLock _ _ _ _ _ _ _ hv hr hl]
        simp only [JSValue.asString, asInt_intCast]
        cases hb : (BidService.validateBidRules (st.getAuction item) clk.validateNow user n).isValid with
        | false =>
          left
          rw [processBidLocked_inMemory_reject st clk item user n hb]
          simp [BidResult.failure]
        | true =>
          right
          obtain ⟨a, ha, h3, h4, h5, h6⟩ := (validateBidRules_isValid_iff _ _ _ _).mp hb
          rw [ha] at hb
          rw [processBidLocked_inMemory_accept st clk item user n a ha hb]
          exact ⟨item, user, n, a, rfl, rfl, rfl, h1, h2, ha, h3, h4, h5, h6, rfl, rfl⟩

/-! ## Monotonicity over sequences of bids -/

/-- The auction stored under `item` after a call with any arguments: it is still stored and
its `currentBid` has not gone down; a failure, or a call on another item, leaves it as it
was; a success on `item` sets `currentBid` to the amount passed and adds one bid. -/
theorem processBid_auction_step (svc : BidService) (clk : BidClock)
    (itemId userId bidAmount : JSValue) (st : InMemoryStore) (item : String) (a : Auction)
    (ha : st.getAuction item = some a) :
    ∃ a1, (BidService.processBid InMemoryStore.api svc clk itemId userId bidAmount
        st).2.2.getAuction item = some a1 ∧
      a.currentBid ≤ a1.currentBid ∧
      ((BidService.processBid InMemoryStore.api svc clk itemId userId bidAmount
          st).1.success = false → a1 = a) ∧
      (itemId ≠ .string item → a1 = a) ∧
      (itemId = .string item →
        (BidService.processBid InMemoryStore.api svc clk itemId userId bidAmount
          st).1.success = true →
        JSValue.number (.finite (a1.currentBid : ℚ)) = bidAmount ∧
        a1.bids.length = a.bids.length + 1) := by
  rcases processBid_inMemory_step svc clk itemId userId bidAmount st with
    ⟨hf, hst⟩ | ⟨item1, user, n, a0, hi, _, hb, _, _, ha0, _, _, hlt, _, hres, hst⟩
  · refine ⟨a, by rw [hst]; exact ha, le_refl _, fun _ => rfl, fun _ => rfl, ?_⟩
    intro _ h; rw [hf] at h; cases h
  · by_cases hk : item1 = item
    · subst hk
      rw [ha] at ha0
      cases ha0
      refine ⟨committed clk item1 user n a, ?_, ?_, ?_, ?_, ?_⟩
      · rw [hst]; simp [InMemoryStore.getAuction, JSMap.get_set_self]
      · simp only [committed]; omega
      · intro h; rw [hres] at h; simp [acceptedResult] at h
      · intro h; exact absurd hi h
      · intro _ _
        subst hb
        simp [committed]
    · refine ⟨a, ?_, le_refl _, fun _ => rfl, fun _ => rfl, ?_⟩
      · rw [hst]
        simp only [InMemoryStore.getAuction]
        rw [JSMap.get_set_of_ne _ _ (Ne.symm hk)]
        exact ha
      · intro h
        rw [hi] at h
        cases h
        exact absurd rfl hk

theorem runBids_auction (item : String) (calls : List BidRequest) :
    ∀ (svc : BidService) (st : InMemoryStore) (a : Auction), st.getAuction item = some a →
      (∀ c ∈ calls, c.itemId = .string item) →
      ∃ a1, (runBids InMemoryStore.api svc st calls).2.2.getAuction item = some a1 ∧
        a.currentBid ≤ a1.currentBid ∧
        JSValue.number (.finite (a1.currentBid : ℚ)) =
          lastAcceptedAmount (.number (.finite (a.currentBid : ℚ))) calls
            (runBids InMemoryStore.api svc st calls).1 ∧
        a1.bids.length = a.bids.length + acceptedCount (runBids InMemoryStore.api svc st calls).1 := by
  induction calls with
  | nil =>
    intro svc st a ha _
    exact ⟨a, ha, le_refl _, rfl, by simp [runBids, acceptedCount]⟩
  | cons c cs ih =>
    intro svc st a ha hall
    have hc : c.itemId = .string item := hall c (List.mem_cons_self _ _)
    obtain ⟨a1, h1, hle, hfail, _, hsucc⟩ :=
      processBid_auction_step svc c.clk c.itemId c.userId c.bidAmount st item a ha
    obtain ⟨a2, h2, hle2, hlast, hlen⟩ :=
      ih _ _ a1 h1 (fun d hd => hall d (List.mem_cons_of_mem _ hd))
    refine ⟨a2, ?_, le_trans hle hle2, ?_, ?_⟩
    · simpa [runBids] using h2
    · simp only [runBids, lastAcceptedAmount]
      cases hs : (BidService.processBid InMemoryStore.api svc c.clk c.itemId c.userId
          c.bidAmount st).1.success with
      | false =>
        rw [hfail hs] at hlast
        simpa using hlast
      | true =>
        rw [(hsucc hc hs).1] at hlast
        simpa using hlast
    · simp only [runBids, acceptedCount, List.countP_cons]
      cases hs : (BidService.processBid InMemoryStore.api svc c.clk c.itemId c.userId
          c.bidAmount st).1.success with
      | false =>
        rw [hfail hs] at hlen
        simpa [acceptedCount] using hlen
      | true =>
        have := (hsucc hc hs).2
        simp only [acceptedCount] at hlen
        simp only [if_true]
        omega

/-- C3. Take an auction stored with no bids and any finite sequence of `processBid` calls on
it (any users, amounts, clock readings; any starting lock and rate-limit state). After the
sequence the auction is still stored, its `currentBid` is the amount passed to the last call
that returned `success: true` (the initial `currentBid` when none did) and `bids.length` is
the number of calls that returned `success: true`; and one further call, whatever it is,
leaves `currentBid` at least as large as it was before that call. -/
theorem processBid_sequence_monotone (item : String) (svc : BidService) (st : InMemoryStore)
    (a : Auction) (ha : st.getAuction item = some a) (hb : a.bids = [])
    (calls : List BidRequest) (hcalls : ∀ c ∈ calls, c.itemId = .string item) :
    ∃ a1, (runBids InMemoryStore.api svc st calls).2.2.getAuction item = some a1 ∧
      JSValue.number (.finite (a1.currentBid : ℚ)) =
        lastAcceptedAmount (.number (.finite (a.currentBid : ℚ))) calls
          (runBids InMemoryStore.api svc st calls).1 ∧
      a1.bids.length = acceptedCount (runBids InMemoryStore.api svc st calls).1 ∧
      ∀ c : BidRequest, ∃ a2,
        (BidService.processBid InMemoryStore.api (runBids InMemoryStore.api svc st calls).2.1
          c.clk c.itemId c.userId c.bidAmount
          (runBids InMemoryStore.api svc st calls).2.2).2.2.getAuction item = some a2 ∧
        a1.currentBid ≤ a2.currentBid := by
  obtain ⟨a1, h1, _, hlast, hlen⟩ := runBids_auction item calls svc st a ha hcalls
  refine ⟨a1, h1, hlast, by simpa [hb] using hlen, ?_⟩
  intro c
  obtain ⟨a2, h2, hle, _⟩ :=
    processBid_auction_step (runBids InMemoryStore.api svc st calls).2.1 c.clk c.itemId c.userId
      c.bidAmount (runBids InMemoryStore.api svc st calls).2.2 item a1 h1
  exact ⟨a2, h2, hle⟩

/-- C3 at a concrete input: four calls on the example auction from a fresh service. -/
theorem processBid_sequence_monotone_witness :
    exampleStore.getAuction "item_1" = some exampleAuction ∧ exampleAuction.bids = [] ∧
    (∀ c ∈ exampleCalls, c.itemId = .string "item_1") ∧
    ∃ a1, (runBids InMemoryStore.api BidService.new exampleStore exampleCalls).2.2.getAuction
        "item_1" = some a1 ∧
      JSValue.number (.finite (a1.currentBid : ℚ)) =
        lastAcceptedAmount (.number (.finite (exampleAuction.currentBid : ℚ))) exampleCalls
          (runBids InMemoryStore.api BidService.new exampleStore exampleCalls).1 ∧
      a1.bids.length =
        acceptedCount (runBids InMemoryStore.api BidService.new exampleStore exampleCalls).1 ∧
      ∀ c : BidRequest, ∃ a2,
        (BidService.processBid InMemoryStore.api
          (runBids InMemoryStore.api BidService.new exampleStore exampleCalls).2.1 c.clk
          c.itemId c.userId c.bidAmount
          (runBids InMemoryStore.api BidService.new exampleStore exampleCalls).2.2).2.2.getAuction
            "item_1" = some a2 ∧
        a1.currentBid ≤ a2.currentBid :=
  ⟨rfl, rfl, by simp [exampleCalls, requestAt],
    processBid_sequence_monotone "item_1" BidService.new exampleStore exampleAuction rfl rfl
      exampleCalls (by simp [exampleCalls, requestAt])⟩

/-! ## The auction data invariant -/

theorem foldr_max_init (l : List Int) (x s : Int) :
    l.foldr max (max x s) = max x (l.foldr max s) := by
  induction l with
  | nil => rfl
  | cons y ys ih => simp only [List.foldr_cons, ih, max_left_comm]

theorem maxBid_append (s : Int) (bids : List Bid) (b : Bid) :
    maxBid s (bids ++ [b]) = max b.amount (maxBid s bids) := by
  simp [maxBid, List.foldr_append, foldr_max_init]

theorem le_maxBid (s : Int) (bids : List Bid) : ∀ b ∈ bids, b.amount ≤ maxBid s bids := by
  induction bids with
  | nil => intro b hb; cases hb
  | cons c cs ih =>
    intro b hb
    simp only [maxBid, List.map_cons, List.foldr_cons]
    rcases List.mem_cons.mp hb with rfl | h
    · exact le_max_left _ _
    · exact le_trans (ih b h) (le_max_right _ _)

/-- Committing an amount above `currentBid` keeps the invariant. -/
theorem invariant_committed (clk : BidClock) (item user : String) (n : Int) (a : Auction)
    (hinv : a.Invariant) (hlt : a.currentBid < n) :
    (committed clk item user n a).Invariant := by
  obtain ⟨h1, _, h3⟩ := hinv
  refine ⟨?_, ?_, ?_⟩
  · simp only [committed, maxBid_append, newBidOf]
    rw [← h1, max_eq_left (le_of_lt hlt)]
  · simp [committed, newBidOf]
  · simp only [committed]
    rw [List.pairwise_append]
    refine ⟨h3, List.pairwise_singleton _ _, ?_⟩
    intro b hb c hc
    rw [List.mem_singleton.mp hc]
    have := le_maxBid a.startingPrice a.bids b hb
    simp only [newBidOf]
    omega

/-- An auction that differs only outside the bid data keeps the invariant. -/
theorem invariant_of_same_bid_data (a a1 : Auction) (hinv : a.Invariant)
    (h1 : a1.currentBid = a.currentBid) (h2 : a1.currentBidder = a.currentBidder)
    (h3 : a1.bids = a.bids) (h4 : a1.startingPrice = a.startingPrice) : a1.Invariant := by
  unfold Auction.Invariant at hinv ⊢
  rw [h1, h2, h3, h4]
  exact hinv

theorem endAuction_invariant (ts : TimerService) (now : Int) (itemId : String)
    (st : InMemoryStore) (item : String) (a : Auction) (ha : st.getAuction item = some a)
    (hinv : a.Invariant) :
    ∃ a1, (ts.endAuction now itemId st).1.getAuction item = some a1 ∧ a1.Invariant := by
  unfold TimerService.endAuction
  cases hg : st.getAuction itemId with
  | none => exact ⟨a, ha, hinv⟩
  | some b =>
    by_cases hs : b.status = "active"
    · simp only [hs, ne_eq, not_true_eq_false, if_false, InMemoryStore.updateAuction,
        InMemoryStore.getAuction]
      by_cases hk : itemId = item
      · subst hk
        rw [ha] at hg
        cases hg
        exact ⟨_, JSMap.get_set_self _ _ _,
          invariant_of_same_bid_data a _ hinv rfl rfl rfl rfl⟩
      · exact ⟨a, by rw [JSMap.get_set_of_ne _ _ (Ne.symm hk)]; exact ha, hinv⟩
    · simp only [ne_eq, hs, not_false_eq_true, if_true]
      exact ⟨a, ha, hinv⟩

theorem extendIfNeeded_invariant (ts : TimerService) (now startNow : Int) (itemId : String)
    (st : InMemoryStore) (item : String) (a : Auction) (ha : st.getAuction item = some a)
    (hinv : a.Invariant) :
    ∃ a1, (ts.extendIfNeeded now startNow itemId st).2.1.getAuction item = some a1 ∧
      a1.Invariant := by
  unfold TimerService.extendIfNeeded
  cases hg : st.getAuction itemId with
  | none => exact ⟨a, ha, hinv⟩
  | some b =>
    by_cases hw : b.endTime - now < 30000 ∧ b.endTime - now > 0
    · simp only [hw, and_self, if_true, InMemoryStore.updateAuction, InMemoryStore.getAuction]
      by_cases hk : itemId = item
      · subst hk
        rw [ha] at hg
        cases hg
        exact ⟨_, JSMap.get_set_self _ _ _,
          invariant_of_same_bid_data a _ hinv rfl rfl rfl rfl⟩
      · exact ⟨a, by rw [JSMap.get_set_of_ne _ _ (Ne.symm hk)]; exact ha, hinv⟩
    · simp only [hw, if_false]
      exact ⟨a, ha, hinv⟩

theorem processBid_invariant (svc : BidService) (clk : BidClock)
    (itemId userId bidAmount : JSValue) (st : InMemoryStore) (item : String) (a : Auction)
    (ha : st.getAuction item = some a) (hinv : a.Invariant) :
    ∃ a1, (BidService.processBid InMemoryStore.api svc clk itemId userId bidAmount
        st).2.2.getAuction item = some a1 ∧ a1.Invariant := by
  rcases processBid_inMemory_step svc clk itemId userId bidAmount st with
    ⟨_, hst⟩ | ⟨item1, user, n, a0, _, _, _, _, _, ha0, _, _, hlt, _, _, hst⟩
  · exact ⟨a, by rw [hst]; exact ha, hinv⟩
  · rw [hst]
    simp only [InMemoryStore.getAuction]
    by_cases hk : item1 = item
    · subst hk
      rw [ha] at ha0
      cases ha0
      exact ⟨_, JSMap.get_set_self _ _ _, invariant_committed clk item1 user n a hinv hlt⟩
    · exact ⟨a, by rw [JSMap.get_set_of_ne _ _ (Ne.symm hk)]; exact ha, hinv⟩

theorem step_invariant (w : World) (op : Operation) (item : String) (a : Auction)
    (ha : w.store.getAuction item = some a) (hinv : a.Invariant) :
    ∃ a1, (w.step op).store.getAuction item = some a1 ∧ a1.Invariant := by
  cases op with
  | processBid clk itemId userId bidAmount =>
    exact processBid_invariant w.bidService clk itemId userId bidAmount w.store item a ha hinv
  | endAuction now itemId =>
    exact endAuction_invariant w.timerService now itemId w.store item a ha hinv
  | extendIfNeeded now startNow itemId =>
    exact extendIfNeeded_invariant w.timerService now startNow itemId w.store item a ha hinv

theorem run_invariant (ops : List Operation) :
    ∀ (w : World) (item : String) (a : Auction), w.store.getAuction item = some a →
      a.Invariant → ∃ a1, (w.run ops).store.getAuction item = some a1 ∧ a1.Invariant := by
  induction ops with
  | nil => intro w item a ha hinv; exact ⟨a, ha, hinv⟩
  | cons op rest ih =>
    intro w item a ha hinv
    obtain ⟨a1, h1, hinv1⟩ := step_invariant w op item a ha hinv
    exact ih (w.step op) item a1 h1 hinv1

/-- C4. An auction stored with `currentBid = startingPrice`, no bidder and no bids (as the
seed data creates it) satisfies the data invariant after any sequence of `processBid`,
`endAuction` and `extendIfNeeded` calls (on any items, with any arguments and clock
readings): it is still stored, `currentBid = max(startingPrice, max of the bid amounts)`,
`currentBidder` is the bidder of the last bid (none when there is no bid) and the bid amounts
are non-decreasing in list order. -/
theorem auction_invariant_preserved (w : World) (item : String) (a : Auction)
    (ha : w.store.getAuction item = some a) (h1 : a.currentBid = a.startingPrice)
    (h2 : a.currentBidder = none) (h3 : a.bids = []) (ops : List Operation) :
    ∃ a1, (w.run ops).store.getAuction item = some a1 ∧
      a1.currentBid = maxBid a1.startingPrice a1.bids ∧
      a1.currentBidder = a1.bids.getLast?.map (fun b => b.userId) ∧
      a1.bids.Pairwise (fun b1 b2 => b1.amount ≤ b2.amount) := by
  have hinv : a.Invariant := by
    refine ⟨?_, ?_, ?_⟩
    · rw [h3, h1]; rfl
    · rw [h3, h2]; rfl
    · rw [h3]; exact List.Pairwise.nil
  exact run_invariant ops w item a ha hinv

/-- C4 at a concrete input: the example operations on the example auction. -/
theorem auction_invariant_preserved_witness :
    exampleWorld.store.getAuction "item_1" = some exampleAuction ∧
    exampleAuction.currentBid = exampleAuction.startingPrice ∧
    exampleAuction.currentBidder = none ∧ exampleAuction.bids = [] ∧
    ∃ a1, (exampleWorld.run exampleOperations).store.getAuction "item_1" = some a1 ∧
      a1.currentBid = maxBid a1.startingPrice a1.bids ∧
      a1.currentBidder = a1.bids.getLast?.map (fun b => b.userId) ∧
      a1.bids.Pairwise (fun b1 b2 => b1.amount ≤ b2.amount) :=
  ⟨rfl, rfl, rfl, rfl,
    auction_invariant_preserved exampleWorld "item_1" exampleAuction rfl rfl rfl rfl
      exampleOperations⟩

/-! ## Rate limiting: `checkRateLimit` -/

/-- The list `checkRateLimit` filters is the stored log, also when the entry is first made. -/
theorem checkRateLimit_eq (svc : BidService) (now : Int) (u : String) :
    svc.checkRateLimit now u =
      if (recentOf now (svc.logOf u)).length ≥ MAX_BIDS_PER_WINDOW then
        ({ allowed := false,
           retryAfter := (recentOf now (svc.logOf u)).head?.map (fun t0 => retryAfterOf t0 now) },
         svc)
      else
        ({ allowed := true, retryAfter := none },
         { svc with
           userRateLimits := svc.userRateLimits.set u (recentOf now (svc.logOf u) ++ [now]) }) := by
  unfold BidService.checkRateLimit BidService.logOf
  cases hg : svc.userRateLimits.get u with
  | none =>
    have hset : ∀ (m : JSMap (List Int)) (v w : List Int), (m.set u v).set u w = m.set u w := by
      intro m v w
      induction m with
      | nil => simp [JSMap.set]
      | cons e rest ih =>
        obtain ⟨k, x⟩ := e
        by_cases hk : k = u
        · simp [JSMap.set, hk]
        · simp [JSMap.set, hk, ih]
    simp [JSMap.has, hg, JSMap.get_set_self, recentOf, MAX_BIDS_PER_WINDOW, hset]
  | some l => simp [JSMap.has, hg]

theorem checkRateLimit_allowed_iff (svc : BidService) (now : Int) (u : String) :
    (svc.checkRateLimit now u).1.allowed = false ↔
      MAX_BIDS_PER_WINDOW ≤ (recentOf now (svc.logOf u)).length := by
  rw [checkRateLimit_eq]
  split_ifs with h
  · simpa using h
  · simpa using h

theorem checkRateLimit_rejected (svc : BidService) (now : Int) (u : String)
    (h : (svc.checkRateLimit now u).1.allowed = false) :
    svc.checkRateLimit now u =
      ({ allowed := false,
         retryAfter := (recentOf now (svc.logOf u)).head?.map (fun t0 => retryAfterOf t0 now) },
       svc) := by
  have h5 := (checkRateLimit_allowed_iff svc now u).mp h
  rw [checkRateLimit_eq, if_pos h5]

theorem checkRateLimit_allowed (svc : BidService) (now : Int) (u : String)
    (h : (svc.checkRateLimit now u).1.allowed = true) :
    svc.checkRateLimit now u =
      ({ allowed := true, retryAfter := none },
       { svc with
         userRateLimits := svc.userRateLimits.set u (recentOf now (svc.logOf u) ++ [now]) }) := by
  have h5 : ¬ MAX_BIDS_PER_WINDOW ≤ (recentOf now (svc.logOf u)).length := by
    intro hc
    have := (checkRateLimit_allowed_iff svc now u).mpr hc
    rw [h] at this
    cases this
  rw [checkRateLimit_eq, if_neg h5]

theorem checkRateLimit_bidLocks (svc : BidService) (now : Int) (u : String) :
    (svc.checkRateLimit now u).2.bidLocks = svc.bidLocks := by
  rw [checkRateLimit_eq]
  split_ifs <;> rfl

/-- C6. `checkRateLimit(userId)` at time `now` answers `allowed = false` exactly when at least
5 timestamps `t` of the user's stored log satisfy `now - t < 10000` (so one that is exactly
10000 ms old does not count). When it rejects and the log is in non-decreasing order,
`retryAfter = ceil((t0 + 10000 - now) / 1000)` for the oldest timestamp `t0` still inside the
window. -/
theorem checkRateLimit_sliding_window (svc : BidService) (now : Int) (userId : String) :
    ((svc.checkRateLimit now userId).1.allowed = false ↔
      5 ≤ (svc.logOf userId).countP (fun t => decide (now - t < 10000))) ∧
    ((svc.logOf userId).Sorted (· ≤ ·) → (svc.checkRateLimit now userId).1.allowed = false →
      ∃ t0, t0 ∈ svc.logOf userId ∧ now - t0 < 10000 ∧
        (∀ t ∈ svc.logOf userId, now - t < 10000 → t0 ≤ t) ∧
        (svc.checkRateLimit now userId).1.retryAfter =
          some ⌈(((t0 + 10000 - now : Int) : ℚ)) / 1000⌉) := by
  constructor
  · rw [checkRateLimit_allowed_iff, List.countP_eq_length_filter]
    rfl
  · intro hs hrej
    have h5 := (checkRateLimit_allowed_iff svc now userId).mp hrej
    rw [checkRateLimit_rejected svc now userId hrej]
    have hsf : (recentOf now (svc.logOf userId)).Sorted (· ≤ ·) := hs.filter _
    cases hrec : recentOf now (svc.logOf userId) with
    | nil => rw [hrec] at h5; simp [MAX_BIDS_PER_WINDOW] at h5
    | cons t0 rest =>
      have hmem : t0 ∈ recentOf now (svc.logOf userId) := by rw [hrec]; exact List.mem_cons_self _ _
      have hmem' := List.mem_filter.mp hmem
      refine ⟨t0, hmem'.1, by simpa [RATE_LIMIT_WINDOW] using hmem'.2, ?_, ?_⟩
      · intro t ht hw
        have htm : t ∈ recentOf now (svc.logOf userId) :=
          List.mem_filter.mpr ⟨ht, by simpa [RATE_LIMIT_WINDOW] using hw⟩
        rw [hrec] at htm hsf
        rcases List.mem_cons.mp htm with rfl | h
        · exact le_refl _
        · exact (List.sorted_cons.mp hsf).1 t h
      · simp [retryAfterOf, RATE_LIMIT_WINDOW]

/-- C6 at a concrete input: a sixth attempt at 1500 after five attempts from 1000 to 1400 is
rejected with `retryAfter = 10`. -/
theorem checkRateLimit_sliding_window_witness :
    (exampleBusyService.logOf "A").Sorted (· ≤ ·) ∧
    (exampleBusyService.checkRateLimit 1500 "A").1.allowed = false ∧
    (exampleBusyService.checkRateLimit 1500 "A").1.retryAfter = some 10 := by
  have hs : (exampleBusyService.logOf "A").Sorted (· ≤ ·) := by
    simp [exampleBusyService, BidService.logOf, JSMap.get]
  have hc : 5 ≤ (exampleBusyService.logOf "A").countP (fun t => decide ((1500 : Int) - t < 10000)) := by
    simp [exampleBusyService, BidService.logOf, JSMap.get]
  have hrej := (checkRateLimit_sliding_window exampleBusyService 1500 "A").1.mpr hc
  obtain ⟨t0, hmem, _, hmin, hret⟩ :=
    (checkRateLimit_sliding_window exampleBusyService 1500 "A").2 hs hrej
  refine ⟨hs, hrej, ?_⟩
  have h1000 : (1000 : Int) ∈ exampleBusyService.logOf "A" := by
    simp [exampleBusyService, BidService.logOf, JSMap.get]
  have hle : t0 ≤ 1000 := hmin 1000 h1000 (by norm_num)
  have hge : 1000 ≤ t0 := by
    simp [exampleBusyService, BidService.logOf, JSMap.get] at hmem
    omega
  have ht0 : t0 = 1000 := le_antisymm hle hge
  rw [hret, ht0]
  congr 1
  rw [Int.ceil_eq_iff]
  norm_num

/-! ## Frame properties of `processBid` -/

/-- Under the lock the result is a success without a code, a business-rule rejection, or
PROCESSING_ERROR. -/
theorem processBidLocked_code_mem {σ : Type} (api : StoreApi σ) (clk : BidClock)
    (item user : String) (amount : Int) (st : σ) :
    (BidService.processBidLocked api clk item user amount st).1.code ∈
      [none, some "PROCESSING_ERROR", some "AUCTION_NOT_FOUND", some "AUCTION_ENDED",
       some "AUCTION_EXPIRED", some "BID_TOO_LOW", some "ALREADY_HIGHEST_BIDDER"] := by
  unfold BidService.processBidLocked BidService.validateBid
  rcases hg : api.getAuction item st with ⟨res, st1⟩
  cases res with
  | error e => simp [BidResult.failure]
  | ok auction =>
    simp only
    cases hv : (BidService.validateBidRules auction clk.validateNow user amount).isValid with
    | false =>
      have := validateBidRules_invalid_code auction clk.validateNow user amount hv
      simp only [Bool.not_false, if_true, BidResult.failure]
      simp only [List.mem_cons] at this ⊢
      tauto
    | true =>
      simp only [Bool.not_true, Bool.false_eq_true, if_false]
      rcases hx : BidService.executeBid api clk item user amount st1 with ⟨r, st2⟩
      cases r with
      | error e => simp [BidResult.failure]
      | ok r => simp

/-- A store whose `getAuction` throws makes the locked section report PROCESSING_ERROR. -/
theorem processBidLocked_getAuction_throws {σ : Type} (api : StoreApi σ) (clk : BidClock)
    (item user : String) (amount : Int) (st st1 : σ) (e : String)
    (h : api.getAuction item st = (.error e, st1)) :
    (BidService.processBidLocked api clk item user amount st).1 =
      BidResult.failure (some "Failed to process bid") (some "PROCESSING_ERROR") := by
  simp [BidService.processBidLocked, BidService.validateBid, h]

/-- The lock table after a call is the lock table before it. -/
theorem processBid_bidLocks {σ : Type} (api : StoreApi σ) (svc : BidService) (clk : BidClock)
    (itemId userId bidAmount : JSValue) (st : σ) :
    (BidService.processBid api svc clk itemId userId bidAmount st).2.1.bidLocks = svc.bidLocks := by
  cases hv : (BidService.validateInput itemId userId bidAmount).valid with
  | false => rw [processBid_invalid _ _ _ _ _ _ _ hv]
  | true =>
    cases hr : (svc.checkRateLimit clk.rateLimitNow userId.asString).1.allowed with
    | false =>
      rw [processBid_rateLimited _ _ _ _ _ _ _ hv hr]
      exact checkRateLimit_bidLocks _ _ _
    | true =>
      cases hl : (svc.checkRateLimit clk.rateLimitNow
          userId.asString).2.bidLocks.has itemId.asString with
      | true =>
        rw [processBid_inProgress _ _ _ _ _ _ _ hv hr hl]
        exact checkRateLimit_bidLocks _ _ _
      | false =>
        rw [processBid_underLock _ _ _ _ _ _ _ hv hr hl]
        simp only
        rw [JSMap.delete_set_of_get_none]
        · exact checkRateLimit_bidLocks _ _ _
        · simpa [JSMap.has] using hl

/-- The rate-limit table after a call with valid input is the one `checkRateLimit` leaves,
and the result is RATE_LIMITED exactly when `checkRateLimit` rejected. -/
theorem processBid_rateLimits {σ : Type} (api : StoreApi σ) (svc : BidService) (clk : BidClock)
    (itemId userId bidAmount : JSValue) (st : σ)
    (hv : (BidService.validateInput itemId userId bidAmount).valid = true) :
    (BidService.processBid api svc clk itemId userId bidAmount st).2.1.userRateLimits =
      (svc.checkRateLimit clk.rateLimitNow userId.asString).2.userRateLimits ∧
    ((BidService.processBid api svc clk itemId userId bidAmount st).1.code = some "RATE_LIMITED" ↔
      (svc.checkRateLimit clk.rateLimitNow userId.asString).1.allowed = false) := by
  cases hr : (svc.checkRateLimit clk.rateLimitNow userId.asString).1.allowed with
  | false =>
    rw [processBid_rateLimited _ _ _ _ _ _ _ hv hr]
    simp [BidResult.failure]
  | true =>
    cases hl : (svc.checkRateLimit clk.rateLimitNow
        userId.asString).2.bidLocks.has itemId.asString with
    | true =>
      rw [processBid_inProgress _ _ _ _ _ _ _ hv hr hl]
      simp [BidResult.failure]
    | false =>
      rw [processBid_underLock _ _ _ _ _ _ _ hv hr hl]
      refine ⟨rfl, ?_⟩
      have := processBidLocked_code_mem api clk itemId.asString userId.asString bidAmount.asInt st
      simp only [List.mem_cons, List.mem_singleton, List.not_mem_nil, or_false] at this
      constructor
      · intro h
        rw [h] at this
        simp at this
      · intro h; cases h

/-- C8. A call whose input fails `validateInput` returns that validation error and leaves the
service (rate-limit log and lock table) and the store exactly as they were. A call whose
input passes and which the rate limiter allows leaves the user's log equal to the entries of
the old log still inside the window followed by one new timestamp, the clock reading of the
rate limiter, for every store behaviour and lock state, hence whatever the later outcome is;
the logs of other users are untouched. -/
theorem processBid_counts_attempts {σ : Type} (api : StoreApi σ) (svc : BidService)
    (clk : BidClock) (st : σ) :
    (∀ itemId userId bidAmount : JSValue,
      (BidService.validateInput itemId userId bidAmount).valid = false →
      BidService.processBid api svc clk itemId userId bidAmount st =
        (BidResult.failure (BidService.validateInput itemId userId bidAmount).error
          (BidService.validateInput itemId userId bidAmount).code, svc, st)) ∧
    (∀ (item user : String) (bidAmount : JSValue),
      (BidService.validateInput (.string item) (.string user) bidAmount).valid = true →
      (svc.checkRateLimit clk.rateLimitNow user).1.allowed = true →
      (BidService.processBid api svc clk (.string item) (.string user) bidAmount st).2.1.logOf user
        = recentOf clk.rateLimitNow (svc.logOf user) ++ [clk.rateLimitNow] ∧
      ∀ other, other ≠ user →
        (BidService.processBid api svc clk (.string item) (.string user) bidAmount
          st).2.1.logOf other = svc.logOf other) := by
  constructor
  · intro itemId userId bidAmount hv
    exact processBid_invalid api svc clk itemId userId bidAmount st hv
  · intro item user bidAmount hv hr
    have h := (processBid_rateLimits api svc clk (.string item) (.string user) bidAmount st hv).1
    simp only [JSValue.asString] at h
    simp only [BidService.logOf, h]
    rw [checkRateLimit_allowed svc clk.rateLimitNow user hr]
    refine ⟨by simp [JSMap.get_set_self, BidService.logOf], ?_⟩
    intro other hne
    simp [JSMap.get_set_of_ne _ _ hne]

/-- C8 at a concrete input: user `"A"` bids on `"item_1"` while another bid holds the lock;
the call is turned away with BID_IN_PROGRESS and the attempt is in the log all the same. -/
theorem processBid_counts_attempts_witness :
    (BidService.validateInput (.string "item_1") (.string "A") (.number (.finite 9000))).valid
      = true ∧
    (exampleLockedService.checkRateLimit (BidClock.at 1000).rateLimitNow "A").1.allowed = true ∧
    (BidService.processBid InMemoryStore.api exampleLockedService (BidClock.at 1000)
      (.string "item_1") (.string "A") (.number (.finite 9000)) exampleStore).2.1.logOf "A"
      = recentOf (BidClock.at 1000).rateLimitNow (exampleLockedService.logOf "A") ++
          [(BidClock.at 1000).rateLimitNow] := by
  have hv : (BidService.validateInput (.string "item_1") (.string "A")
      (.number (.finite 9000))).valid = true :=
    (validateInput_valid_iff _ _ _).mpr
      ⟨"item_1", "A", 9000, rfl, by decide, rfl, by decide, by norm_num, by norm_num, by norm_num⟩
  have hr : (exampleLockedService.checkRateLimit (BidClock.at 1000).rateLimitNow "A").1.allowed
      = true := by decide
  exact ⟨hv, hr,
    ((processBid_counts_attempts InMemoryStore.api exampleLockedService (BidClock.at 1000)
      exampleStore).2 "item_1" "A" (.number (.finite 9000)) hv hr).1⟩

/-! ## The per-item lock -/

/-- C9. With valid input and an allowed rate limit, a call that finds `itemId` in `bidLocks`
returns `success: false` with code BID_IN_PROGRESS; the state behind the store interface is
what it was, for every store (also one that records each call made to it, so no call was
made); and the lock table, with the holder's entry for `itemId`, is what it was. -/
theorem processBid_bid_in_progress {σ : Type} (api : StoreApi σ) (svc : BidService)
    (clk : BidClock) (item user : String) (bidAmount : JSValue) (st : σ)
    (hv : (BidService.validateInput (.string item) (.string user) bidAmount).valid = true)
    (hr : (svc.checkRateLimit clk.rateLimitNow user).1.allowed = true)
    (hl : svc.bidLocks.has item = true) :
    (BidService.processBid api svc clk (.string item) (.string user) bidAmount st).1 =
      { success := false, error := some "Another bid is being processed",
        code := some "BID_IN_PROGRESS", data := none } ∧
    (BidService.processBid api svc clk (.string item) (.string user) bidAmount st).2.2 = st ∧
    (BidService.processBid api svc clk (.string item) (.string user) bidAmount st).2.1.bidLocks
      = svc.bidLocks ∧
    (BidService.processBid api svc clk (.string item) (.string user) bidAmount
      st).2.1.bidLocks.has item = true := by
  have hl1 : (svc.checkRateLimit clk.rateLimitNow
      (JSValue.string user).asString).2.bidLocks.has (JSValue.string item).asString = true := by
    simp only [JSValue.asString, checkRateLimit_bidLocks]
    exact hl
  have hb := processBid_bidLocks api svc clk (.string item) (.string user) bidAmount st
  refine ⟨?_, ?_, hb, by rw [hb]; exact hl⟩
  · rw [processBid_inProgress api svc clk _ _ _ st hv hr hl1]
    rfl
  · rw [processBid_inProgress api svc clk _ _ _ st hv hr hl1]

/-- C9 at a concrete input: `"A"` bids on `"item_1"` while `"B"` holds its lock, against the
store that counts its calls; the counter stays at 0. -/
theorem processBid_bid_in_progress_witness :
    (BidService.validateInput (.string "item_1") (.string "A") (.number (.finite 9000))).valid
      = true ∧
    (exampleLockedService.checkRateLimit (BidClock.at 1000).rateLimitNow "A").1.allowed = true ∧
    exampleLockedService.bidLocks.has "item_1" = true ∧
    (BidService.processBid countingApi exampleLockedService (BidClock.at 1000)
      (.string "item_1") (.string "A") (.number (.finite 9000)) (0, exampleStore)).1.code
      = some "BID_IN_PROGRESS" ∧
    (BidService.processBid countingApi exampleLockedService (BidClock.at 1000)
      (.string "item_1") (.string "A") (.number (.finite 9000)) (0, exampleStore)).2.2
      = (0, exampleStore) ∧
    (BidService.processBid countingApi exampleLockedService (BidClock.at 1000)
      (.string "item_1") (.string "A") (.number (.finite 9000))
      (0, exampleStore)).2.1.bidLocks.get "item_1" = some { acquiredAt := 900, userId := "B" } := by
  have hv : (BidService.validateInput (.string "item_1") (.string "A")
      (.number (.finite 9000))).valid = true :=
    (validateInput_valid_iff _ _ _).mpr
      ⟨"item_1", "A", 9000, rfl, by decide, rfl, by decide, by norm_num, by norm_num, by norm_num⟩
  have hr : (exampleLockedService.checkRateLimit (BidClock.at 1000).rateLimitNow "A").1.allowed
      = true := by decide
  have hl : exampleLockedService.bidLocks.has "item_1" = true := by decide
  obtain ⟨h1, h2, h3, _⟩ :=
    processBid_bid_in_progress countingApi exampleLockedService (BidClock.at 1000) "item_1" "A"
      (.number (.finite 9000)) (0, exampleStore) hv hr hl
  refine ⟨hv, hr, hl, by rw [h1], h2, ?_⟩
  rw [h3]
  decide

/-- C10. A call that starts with no lock held for `itemId` returns with no lock held for
`itemId`, and every other entry of the lock table is what it was, for every store behaviour
and every outcome. In particular, when the store throws inside `validateBid` or `executeBid`
(input valid, rate limit allowed) the result is PROCESSING_ERROR and the lock is released all
the same. -/
theorem processBid_releases_lock {σ : Type} (api : StoreApi σ) (svc : BidService)
    (clk : BidClock) (item : String) (userId bidAmount : JSValue) (st : σ)
    (hl : svc.bidLocks.has item = false) :
    (BidService.processBid api svc clk (.string item) userId bidAmount st).2.1.bidLocks.has item
      = false ∧
    (∀ k, k ≠ item →
      (BidService.processBid api svc clk (.string item) userId bidAmount st).2.1.bidLocks.get k
        = svc.bidLocks.get k) ∧
    ((BidService.validateInput (.string item) userId bidAmount).valid = true →
      (svc.checkRateLimit clk.rateLimitNow userId.asString).1.allowed = true →
      ((∃ e st1, BidService.validateBid api clk.validateNow item userId.asString bidAmount.asInt st
          = (.error e, st1)) ∨
       (∃ v st1 e st2,
          BidService.validateBid api clk.validateNow item userId.asString bidAmount.asInt st
            = (.ok v, st1) ∧ v.isValid = true ∧
          BidService.executeBid api clk item userId.asString bidAmount.asInt st1
            = (.error e, st2))) →
      (BidService.processBid api svc clk (.string item) userId bidAmount st).1.success = false ∧
      (BidService.processBid api svc clk (.string item) userId bidAmount st).1.code
        = some "PROCESSING_ERROR") := by
  have hb := processBid_bidLocks api svc clk (.string item) userId bidAmount st
  refine ⟨by rw [hb]; exact hl, fun k _ => by rw [hb], ?_⟩
  intro hv hr hthrow
  have hl1 : (svc.checkRateLimit clk.rateLimitNow
      userId.asString).2.bidLocks.has (JSValue.string item).asString = false := by
    rw [checkRateLimit_bidLocks]
    exact hl
  rw [processBid_underLock api svc clk _ _ _ st hv hr hl1]
  simp only [show (JSValue.string item).asString = item from rfl]
  rcases hthrow with ⟨e, st1, h⟩ | ⟨v, st1, e, st2, h1, h2, h3⟩
  · simp [BidService.processBidLocked, h, BidResult.failure]
  · simp [BidService.processBidLocked, h1, h2, h3, BidResult.failure]

/-- C10 at a concrete input: a bid on `"item_1"` against a store whose calls throw. -/
theorem processBid_releases_lock_witness :
    BidService.new.bidLocks.has "item_1" = false ∧
    (BidService.processBid failingApi BidService.new (BidClock.at 1000) (.string "item_1")
      (.string "A") (.number (.finite 9000)) ()).2.1.bidLocks.has "item_1" = false ∧
    (BidService.processBid failingApi BidService.new (BidClock.at 1000) (.string "item_1")
      (.string "A") (.number (.finite 9000)) ()).1.code = some "PROCESSING_ERROR" := by
  have hv : (BidService.validateInput (.string "item_1") (.string "A")
      (.number (.finite 9000))).valid = true :=
    (validateInput_valid_iff _ _ _).mpr
      ⟨"item_1", "A", 9000, rfl, by decide, rfl, by decide, by norm_num, by norm_num, by norm_num⟩
  have hr : (BidService.new.checkRateLimit (BidClock.at 1000).rateLimitNow
      (JSValue.string "A").asString).1.allowed = true := by decide
  have h := processBid_releases_lock failingApi BidService.new (BidClock.at 1000) "item_1"
    (.string "A") (.number (.finite 9000)) () (by decide)
  exact ⟨by decide, h.1, (h.2.2 hv hr (Or.inl ⟨"store unavailable", (), rfl⟩)).2⟩

/-! ## Six attempts inside one window -/

theorem recentOf_eq_self (now : Int) (l : List Int) (h : ∀ t ∈ l, now - t < 10000) :
    recentOf now l = l := by
  unfold recentOf
  rw [List.filter_eq_self]
  intro t ht
  simpa [RATE_LIMIT_WINDOW] using h t ht

/-- An attempt with valid input, made when fewer than five logged attempts exist and all of
them are inside the window, passes the rate limiter and is logged. -/
theorem processBid_attempt_logged {σ : Type} (api : StoreApi σ) (svc : BidService)
    (c : BidRequest) (st : σ) (user : String) (l : List Int)
    (hu : c.userId = .string user)
    (hv : (BidService.validateInput c.itemId c.userId c.bidAmount).valid = true)
    (hlog : svc.logOf user = l) (hwin : ∀ t ∈ l, c.clk.rateLimitNow - t < 10000)
    (hlen : l.length < 5) :
    (BidService.processBid api svc c.clk c.itemId c.userId c.bidAmount st).1.code
      ≠ some "RATE_LIMITED" ∧
    (BidService.processBid api svc c.clk c.itemId c.userId c.bidAmount st).2.1.logOf user
      = l ++ [c.clk.rateLimitNow] := by
  have hr : (svc.checkRateLimit c.clk.rateLimitNow user).1.allowed = true := by
    cases h : (svc.checkRateLimit c.clk.rateLimitNow user).1.allowed with
    | true => rfl
    | false =>
      have := (checkRateLimit_allowed_iff svc c.clk.rateLimitNow user).mp h
      rw [hlog, recentOf_eq_self _ _ hwin] at this
      simp only [MAX_BIDS_PER_WINDOW] at this
      omega
  obtain ⟨h1, h2⟩ := processBid_rateLimits api svc c.clk c.itemId c.userId c.bidAmount st hv
  rw [hu] at h1 h2
  simp only [JSValue.asString] at h1 h2
  rw [hu]
  constructor
  · intro hc
    have := h2.mp hc
    rw [hr] at this
    cases this
  · simp only [BidService.logOf, h1]
    rw [checkRateLimit_allowed svc c.clk.rateLimitNow user hr]
    simp [JSMap.get_set_self, hlog, recentOf_eq_self _ _ hwin]

/-- An attempt with valid input, made when the log holds five or more attempts, all inside
the window, is turned away with RATE_LIMITED and changes nothing. -/
theorem processBid_attempt_rejected {σ : Type} (api : StoreApi σ) (svc : BidService)
    (c : BidRequest) (st : σ) (user : String) (t0 : Int) (l : List Int)
    (hu : c.userId = .string user)
    (hv : (BidService.validateInput c.itemId c.userId c.bidAmount).valid = true)
    (hlog : svc.logOf user = t0 :: l) (hwin : ∀ t ∈ t0 :: l, c.clk.rateLimitNow - t < 10000)
    (hlen : 5 ≤ (t0 :: l).length) :
    BidService.processBid api svc c.clk c.itemId c.userId c.bidAmount st =
      (BidResult.failure
        (some ("Too many bids. Try again in " ++
          toString (retryAfterOf t0 c.clk.rateLimitNow) ++ "s"))
        (some "RATE_LIMITED"), svc, st) := by
  have hr : (svc.checkRateLimit c.clk.rateLimitNow user).1.allowed = false := by
    rw [checkRateLimit_allowed_iff, hlog, recentOf_eq_self _ _ hwin]
    exact hlen
  rw [hu] at hv ⊢
  rw [processBid_rateLimited api svc c.clk c.itemId (.string user) c.bidAmount st hv hr]
  simp only [JSValue.asString]
  rw [checkRateLimit_rejected svc c.clk.rateLimitNow user hr, hlog,
    recentOf_eq_self _ _ hwin]
  rfl

theorem retryAfterOf_bounds (t0 now : Int) (h0 : t0 ≤ now) (h1 : now - t0 < 10000) :
    1 ≤ retryAfterOf t0 now ∧ retryAfterOf t0 now ≤ 10 := by
  unfold retryAfterOf RATE_LIMIT_WINDOW
  constructor
  · rw [Int.one_le_ceil_iff]
    have : (0 : ℚ) < ((t0 + 10000 - now : Int) : ℚ) := by
      exact_mod_cast (by omega : (0 : Int) < t0 + 10000 - now)
    positivity
  · rw [Int.ceil_le]
    have : ((t0 + 10000 - now : Int) : ℚ) ≤ ((10000 : Int) : ℚ) := by
      exact_mod_cast (by omega : t0 + 10000 - now ≤ 10000)
    rw [div_le_iff₀ (by norm_num)]
    push_cast at this ⊢
    linarith

/-- C7. A user whose log is empty makes six attempts with valid input, at non-decreasing
times `t1 .. t6` with `t6 - t1 < 10000`, against any store and any items. None of the first
five is RATE_LIMITED; the sixth returns `success: false` with code RATE_LIMITED and the
message built from an integer `retryAfter` with `1 ≤ retryAfter ≤ 10`; the rejected attempt
is not logged, and a following attempt with valid input at any time `t ≥ t1 + 10000` passes
the rate limiter. -/
theorem rateLimit_sixth_attempt {σ : Type} (api : StoreApi σ) (svc : BidService) (st : σ)
    (user : String) (c1 c2 c3 c4 c5 c6 : BidRequest)
    (hlog : svc.logOf user = [])
    (hvalid : ∀ c ∈ [c1, c2, c3, c4, c5, c6], c.userId = .string user ∧
      (BidService.validateInput c.itemId c.userId c.bidAmount).valid = true)
    (htimes : c1.clk.rateLimitNow ≤ c2.clk.rateLimitNow ∧
      c2.clk.rateLimitNow ≤ c3.clk.rateLimitNow ∧ c3.clk.rateLimitNow ≤ c4.clk.rateLimitNow ∧
      c4.clk.rateLimitNow ≤ c5.clk.rateLimitNow ∧ c5.clk.rateLimitNow ≤ c6.clk.rateLimitNow)
    (hwindow : c6.clk.rateLimitNow - c1.clk.rateLimitNow < 10000) :
    ∃ (r1 r2 r3 r4 r5 r6 : BidResult) (svc6 : BidService) (st6 : σ) (retryAfter : Int),
      runBids api svc st [c1, c2, c3, c4, c5, c6] = ([r1, r2, r3, r4, r5, r6], svc6, st6) ∧
      r1.code ≠ some "RATE_LIMITED" ∧ r2.code ≠ some "RATE_LIMITED" ∧
      r3.code ≠ some "RATE_LIMITED" ∧ r4.code ≠ some "RATE_LIMITED" ∧
      r5.code ≠ some "RATE_LIMITED" ∧
      r6.success = false ∧ r6.code = some "RATE_LIMITED" ∧
      r6.error = some ("Too many bids. Try again in " ++ toString retryAfter ++ "s") ∧
      1 ≤ retryAfter ∧ retryAfter ≤ 10 ∧
      svc6.logOf user = [c1.clk.rateLimitNow, c2.clk.rateLimitNow, c3.clk.rateLimitNow,
        c4.clk.rateLimitNow, c5.clk.rateLimitNow] ∧
      ∀ c7 : BidRequest, c7.userId = .string user →
        (BidService.validateInput c7.itemId c7.userId c7.bidAmount).valid = true →
        c1.clk.rateLimitNow + 10000 ≤ c7.clk.rateLimitNow →
        (svc6.checkRateLimit c7.clk.rateLimitNow user).1.allowed = true ∧
        (BidService.processBid api svc6 c7.clk c7.itemId c7.userId c7.bidAmount st6).1.code
          ≠ some "RATE_LIMITED" := by
  obtain ⟨h12, h23, h34, h45, h56⟩ := htimes
  have hv1 := hvalid c1 (by simp)
  have hv2 := hvalid c2 (by simp)
  have hv3 := hvalid c3 (by simp)
  have hv4 := hvalid c4 (by simp)
  have hv5 := hvalid c5 (by simp)
  have hv6 := hvalid c6 (by simp)
  simp only [runBids]
  set o1 := BidService.processBid api svc c1.clk c1.itemId c1.userId c1.bidAmount st
  set o2 := BidService.processBid api o1.2.1 c2.clk c2.itemId c2.userId c2.bidAmount o1.2.2
  set o3 := BidService.processBid api o2.2.1 c3.clk c3.itemId c3.userId c3.bidAmount o2.2.2
  set o4 := BidService.processBid api o3.2.1 c4.clk c4.itemId c4.userId c4.bidAmount o3.2.2
  set o5 := BidService.processBid api o4.2.1 c5.clk c5.itemId c5.userId c5.bidAmount o4.2.2
  obtain ⟨hc1, hl1⟩ := processBid_attempt_logged api svc c1 st user [] hv1.1 hv1.2 hlog
    (by simp) (by simp)
  obtain ⟨hc2, hl2⟩ := processBid_attempt_logged api o1.2.1 c2 o1.2.2 user _ hv2.1 hv2.2 hl1
    (by intro t ht; simp at ht; omega) (by simp)
  obtain ⟨hc3, hl3⟩ := processBid_attempt_logged api o2.2.1 c3 o2.2.2 user _ hv3.1 hv3.2 hl2
    (by intro t ht; simp at ht; omega) (by simp)
  obtain ⟨hc4, hl4⟩ := processBid_attempt_logged api o3.2.1 c4 o3.2.2 user _ hv4.1 hv4.2 hl3
    (by intro t ht; simp at ht; omega) (by simp)
  obtain ⟨hc5, hl5⟩ := processBid_attempt_logged api o4.2.1 c5 o4.2.2 user _ hv5.1 hv5.2 hl4
    (by intro t ht; simp at ht; omega) (by simp)
  simp only [List.nil_append, List.cons_append] at hl1 hl2 hl3 hl4 hl5
  have h6 := processBid_attempt_rejected api o5.2.1 c6 o5.2.2 user _ _ hv6.1 hv6.2 hl5
    (by intro t ht; simp at ht; omega) (by simp)
  obtain ⟨hb1, hb2⟩ := retryAfterOf_bounds c1.clk.rateLimitNow c6.clk.rateLimitNow
    (by omega) hwindow
  refine ⟨o1.1, o2.1, o3.1, o4.1, o5.1, _, o5.2.1, o5.2.2,
    retryAfterOf c1.clk.rateLimitNow c6.clk.rateLimitNow,
    by rw [h6], hc1, hc2, hc3, hc4, hc5, rfl, rfl, rfl, hb1, hb2, hl5, ?_⟩
  intro c7 hu7 hv7 ht7
  have hr : (o5.2.1.checkRateLimit c7.clk.rateLimitNow user).1.allowed = true := by
    cases h : (o5.2.1.checkRateLimit c7.clk.rateLimitNow user).1.allowed with
    | true => rfl
    | false =>
      have h5 := (checkRateLimit_allowed_iff _ c7.clk.rateLimitNow user).mp h
      rw [hl5] at h5
      have hdrop : recentOf c7.clk.rateLimitNow
          [c1.clk.rateLimitNow, c2.clk.rateLimitNow, c3.clk.rateLimitNow, c4.clk.rateLimitNow,
            c5.clk.rateLimitNow] =
          recentOf c7.clk.rateLimitNow
            [c2.clk.rateLimitNow, c3.clk.rateLimitNow, c4.clk.rateLimitNow,
              c5.clk.rateLimitNow] := by
        have : ¬ (c7.clk.rateLimitNow - c1.clk.rateLimitNow < 10000) := by omega
        simp only [recentOf, RATE_LIMIT_WINDOW]
        rw [List.filter_cons]
        simp [this]
      rw [hdrop] at h5
      have hle := List.length_filter_le
        (fun t => decide (c7.clk.rateLimitNow - t < RATE_LIMIT_WINDOW))
        [c2.clk.rateLimitNow, c3.clk.rateLimitNow, c4.clk.rateLimitNow, c5.clk.rateLimitNow]
      simp only [recentOf, MAX_BIDS_PER_WINDOW] at h5
      simp only [List.length_cons, List.length_nil] at hle
      omega
  refine ⟨hr, ?_⟩
  intro hc
  have h2 := (processBid_rateLimits api o5.2.1 c7.clk c7.itemId c7.userId c7.bidAmount o5.2.2
    hv7).2.mp hc
  rw [hu7] at h2
  simp only [JSValue.asString] at h2
  rw [hr] at h2
  cases h2

theorem requestAt_valid (t : Int) (u : String) (n : Int) (hu : jsTrim u ≠ "") (h1 : 1 ≤ n)
    (h2 : n ≤ 10000000) :
    (requestAt t u n).userId = .string u ∧
    (BidService.validateInput (requestAt t u n).itemId (requestAt t u n).userId
      (requestAt t u n).bidAmount).valid = true :=
  ⟨rfl, (validateInput_valid_iff _ _ _).mpr
    ⟨"item_1", u, n, rfl, by decide, rfl, hu, rfl, h1, h2⟩⟩

/-- C7 at a concrete input: six attempts by `"A"`, 100 ms apart from time 1000, on the example
store with a fresh service. -/
theorem rateLimit_sixth_attempt_witness :
    BidService.new.logOf "A" = [] ∧
    (requestAt 1500 "A" 9500).clk.rateLimitNow - (requestAt 1000 "A" 9000).clk.rateLimitNow
      < 10000 ∧
    ∃ (r1 r2 r3 r4 r5 r6 : BidResult) (svc6 : BidService) (st6 : InMemoryStore)
      (retryAfter : Int),
      runBids InMemoryStore.api BidService.new exampleStore
        [requestAt 1000 "A" 9000, requestAt 1100 "A" 9100, requestAt 1200 "A" 9200,
         requestAt 1300 "A" 9300, requestAt 1400 "A" 9400, requestAt 1500 "A" 9500]
        = ([r1, r2, r3, r4, r5, r6], svc6, st6) ∧
      r1.code ≠ some "RATE_LIMITED" ∧ r2.code ≠ some "RATE_LIMITED" ∧
      r3.code ≠ some "RATE_LIMITED" ∧ r4.code ≠ some "RATE_LIMITED" ∧
      r5.code ≠ some "RATE_LIMITED" ∧
      r6.success = false ∧ r6.code = some "RATE_LIMITED" ∧
      r6.error = some ("Too many bids. Try again in " ++ toString retryAfter ++ "s") ∧
      1 ≤ retryAfter ∧ retryAfter ≤ 10 ∧
      svc6.logOf "A" = [(requestAt 1000 "A" 9000).clk.rateLimitNow,
        (requestAt 1100 "A" 9100).clk.rateLimitNow, (requestAt 1200 "A" 9200).clk.rateLimitNow,
        (requestAt 1300 "A" 9300).clk.rateLimitNow, (requestAt 1400 "A" 9400).clk.rateLimitNow] ∧
      ∀ c7 : BidRequest, c7.userId = .string "A" →
        (BidService.validateInput c7.itemId c7.userId c7.bidAmount).valid = true →
        (requestAt 1000 "A" 9000).clk.rateLimitNow + 10000 ≤ c7.clk.rateLimitNow →
        (svc6.checkRateLimit c7.clk.rateLimitNow "A").1.allowed = true ∧
        (BidService.processBid InMemoryStore.api svc6 c7.clk c7.itemId c7.userId c7.bidAmount
          st6).1.code ≠ some "RATE_LIMITED" :=
  ⟨rfl, by decide,
    rateLimit_sixth_attempt InMemoryStore.api BidService.new exampleStore "A"
      (requestAt 1000 "A" 9000) (requestAt 1100 "A" 9100) (requestAt 1200 "A" 9200)
      (requestAt 1300 "A" 9300) (requestAt 1400 "A" 9400) (requestAt 1500 "A" 9500)
      rfl
      (by
        intro c hc
        simp only [List.mem_cons, List.mem_singleton, List.not_mem_nil, or_false] at hc
        rcases hc with rfl | rfl | rfl | rfl | rfl | rfl <;>
          exact requestAt_valid _ "A" _ (by decide) (by norm_num) (by norm_num))
      (by decide) (by decide)⟩

/-! ## Every outcome is a structured result -/

theorem validateInput_invalid_shape (itemId userId bidAmount : JSValue)
    (h : (BidService.validateInput itemId userId bidAmount).valid = false) :
    (BidService.validateInput itemId userId bidAmount).error.isSome = true ∧
    ∃ c, (BidService.validateInput itemId userId bidAmount).code = some c ∧
      c ∈ processBidCodes := by
  unfold BidService.validateInput at h ⊢
  simp only [processBidCodes]
  split_ifs at h ⊢
  · simp
  · simp
  · cases bidAmount with
    | number n =>
      simp only at h ⊢
      split_ifs at h ⊢ <;> simp_all
    | undefined => simp
    | null => simp
    | boolean b => simp
    | string s => simp
    | object => simp

theorem validateBidRules_invalid_shape (auction : Option Auction) (now : Int) (user : String)
    (amount : Int) (h : (BidService.validateBidRules auction now user amount).isValid = false) :
    (BidService.validateBidRules auction now user amount).error.isSome = true ∧
    ∃ c, (BidService.validateBidRules auction now user amount).code = some c ∧
      c ∈ processBidCodes := by
  cases auction with
  | none => simp [BidService.validateBidRules, processBidCodes]
  | some a =>
    simp only [BidService.validateBidRules, processBidCodes] at h ⊢
    split_ifs at h ⊢ <;> simp_all

theorem processBidLocked_wellFormed {σ : Type} (api : StoreApi σ) (clk : BidClock)
    (item user : String) (amount : Int) (st : σ) :
    (BidService.processBidLocked api clk item user amount st).1.WellFormed := by
  unfold BidService.processBidLocked BidService.validateBid
  rcases hg : api.getAuction item st with ⟨res, st1⟩
  cases res with
  | error e => right; simp [BidResult.failure, processBidCodes]
  | ok auction =>
    simp only
    cases hv : (BidService.validateBidRules auction clk.validateNow user amount).isValid with
    | false =>
      obtain ⟨he, c, hc, hmem⟩ :=
        validateBidRules_invalid_shape auction clk.validateNow user amount hv
      right
      simp only [Bool.not_false, if_true, BidResult.failure]
      exact ⟨trivial, trivial, he, c, hc, hmem⟩
    | true =>
      simp only [Bool.not_true, Bool.false_eq_true, if_false]
      rcases hx : BidService.executeBid api clk item user amount st1 with ⟨r, st2⟩
      cases r with
      | error e => right; simp [BidResult.failure, processBidCodes]
      | ok r => left; simp

/-- C11. For any arguments and any store behaviour (also a store whose `getAuction` or
`updateAuction` throws) `processBid` returns a result, and the result is either
`{ success: true, data }` or `{ success: false, error, code }` with `code` one of
INVALID_ITEM_ID, INVALID_USER_ID, INVALID_BID_TYPE, NEGATIVE_BID, BID_TOO_HIGH,
FRACTIONAL_BID, RATE_LIMITED, BID_IN_PROGRESS, AUCTION_NOT_FOUND, AUCTION_ENDED,
AUCTION_EXPIRED, BID_TOO_LOW, ALREADY_HIGHEST_BIDDER, PROCESSING_ERROR. -/
theorem processBid_structured_result {σ : Type} (api : StoreApi σ) (svc : BidService)
    (clk : BidClock) (itemId userId bidAmount : JSValue) (st : σ) :
    ((BidService.processBid api svc clk itemId userId bidAmount st).1.success = true ∧
      (BidService.processBid api svc clk itemId userId bidAmount st).1.data.isSome = true ∧
      (BidService.processBid api svc clk itemId userId bidAmount st).1.error = none ∧
      (BidService.processBid api svc clk itemId userId bidAmount st).1.code = none) ∨
    ((BidService.processBid api svc clk itemId userId bidAmount st).1.success = false ∧
      (BidService.processBid api svc clk itemId userId bidAmount st).1.data = none ∧
      (BidService.processBid api svc clk itemId userId bidAmount st).1.error.isSome = true ∧
      ∃ c, (BidService.processBid api svc clk itemId userId bidAmount st).1.code = some c ∧
        c ∈ ["INVALID_ITEM_ID", "INVALID_USER_ID", "INVALID_BID_TYPE", "NEGATIVE_BID",
          "BID_TOO_HIGH", "FRACTIONAL_BID", "RATE_LIMITED", "BID_IN_PROGRESS",
          "AUCTION_NOT_FOUND", "AUCTION_ENDED", "AUCTION_EXPIRED", "BID_TOO_LOW",
          "ALREADY_HIGHEST_BIDDER", "PROCESSING_ERROR"]) := by
  cases hv : (BidService.validateInput itemId userId bidAmount).valid with
  | false =>
    obtain ⟨he, c, hc, hmem⟩ := validateInput_invalid_shape itemId userId bidAmount hv
    rw [processBid_invalid _ _ _ _ _ _ _ hv]
    exact Or.inr ⟨rfl, rfl, he, c, hc, hmem⟩
  | true =>
    cases hr : (svc.checkRateLimit clk.rateLimitNow userId.asString).1.allowed with
    | false =>
      rw [processBid_rateLimited _ _ _ _ _ _ _ hv hr]
      right
      simp [BidResult.failure]
    | true =>
      cases hl : (svc.checkRateLimit clk.rateLimitNow
          userId.asString).2.bidLocks.has itemId.asString with
      | true =>
        rw [processBid_inProgress _ _ _ _ _ _ _ hv hr hl]
        right
        simp [BidResult.failure]
      | false =>
        rw [processBid_underLock _ _ _ _ _ _ _ hv hr hl]
        exact processBidLocked_wellFormed api clk itemId.asString userId.asString
          bidAmount.asInt st

/-! ## Ending and extending an auction -/

/-- The auction object after the two assignments of `endAuction`. -/
theorem endAuction_of_active (ts : TimerService) (now : Int) (item : String)
    (st : InMemoryStore) (a : Auction) (ha : st.getAuction item = some a)
    (hs : a.status = "active") :
    ts.endAuction now item st =
      ({ st with auctions := st.auctions.set item { a with status := "ended", endedAt := some now } },
       (ts.cancelTimer item).emit (.auctionEnd item a.currentBidder a.currentBid now)) := by
  simp [TimerService.endAuction, ha, hs, InMemoryStore.updateAuction]

theorem endAuction_of_not_active (ts : TimerService) (now : Int) (item : String)
    (st : InMemoryStore) (a : Auction) (ha : st.getAuction item = some a)
    (hs : a.status ≠ "active") : ts.endAuction now item st = (st, ts) := by
  simp [TimerService.endAuction, ha, hs]

theorem endAuction_of_missing (ts : TimerService) (now : Int) (item : String)
    (st : InMemoryStore) (ha : st.getAuction item = none) :
    ts.endAuction now item st = (st, ts) := by
  simp [TimerService.endAuction, ha]

theorem extendIfNeeded_of_window (ts : TimerService) (now startNow : Int) (item : String)
    (st : InMemoryStore) (a : Auction) (ha : st.getAuction item = some a)
    (h0 : 0 < a.endTime - now) (h1 : a.endTime - now < 30000) :
    ts.extendIfNeeded now startNow item st =
      (.ok true,
       { st with auctions := st.auctions.set item { a with endTime := a.endTime + 30000 } },
       ((ts.cancelTimer item).startTimer startNow item (a.endTime + 30000)).emit
         (.auctionExtended item (a.endTime + 30000) 30)) := by
  simp [TimerService.extendIfNeeded, ha, h0, h1, InMemoryStore.updateAuction]

theorem extendIfNeeded_of_not_window (ts : TimerService) (now startNow : Int) (item : String)
    (st : InMemoryStore) (a : Auction) (ha : st.getAuction item = some a)
    (h : ¬ (0 < a.endTime - now ∧ a.endTime - now < 30000)) :
    ts.extendIfNeeded now startNow item st = (.ok false, st, ts) := by
  have h' : ¬ (a.endTime - now < 30000 ∧ a.endTime - now > 0) := fun hc => h ⟨hc.2, hc.1⟩
  simp only [TimerService.extendIfNeeded, ha, h', if_false]

theorem extendIfNeeded_of_missing (ts : TimerService) (now startNow : Int) (item : String)
    (st : InMemoryStore) (ha : st.getAuction item = none) :
    ts.extendIfNeeded now startNow item st = (.error "TypeError", st, ts) := by
  simp [TimerService.extendIfNeeded, ha]

@[simp] theorem clearTimer_emitted (ts : TimerService) (h : Nat) :
    (ts.clearTimer h).emitted = ts.emitted := rfl

@[simp] theorem cancelTimer_emitted (ts : TimerService) (item : String) :
    (ts.cancelTimer item).emitted = ts.emitted := by
  unfold TimerService.cancelTimer
  cases ts.timers.get item <;> cases ts.intervals.get item <;> rfl

@[simp] theorem startCountdownBroadcast_emitted (ts : TimerService) (item : String)
    (endTime : Int) : (ts.startCountdownBroadcast item endTime).emitted = ts.emitted := by
  unfold TimerService.startCountdownBroadcast
  split_ifs <;> rfl

/-- A delay between 1 and `TIMEOUT_MAX` is the delay the host waits. -/
theorem timerDelay_of_range (d : Int) (h1 : 1 ≤ d) (h2 : d ≤ 2147483647) : timerDelay d = d := by
  simp [timerDelay, TIMEOUT_MAX, h1, h2]

/-- A delay above `TIMEOUT_MAX` is replaced by 1 ms. -/
theorem timerDelay_of_overflow (d : Int) (h : 2147483647 < d) : timerDelay d = 1 := by
  have h2 : ¬ d ≤ 2147483647 := by omega
  simp [timerDelay, TIMEOUT_MAX, h2]

/-- The three branches of `startTimer`, written out. -/
theorem startTimer_eq (ts : TimerService) (now : Int) (item : String) (endTime : Int) :
    ts.startTimer now item endTime =
      if endTime - now ≤ 0 then
        { ts with pending := ts.pending ++ [.endAuction item] }
      else if endTime - now ≤ 60000 then
        TimerService.startCountdownBroadcast
          { ts with
            scheduled := ts.scheduled ++
              [{ handle := ts.nextHandle, delay := timerDelay (endTime - now),
                 repeating := false, callback := .endAuction item }],
            nextHandle := ts.nextHandle + 1,
            timers := ts.timers.set item ts.nextHandle } item endTime
      else
        { ts with
          scheduled := ts.scheduled ++
            [{ handle := ts.nextHandle, delay := timerDelay (endTime - now),
               repeating := false, callback := .endAuction item },
             { handle := ts.nextHandle + 1, delay := timerDelay (endTime - now - 60000),
               repeating := false, callback := .startCountdownBroadcast item endTime }],
          nextHandle := ts.nextHandle + 1 + 1,
          timers := ts.timers.set item ts.nextHandle } := by
  unfold TimerService.startTimer
  simp only [TimerService.setTimeout]
  split_ifs
  · rfl
  · rfl
  · simp

/-- The two branches of `startCountdownBroadcast`, written out. -/
theorem startCountdownBroadcast_eq (ts : TimerService) (item : String) (endTime : Int) :
    ts.startCountdownBroadcast item endTime =
      if ts.intervals.has item then ts
      else
        { ts with
          scheduled := ts.scheduled ++
            [{ handle := ts.nextHandle, delay := 1000, repeating := true,
               callback := .countdownTick item endTime }],
          nextHandle := ts.nextHandle + 1,
          intervals := ts.intervals.set item ts.nextHandle } := by
  unfold TimerService.startCountdownBroadcast
  simp only [TimerService.setInterval, timerDelay_of_range 1000 (by decide) (by decide)]

/-- The body of `cancelTimer`, written out. -/
theorem cancelTimer_eq (ts : TimerService) (item : String) :
    ts.cancelTimer item =
      { ts with
        scheduled := (ts.scheduled.filter
            (fun t => decide (some t.handle ≠ ts.timers.get item))).filter
            (fun t => decide (some t.handle ≠ ts.intervals.get item)),
        timers := ts.timers.delete item,
        intervals := ts.intervals.delete item } := by
  unfold TimerService.cancelTimer
  cases ht : ts.timers.get item <;> cases hi : ts.intervals.get item <;>
    simp [TimerService.clearTimer]

@[simp] theorem startTimer_emitted (ts : TimerService) (now : Int) (item : String)
    (endTime : Int) : (ts.startTimer now item endTime).emitted = ts.emitted := by
  rw [startTimer_eq]
  split_ifs
  · rfl
  · simp
  · rfl

/-- C13. For a stored auction whose status is `'active'`, `endAuction` called twice in
succession: the first call sets `status = 'ended'` and `endedAt` and adds one AUCTION_END
broadcast to the log; the second call changes nothing in the store or the timer service, so
the log holds exactly that one broadcast more than before, `status` stays `'ended'`,
`endedAt` keeps the value of the first call, and `currentBidder` and `currentBid` are as they
were. -/
theorem endAuction_idempotent (ts : TimerService) (now1 now2 : Int) (item : String)
    (st : InMemoryStore) (a : Auction) (ha : st.getAuction item = some a)
    (hs : a.status = "active") :
    (ts.endAuction now1 item st).2.endAuction now2 item (ts.endAuction now1 item st).1
      = ts.endAuction now1 item st ∧
    ((ts.endAuction now1 item st).2.endAuction now2 item
      (ts.endAuction now1 item st).1).2.emitted
      = ts.emitted ++ [.auctionEnd item a.currentBidder a.currentBid now1] ∧
    ∃ a2, ((ts.endAuction now1 item st).2.endAuction now2 item
        (ts.endAuction now1 item st).1).1.getAuction item = some a2 ∧
      a2.status = "ended" ∧ a2.endedAt = some now1 ∧
      a2.currentBidder = a.currentBidder ∧ a2.currentBid = a.currentBid := by
  have h1 := endAuction_of_active ts now1 item st a ha hs
  have hget : (ts.endAuction now1 item st).1.getAuction item
      = some { a with status := "ended", endedAt := some now1 } := by
    rw [h1]; simp [InMemoryStore.getAuction, JSMap.get_set_self]
  have h2 := endAuction_of_not_active (ts.endAuction now1 item st).2 now2 item
    (ts.endAuction now1 item st).1 _ hget (by simp)
  rw [h2]
  refine ⟨rfl, ?_, _, hget, rfl, rfl, rfl, rfl⟩
  rw [h1]
  simp [TimerService.emit]

/-- C13 at a concrete input: the example auction ended at 180000 and again at 180005. -/
theorem endAuction_idempotent_witness :
    exampleStore.getAuction "item_1" = some exampleAuction ∧
    exampleAuction.status = "active" ∧
    (TimerService.new.endAuction 180000 "item_1" exampleStore).2.endAuction 180005 "item_1"
        (TimerService.new.endAuction 180000 "item_1" exampleStore).1
      = TimerService.new.endAuction 180000 "item_1" exampleStore ∧
    ((TimerService.new.endAuction 180000 "item_1" exampleStore).2.endAuction 180005 "item_1"
        (TimerService.new.endAuction 180000 "item_1" exampleStore).1).2.emitted
      = [.auctionEnd "item_1" none 8500 180000] := by
  have h := endAuction_idempotent TimerService.new 180000 180005 "item_1" exampleStore
    exampleAuction rfl rfl
  exact ⟨rfl, rfl, h.1, h.2.1⟩

/-- C15. For a stored auction, `extendIfNeeded` returns `true` exactly when
`0 < endTime - now < 30000`, both bounds strict (exactly 30000 ms or exactly 0 ms remaining
does not extend). When it returns `true` the stored `endTime` is the old one plus 30000 and
the broadcast log gains exactly one event, AUCTION_EXTENDED with
`newEndTime = old endTime + 30000` and `extensionSeconds = 30`. Otherwise it returns `false`
and the store, the timer registrations and the broadcast log are what they were. -/
theorem extendIfNeeded_contract (ts : TimerService) (now startNow : Int) (item : String)
    (st : InMemoryStore) (a : Auction) (ha : st.getAuction item = some a) :
    ((ts.extendIfNeeded now startNow item st).1 = .ok true ↔
      0 < a.endTime - now ∧ a.endTime - now < 30000) ∧
    (a.endTime - now = 30000 → (ts.extendIfNeeded now startNow item st).1 = .ok false) ∧
    (a.endTime - now = 0 → (ts.extendIfNeeded now startNow item st).1 = .ok false) ∧
    ((ts.extendIfNeeded now startNow item st).1 = .ok true →
      ∃ a1, (ts.extendIfNeeded now startNow item st).2.1.getAuction item = some a1 ∧
        a1.endTime = a.endTime + 30000 ∧
        (ts.extendIfNeeded now startNow item st).2.2.emitted =
          ts.emitted ++ [.auctionExtended item (a.endTime + 30000) 30]) ∧
    ((ts.extendIfNeeded now startNow item st).1 ≠ .ok true →
      ts.extendIfNeeded now startNow item st = (.ok false, st, ts)) := by
  by_cases hw : 0 < a.endTime - now ∧ a.endTime - now < 30000
  · have h := extendIfNeeded_of_window ts now startNow item st a ha hw.1 hw.2
    rw [h]
    refine ⟨by simp [hw], by intro h3; omega, by intro h3; omega, ?_, by simp⟩
    intro _
    refine ⟨{ a with endTime := a.endTime + 30000 },
      by simp [InMemoryStore.getAuction, JSMap.get_set_self], rfl, ?_⟩
    simp [TimerService.emit]
  · have h := extendIfNeeded_of_not_window ts now startNow item st a ha hw
    rw [h]
    refine ⟨?_, fun _ => rfl, fun _ => rfl, ?_, fun _ => rfl⟩
    · constructor
      · intro hc; cases hc
      · intro hc; exact absurd hc hw
    · intro hc; cases hc

/-- C15 at a concrete input: the example auction (`endTime = 180000`) at `now = 160001`. -/
theorem extendIfNeeded_contract_witness :
    exampleStore.getAuction "item_1" = some exampleAuction ∧
    (TimerService.new.extendIfNeeded 160001 160001 "item_1" exampleStore).1 = .ok true ∧
    ∃ a1, (TimerService.new.extendIfNeeded 160001 160001 "item_1" exampleStore).2.1.getAuction
        "item_1" = some a1 ∧
      a1.endTime = exampleAuction.endTime + 30000 ∧
      (TimerService.new.extendIfNeeded 160001 160001 "item_1" exampleStore).2.2.emitted =
        TimerService.new.emitted ++
          [.auctionExtended "item_1" (exampleAuction.endTime + 30000) 30] := by
  have h := extendIfNeeded_contract TimerService.new 160001 160001 "item_1" exampleStore
    exampleAuction rfl
  have ht : (TimerService.new.extendIfNeeded 160001 160001 "item_1" exampleStore).1 = .ok true :=
    h.1.mpr (by decide)
  exact ⟨rfl, ht, h.2.2.2.1 ht⟩

/-! ## `endTime` only moves forward -/

theorem processBid_endTime (svc : BidService) (clk : BidClock)
    (itemId userId bidAmount : JSValue) (st : InMemoryStore) (item : String) (a : Auction)
    (ha : st.getAuction item = some a) :
    ∃ a1, (BidService.processBid InMemoryStore.api svc clk itemId userId bidAmount
        st).2.2.getAuction item = some a1 ∧
      a1.endTime = a.endTime ∧ a1.status = a.status ∧ a1.endedAt = a.endedAt := by
  rcases processBid_inMemory_step svc clk itemId userId bidAmount st with
    ⟨_, hst⟩ | ⟨item1, user, n, a0, _, _, _, _, _, ha0, _, _, _, _, _, hst⟩
  · exact ⟨a, by rw [hst]; exact ha, rfl, rfl, rfl⟩
  · rw [hst]
    simp only [InMemoryStore.getAuction]
    by_cases hk : item1 = item
    · subst hk
      rw [ha] at ha0
      cases ha0
      exact ⟨_, JSMap.get_set_self _ _ _, rfl, rfl, rfl⟩
    · exact ⟨a, by rw [JSMap.get_set_of_ne _ _ (Ne.symm hk)]; exact ha, rfl, rfl, rfl⟩

theorem endAuction_endTime (ts : TimerService) (now : Int) (itemId : String)
    (st : InMemoryStore) (item : String) (a : Auction) (ha : st.getAuction item = some a) :
    ∃ a1, (ts.endAuction now itemId st).1.getAuction item = some a1 ∧
      a1.endTime = a.endTime ∧ a1.currentBid = a.currentBid ∧
      a1.currentBidder = a.currentBidder ∧ a1.bids = a.bids := by
  unfold TimerService.endAuction
  cases hg : st.getAuction itemId with
  | none => exact ⟨a, ha, rfl, rfl, rfl, rfl⟩
  | some b =>
    by_cases hs : b.status = "active"
    · simp only [hs, ne_eq, not_true_eq_false, if_false, InMemoryStore.updateAuction,
        InMemoryStore.getAuction]
      by_cases hk : itemId = item
      · subst hk
        rw [ha] at hg
        cases hg
        exact ⟨_, JSMap.get_set_self _ _ _, rfl, rfl, rfl, rfl⟩
      · exact ⟨a, by rw [JSMap.get_set_of_ne _ _ (Ne.symm hk)]; exact ha, rfl, rfl, rfl, rfl⟩
    · simp only [ne_eq, hs, not_false_eq_true, if_true]
      exact ⟨a, ha, rfl, rfl, rfl, rfl⟩

theorem extendIfNeeded_endTime (ts : TimerService) (now startNow : Int) (itemId : String)
    (st : InMemoryStore) (item : String) (a : Auction) (ha : st.getAuction item = some a) :
    ∃ a1, (ts.extendIfNeeded now startNow itemId st).2.1.getAuction item = some a1 ∧
      (a1.endTime = a.endTime ∨
        (itemId = item ∧ (ts.extendIfNeeded now startNow itemId st).1 = .ok true ∧
          a1.endTime = a.endTime + 30000)) := by
  cases hg : st.getAuction itemId with
  | none =>
    rw [extendIfNeeded_of_missing ts now startNow itemId st hg]
    exact ⟨a, ha, Or.inl rfl⟩
  | some b =>
    by_cases hw : 0 < b.endTime - now ∧ b.endTime - now < 30000
    · rw [extendIfNeeded_of_window ts now startNow itemId st b hg hw.1 hw.2]
      simp only [InMemoryStore.getAuction]
      by_cases hk : itemId = item
      · subst hk
        rw [ha] at hg
        cases hg
        exact ⟨_, JSMap.get_set_self _ _ _, Or.inr ⟨rfl, trivial, rfl⟩⟩
      · exact ⟨a, by rw [JSMap.get_set_of_ne _ _ (Ne.symm hk)]; exact ha, Or.inl rfl⟩
    · rw [extendIfNeeded_of_not_window ts now startNow itemId st b hg hw]
      exact ⟨a, ha, Or.inl rfl⟩

/-- C16. For a stored auction and one call of `processBid`, `endAuction`, `extendIfNeeded`,
`startTimer` or `cancelTimer` (any arguments, any item): the auction is still stored, its
`endTime` after the call is at least the `endTime` before it, and it is a different value
only when the call is `extendIfNeeded` on this auction and returned `true`, in which case it
is the old value plus 30000. -/
theorem endTime_never_decreases (w : World) (call : ServiceCall) (item : String) (a : Auction)
    (ha : w.store.getAuction item = some a) :
    ∃ a1, (w.call call).store.getAuction item = some a1 ∧
      a.endTime ≤ a1.endTime ∧
      (a1.endTime ≠ a.endTime →
        a1.endTime = a.endTime + 30000 ∧
        ∃ now startNow, call = .operation (.extendIfNeeded now startNow item) ∧
          (w.timerService.extendIfNeeded now startNow item w.store).1 = .ok true) := by
  cases call with
  | startTimer now itemId endTime => exact ⟨a, ha, le_refl _, fun h => absurd rfl h⟩
  | cancelTimer itemId => exact ⟨a, ha, le_refl _, fun h => absurd rfl h⟩
  | operation op =>
    cases op with
    | processBid clk itemId userId bidAmount =>
      obtain ⟨a1, h1, h2, _⟩ :=
        processBid_endTime w.bidService clk itemId userId bidAmount w.store item a ha
      exact ⟨a1, h1, by rw [h2], fun h => absurd h2 h⟩
    | endAuction now itemId =>
      obtain ⟨a1, h1, h2, _⟩ := endAuction_endTime w.timerService now itemId w.store item a ha
      exact ⟨a1, h1, by rw [h2], fun h => absurd h2 h⟩
    | extendIfNeeded now startNow itemId =>
      obtain ⟨a1, h1, h2⟩ :=
        extendIfNeeded_endTime w.timerService now startNow itemId w.store item a ha
      refine ⟨a1, h1, ?_, ?_⟩
      · rcases h2 with h2 | ⟨_, _, h2⟩ <;> omega
      · intro hne
        rcases h2 with h2 | ⟨hk, hr, h2⟩
        · exact absurd h2 hne
        · subst hk
          exact ⟨h2, now, startNow, rfl, hr⟩

/-- C16 at a concrete input: an extension check on the example auction at 160001. -/
theorem endTime_never_decreases_witness :
    exampleWorld.store.getAuction "item_1" = some exampleAuction ∧
    ∃ a1, (exampleWorld.call (.operation (.extendIfNeeded 160001 160001 "item_1"))).store.getAuction
        "item_1" = some a1 ∧
      exampleAuction.endTime ≤ a1.endTime ∧
      (a1.endTime ≠ exampleAuction.endTime →
        a1.endTime = exampleAuction.endTime + 30000 ∧
        ∃ now startNow,
          ServiceCall.operation (.extendIfNeeded 160001 160001 "item_1")
            = .operation (.extendIfNeeded now startNow "item_1") ∧
          (exampleWorld.timerService.extendIfNeeded now startNow "item_1"
            exampleWorld.store).1 = .ok true) :=
  ⟨rfl, endTime_never_decreases exampleWorld (.operation (.extendIfNeeded 160001 160001 "item_1"))
    "item_1" exampleAuction rfl⟩

/-! ## The `ended` state -/

/-- A call of `processBid` leaves an auction that is not `'active'` exactly as it is. -/
theorem processBid_keeps_inactive (svc : BidService) (clk : BidClock)
    (itemId userId bidAmount : JSValue) (st : InMemoryStore) (item : String) (a : Auction)
    (ha : st.getAuction item = some a) (hs : a.status ≠ "active") :
    (BidService.processBid InMemoryStore.api svc clk itemId userId bidAmount
      st).2.2.getAuction item = some a := by
  rcases processBid_inMemory_step svc clk itemId userId bidAmount st with
    ⟨_, hst⟩ | ⟨item1, user, n, a0, _, _, _, _, _, ha0, hact, _, _, _, _, hst⟩
  · rw [hst]; exact ha
  · rw [hst]
    simp only [InMemoryStore.getAuction]
    by_cases hk : item1 = item
    · subst hk
      rw [ha] at ha0
      cases ha0
      exact absurd hact hs
    · rw [JSMap.get_set_of_ne _ _ (Ne.symm hk)]; exact ha

/-- A call of `endAuction` leaves an auction that is not `'active'` exactly as it is. -/
theorem endAuction_keeps_inactive (ts : TimerService) (now : Int) (itemId : String)
    (st : InMemoryStore) (item : String) (a : Auction) (ha : st.getAuction item = some a)
    (hs : a.status ≠ "active") :
    (ts.endAuction now itemId st).1.getAuction item = some a := by
  unfold TimerService.endAuction
  cases hg : st.getAuction itemId with
  | none => exact ha
  | some b =>
    by_cases hb : b.status = "active"
    · simp only [hb, ne_eq, not_true_eq_false, if_false, InMemoryStore.updateAuction,
        InMemoryStore.getAuction]
      by_cases hk : itemId = item
      · subst hk
        rw [ha] at hg
        cases hg
        exact absurd hb hs
      · rw [JSMap.get_set_of_ne _ _ (Ne.symm hk)]; exact ha
    · simp only [ne_eq, hb, not_false_eq_true, if_true]
      exact ha

/-- A bid on an auction that is not `'active'`, once past input validation, the rate limiter
and the lock check, is answered AUCTION_ENDED. -/
theorem processBid_on_inactive (svc : BidService) (clk : BidClock) (item user : String)
    (bidAmount : JSValue) (st : InMemoryStore) (a : Auction)
    (ha : st.getAuction item = some a) (hs : a.status ≠ "active")
    (hv : (BidService.validateInput (.string item) (.string user) bidAmount).valid = true)
    (hr : (svc.checkRateLimit clk.rateLimitNow user).1.allowed = true)
    (hl : svc.bidLocks.has item = false) :
    (BidService.processBid InMemoryStore.api svc clk (.string item) (.string user) bidAmount
      st).1 = BidResult.failure (some "Auction has ended") (some "AUCTION_ENDED") := by
  have hl1 : (svc.checkRateLimit clk.rateLimitNow
      (JSValue.string user).asString).2.bidLocks.has (JSValue.string item).asString = false := by
    rw [checkRateLimit_bidLocks]
    exact hl
  rw [processBid_underLock InMemoryStore.api svc clk _ _ _ st hv hr hl1]
  simp only [JSValue.asString]
  have hrule : BidService.validateBidRules (st.getAuction item) clk.validateNow user
      bidAmount.asInt =
      { isValid := false, error := some "Auction has ended", code := some "AUCTION_ENDED" } := by
    rw [ha]
    simp [BidService.validateBidRules, hs]
  rw [processBidLocked_inMemory_reject st clk item user bidAmount.asInt (by rw [hrule])]
  rw [hrule]

/-- C14 (the code at the failing input). The example auction was ended at 170000 with
`endTime = 180000`. `extendIfNeeded("item_1")` at `now = 175000` does not look at `status`:
it returns `true`, moves the stored `endTime` to 210000 while `status` stays `'ended'`,
registers a new end-timer and broadcasts AUCTION_EXTENDED. -/
theorem extendIfNeeded_extends_ended_auction :
    (∃ a, exampleEndedWorld.store.getAuction "item_1" = some a ∧ a.status = "ended" ∧
      a.endTime = 180000) ∧
    (exampleEndedWorld.timerService.extendIfNeeded 175000 175000 "item_1"
      exampleEndedWorld.store).1 = .ok true ∧
    (∃ a1, (exampleEndedWorld.timerService.extendIfNeeded 175000 175000 "item_1"
        exampleEndedWorld.store).2.1.getAuction "item_1" = some a1 ∧
      a1.status = "ended" ∧ a1.endTime = 210000) ∧
    (exampleEndedWorld.timerService.extendIfNeeded 175000 175000 "item_1"
      exampleEndedWorld.store).2.2.emitted =
        [.auctionEnd "item_1" none 8500 170000, .auctionExtended "item_1" 210000 30] ∧
    (exampleEndedWorld.timerService.extendIfNeeded 175000 175000 "item_1"
      exampleEndedWorld.store).2.2.timers.get "item_1" = some 0 := by
  refine ⟨⟨_, rfl, rfl, rfl⟩, rfl, ⟨_, rfl, rfl, rfl⟩, rfl, rfl⟩

/-! ## What `cancelTimer` does not reach -/

/-- C19 (the code at the failing input). After `startTimer("item_1", 180000)` at time 0 and
`cancelTimer("item_1")`, the end-timer is gone but the deferred ticker start, whose handle
`startTimer` did not keep, is still live. When the host fires it (120 s later) it registers a
ticker for the cancelled `endTime`, and the ticker's next run broadcasts COUNTDOWN_UPDATE
with `timeRemaining` computed from that `endTime`. With a new `startTimer("item_1", 400000)`
after the cancellation the same happens, and the deferred start of the new schedule then
finds a ticker registered and starts none for the new `endTime`. -/
theorem cancelTimer_misses_deferred_start :
    exampleCancelled.timers.get "item_1" = none ∧
    exampleCancelled.intervals.get "item_1" = none ∧
    exampleCancelled.scheduled =
      [{ handle := 1, delay := 120000, repeating := false,
         callback := .startCountdownBroadcast "item_1" 180000 }] ∧
    (exampleCancelled.runLoop exampleStore [.fire 1 120000 120000]).2.scheduled =
      [{ handle := 2, delay := 1000, repeating := true,
         callback := .countdownTick "item_1" 180000 }] ∧
    (exampleCancelled.runLoop exampleStore [.fire 1 120000 120000]).2.intervals.get "item_1"
      = some 2 ∧
    (exampleCancelled.runLoop exampleStore
      [.fire 1 120000 120000, .fire 2 121000 121000]).2.emitted =
      [.countdownUpdate "item_1" 59000 121000] ∧
    ((exampleCancelled.startTimer 5 "item_1" 400000).runLoop exampleStore
      [.fire 1 120000 120000, .fire 4 121000 121000, .fire 3 340000 340000]).2.scheduled =
      [{ handle := 2, delay := 399995, repeating := false, callback := .endAuction "item_1" },
       { handle := 4, delay := 1000, repeating := true,
         callback := .countdownTick "item_1" 180000 }] ∧
    ((exampleCancelled.startTimer 5 "item_1" 400000).runLoop exampleStore
      [.fire 1 120000 120000, .fire 4 121000 121000, .fire 3 340000 340000]).2.emitted =
      [.countdownUpdate "item_1" 59000 121000] := by
  refine ⟨rfl, rfl, rfl, rfl, rfl, rfl, rfl, rfl⟩

/-! ## Rescheduling on extension -/

theorem startTimer_armed (ts : TimerService) (now : Int) (item : String) (endTime : Int)
    (hq : ts.QuietFor item) (h0 : now < endTime) :
    (ts.startTimer now item endTime).ArmedFor item ts.nextHandle := by
  obtain ⟨hq1, hq2⟩ := hq
  rw [startTimer_eq, if_neg (by omega)]
  split_ifs with h60
  · rw [startCountdownBroadcast_eq]
    split_ifs with hhas
    · refine ⟨JSMap.get_set_self _ _ _, Nat.lt_succ_self _, ?_, hq2⟩
      intro t ht hcb
      rcases List.mem_append.mp ht with h | h
      · exact absurd hcb (hq1 t h)
      · rw [List.mem_singleton.mp h]
    · refine ⟨JSMap.get_set_self _ _ _, by show ts.nextHandle < ts.nextHandle + 1 + 1; omega,
        ?_, hq2⟩
      intro t ht hcb
      simp only [List.mem_append, List.mem_singleton] at ht
      rcases ht with (h | h) | h
      · exact absurd hcb (hq1 t h)
      · rw [h]
      · rw [h] at hcb; cases hcb
  · refine ⟨JSMap.get_set_self _ _ _, by show ts.nextHandle < ts.nextHandle + 1 + 1; omega,
      ?_, hq2⟩
    intro t ht hcb
    simp only [List.mem_append, List.mem_cons, List.mem_singleton, List.not_mem_nil,
      or_false] at ht
    rcases ht with h | h | h
    · exact absurd hcb (hq1 t h)
    · rw [h]
    · rw [h] at hcb; cases hcb

theorem clearTimer_armed (ts : TimerService) (item : String) (h handle : Nat)
    (ha : ts.ArmedFor item h) : (ts.clearTimer handle).ArmedFor item h := by
  obtain ⟨h1, h2, h3, h4⟩ := ha
  exact ⟨h1, h2, fun t ht hcb => h3 t (List.mem_filter.mp ht).1 hcb, h4⟩

theorem cancelTimer_armed_other (ts : TimerService) (item other : String) (h : Nat)
    (ha : ts.ArmedFor item h) (hne : item ≠ other) : (ts.cancelTimer other).ArmedFor item h := by
  obtain ⟨h1, h2, h3, h4⟩ := ha
  rw [cancelTimer_eq]
  refine ⟨?_, h2, ?_, h4⟩
  · show (ts.timers.delete other).get item = some h
    rw [JSMap.get_delete_of_ne _ hne]
    exact h1
  · intro t ht hcb
    exact h3 t (List.mem_filter.mp (List.mem_filter.mp ht).1).1 hcb

theorem startCountdownBroadcast_armed (ts : TimerService) (item other : String)
    (endTime : Int) (h : Nat) (ha : ts.ArmedFor item h) :
    (ts.startCountdownBroadcast other endTime).ArmedFor item h := by
  obtain ⟨h1, h2, h3, h4⟩ := ha
  rw [startCountdownBroadcast_eq]
  split_ifs
  · exact ⟨h1, h2, h3, h4⟩
  · refine ⟨h1, Nat.lt_succ_of_lt h2, ?_, h4⟩
    intro t ht hcb
    rcases List.mem_append.mp ht with hm | hm
    · exact h3 t hm hcb
    · rw [List.mem_singleton.mp hm] at hcb; cases hcb

/-- A callback other than `endAuction(item)` keeps the end of `item` armed under the same
handle and broadcasts no AUCTION_END of `item`. -/
theorem runCallback_armed (ts : TimerService) (now serverNow : Int) (handle : Nat)
    (cb : TimerCallback) (st : InMemoryStore) (item : String) (h : Nat)
    (ha : ts.ArmedFor item h) (hcb : cb ≠ .endAuction item) :
    (ts.runCallback now serverNow handle cb st).2.ArmedFor item h ∧
    (ts.runCallback now serverNow handle cb st).2.emitted.filter (IoEvent.isAuctionEndOf item)
      = ts.emitted.filter (IoEvent.isAuctionEndOf item) := by
  cases cb with
  | endAuction j =>
    have hj : item ≠ j := fun hc => hcb (by rw [hc])
    simp only [TimerService.runCallback]
    cases hg : st.getAuction j with
    | none => rw [endAuction_of_missing ts now j st hg]; exact ⟨ha, rfl⟩
    | some b =>
      by_cases hs : b.status = "active"
      · rw [endAuction_of_active ts now j st b hg hs]
        have hc := cancelTimer_armed_other ts item j h ha hj
        refine ⟨hc, ?_⟩
        simp [TimerService.emit, IoEvent.isAuctionEndOf, Ne.symm hj]
      · rw [endAuction_of_not_active ts now j st b hg hs]; exact ⟨ha, rfl⟩
  | startCountdownBroadcast j e =>
    simp only [TimerService.runCallback]
    exact ⟨startCountdownBroadcast_armed ts item j e h ha, by simp⟩
  | countdownTick j e =>
    simp only [TimerService.runCallback, TimerService.countdownTick]
    split_ifs
    · obtain ⟨h1, h2, h3, h4⟩ := clearTimer_armed ts item h handle ha
      exact ⟨⟨h1, h2, h3, h4⟩, rfl⟩
    · obtain ⟨h1, h2, h3, h4⟩ := ha
      refine ⟨⟨h1, h2, h3, h4⟩, ?_⟩
      simp [TimerService.emit, IoEvent.isAuctionEndOf]

theorem onEvent_armed (ts : TimerService) (e : LoopEvent) (st : InMemoryStore) (item : String)
    (h : Nat) (ha : ts.ArmedFor item h) (he : e.fires h = false) :
    (ts.onEvent e st).2.ArmedFor item h ∧
    (ts.onEvent e st).2.emitted.filter (IoEvent.isAuctionEndOf item)
      = ts.emitted.filter (IoEvent.isAuctionEndOf item) := by
  cases e with
  | fire handle now serverNow =>
    have hne : handle ≠ h := by simpa [LoopEvent.fires] using he
    simp only [TimerService.onEvent, TimerService.fire]
    cases hf : ts.scheduled.find? (fun t => decide (t.handle = handle)) with
    | none => exact ⟨ha, rfl⟩
    | some t =>
      have hmem : t ∈ ts.scheduled := List.mem_of_find?_eq_some hf
      have hth : t.handle = handle := by simpa using List.find?_some hf
      have hcb : t.callback ≠ .endAuction item := by
        intro hc
        exact hne (by rw [← hth]; exact ha.2.2.1 t hmem hc)
      simp only
      split_ifs
      · exact runCallback_armed ts now serverNow handle t.callback st item h ha hcb
      · have := runCallback_armed (ts.clearTimer handle) now serverNow handle t.callback st
          item h (clearTimer_armed ts item h handle ha) hcb
        simpa using this
  | runPending now =>
    simp only [TimerService.onEvent, TimerService.runPending]
    cases hp : ts.pending with
    | nil => exact ⟨ha, rfl⟩
    | cons cb rest =>
      obtain ⟨h1, h2, h3, h4⟩ := ha
      have hcb : cb ≠ .endAuction item := h4 cb (by rw [hp]; exact List.mem_cons_self _ _)
      have ha' : TimerService.ArmedFor { ts with pending := rest } item h :=
        ⟨h1, h2, h3, fun c hc => h4 c (by rw [hp]; exact List.mem_cons_of_mem _ hc)⟩
      exact runCallback_armed _ now now 0 cb st item h ha' hcb

theorem runLoop_armed (events : List LoopEvent) (item : String) (h : Nat) :
    ∀ (ts : TimerService) (st : InMemoryStore), ts.ArmedFor item h →
      (∀ e ∈ events, e.fires h = false) →
      (ts.runLoop st events).2.ArmedFor item h ∧
      (ts.runLoop st events).2.emitted.filter (IoEvent.isAuctionEndOf item)
        = ts.emitted.filter (IoEvent.isAuctionEndOf item) := by
  induction events with
  | nil => intro ts st ha _; exact ⟨ha, rfl⟩
  | cons e rest ih =>
    intro ts st ha hev
    obtain ⟨ha1, hem1⟩ := onEvent_armed ts e st item h ha (hev e (List.mem_cons_self _ _))
    obtain ⟨ha2, hem2⟩ := ih (ts.onEvent e st).2 (ts.onEvent e st).1 ha1
      (fun e' he' => hev e' (List.mem_cons_of_mem _ he'))
    exact ⟨ha2, by rw [← hem1]; exact hem2⟩

/-- The timer service after `cancelTimer` and `startTimer` for an `endTime` at most 60 s
ahead, as `extendIfNeeded` runs them. -/
theorem cancel_then_start_eq (ts : TimerService) (startNow : Int) (item : String)
    (endTime : Int) (h0 : 0 < endTime - startNow) (h1 : endTime - startNow ≤ 60000) :
    (ts.cancelTimer item).startTimer startNow item endTime =
      { timers := (ts.timers.delete item).set item ts.nextHandle,
        intervals := (ts.intervals.delete item).set item (ts.nextHandle + 1),
        scheduled := ((ts.scheduled.filter
            (fun t => decide (some t.handle ≠ ts.timers.get item))).filter
            (fun t => decide (some t.handle ≠ ts.intervals.get item))) ++
          [{ handle := ts.nextHandle, delay := endTime - startNow, repeating := false,
             callback := .endAuction item }] ++
          [{ handle := ts.nextHandle + 1, delay := 1000, repeating := true,
             callback := .countdownTick item endTime }],
        nextHandle := ts.nextHandle + 1 + 1,
        pending := ts.pending,
        emitted := ts.emitted } := by
  rw [cancelTimer_eq, startTimer_eq, if_neg (by omega), if_pos h1, startCountdownBroadcast_eq,
    timerDelay_of_range (endTime - startNow) (by omega) (by omega)]
  have hhas : (ts.intervals.delete item).has item = false := JSMap.has_delete_self _ _
  simp only [hhas, Bool.false_eq_true, if_false]

theorem extendIfNeeded_rearms (ts : TimerService) (now startNow : Int) (item : String)
    (st : InMemoryStore) (a : Auction) (h : Nat) (ha : ts.ArmedFor item h)
    (hst : st.getAuction item = some a) (hw0 : 0 < a.endTime - now)
    (hw1 : a.endTime - now < 30000) (hs0 : now ≤ startNow)
    (hs1 : startNow < a.endTime + 30000) :
    (ts.extendIfNeeded now startNow item st).1 = .ok true ∧
    (∀ t ∈ (ts.extendIfNeeded now startNow item st).2.2.scheduled, t.handle ≠ h) ∧
    (ts.extendIfNeeded now startNow item st).2.2.ArmedFor item ts.nextHandle ∧
    (ts.extendIfNeeded now startNow item st).2.2.scheduled.filter
        (fun t => decide (t.callback = .endAuction item)) =
      [{ handle := ts.nextHandle, delay := a.endTime + 30000 - startNow, repeating := false,
         callback := .endAuction item }] ∧
    (ts.extendIfNeeded now startNow item st).2.2.intervals.get item
      = some (ts.nextHandle + 1) ∧
    ({ handle := ts.nextHandle + 1, delay := 1000, repeating := true,
       callback := .countdownTick item (a.endTime + 30000) } : ScheduledTimer) ∈
      (ts.extendIfNeeded now startNow item st).2.2.scheduled ∧
    (ts.extendIfNeeded now startNow item st).2.2.emitted.filter (IoEvent.isAuctionEndOf item)
      = ts.emitted.filter (IoEvent.isAuctionEndOf item) := by
  obtain ⟨ht, hlt, hsch, hpend⟩ := ha
  rw [extendIfNeeded_of_window ts now startNow item st a hst hw0 hw1,
    cancel_then_start_eq ts startNow item (a.endTime + 30000) (by omega) (by omega)]
  simp only [TimerService.emit]
  have hold : ∀ t ∈ (ts.scheduled.filter
      (fun t => decide (some t.handle ≠ ts.timers.get item))).filter
      (fun t => decide (some t.handle ≠ ts.intervals.get item)),
      t ∈ ts.scheduled ∧ t.handle ≠ h := by
    intro t hmem
    have h1 := (List.mem_filter.mp hmem).1
    have h2 := List.mem_filter.mp h1
    refine ⟨h2.1, ?_⟩
    have h3 := h2.2
    rw [ht] at h3
    simpa using h3
  refine ⟨trivial, ?_,
    ⟨JSMap.get_set_self _ _ _, by show ts.nextHandle < ts.nextHandle + 1 + 1; omega, ?_, hpend⟩,
    ?_, JSMap.get_set_self _ _ _, by simp, ?_⟩
  · intro t hmem
    simp only [List.mem_append, List.mem_singleton] at hmem
    rcases hmem with (hm | hm) | hm
    · exact (hold t hm).2
    · rw [hm]; show ts.nextHandle ≠ h; omega
    · rw [hm]; show ts.nextHandle + 1 ≠ h; omega
  · intro t hmem hcb
    simp only [List.mem_append, List.mem_singleton] at hmem
    rcases hmem with (hm | hm) | hm
    · exact absurd (hsch t (hold t hm).1 hcb) (hold t hm).2
    · rw [hm]
    · rw [hm] at hcb; cases hcb
  · rw [List.filter_append, List.filter_append]
    have hnil : ((ts.scheduled.filter
        (fun t => decide (some t.handle ≠ ts.timers.get item))).filter
        (fun t => decide (some t.handle ≠ ts.intervals.get item))).filter
        (fun t => decide (t.callback = .endAuction item)) = [] := by
      rw [List.filter_eq_nil_iff]
      intro t hm hc
      have hc' : t.callback = .endAuction item := by simpa using hc
      exact (hold t hm).2 (hsch t (hold t hm).1 hc')
    rw [hnil]
    simp
  · simp [IoEvent.isAuctionEndOf]

/-- C17. A timer service in which no end of `item` is scheduled or pending starts the timer
with `startTimer(item, endTime0)` while time remains; the end-timer is registered under the
handle `h0` handed out at that moment. Events of the loop other than the firing of `h0`
follow, leading to store `st` and timer service `ts`. Then `extendIfNeeded(item)` runs on the
stored auction `a` with `0 < a.endTime - now < 30000` (its `startTimer` reads the clock at
`startNow`, not before `now` and before the new end). It returns `true`; no live timer
carries `h0` any more; exactly one live timer calls `endAuction(item)`, it is the one
registered in `timers` and its delay is `a.endTime + 30000 - startNow`, so it is due at the
new `endTime`; a ticker for the new `endTime` is registered in `intervals`; and whatever the
loop does afterwards short of firing that one end-timer, the log gains no AUCTION_END of
`item`. -/
theorem extension_reschedules_end (ts0 : TimerService) (st0 : InMemoryStore) (item : String)
    (now0 endTime0 : Int) (events0 : List LoopEvent) (st : InMemoryStore) (ts : TimerService)
    (a : Auction) (now startNow : Int)
    (hquiet : ts0.QuietFor item) (hrem : now0 < endTime0)
    (hev0 : ∀ e ∈ events0, e.fires ts0.nextHandle = false)
    (hmid : (ts0.startTimer now0 item endTime0).runLoop st0 events0 = (st, ts))
    (ha : st.getAuction item = some a)
    (hw : 0 < a.endTime - now ∧ a.endTime - now < 30000)
    (hs : now ≤ startNow ∧ startNow < a.endTime + 30000) :
    (ts0.startTimer now0 item endTime0).timers.get item = some ts0.nextHandle ∧
    ts.timers.get item = some ts0.nextHandle ∧
    (ts.extendIfNeeded now startNow item st).1 = .ok true ∧
    (∀ t ∈ (ts.extendIfNeeded now startNow item st).2.2.scheduled, t.handle ≠ ts0.nextHandle) ∧
    ∃ h1 h2 : Nat,
      (ts.extendIfNeeded now startNow item st).2.2.timers.get item = some h1 ∧
      (ts.extendIfNeeded now startNow item st).2.2.scheduled.filter
          (fun t => decide (t.callback = .endAuction item)) =
        [{ handle := h1, delay := a.endTime + 30000 - startNow, repeating := false,
           callback := .endAuction item }] ∧
      (ts.extendIfNeeded now startNow item st).2.2.intervals.get item = some h2 ∧
      ({ handle := h2, delay := 1000, repeating := true,
         callback := .countdownTick item (a.endTime + 30000) } : ScheduledTimer) ∈
        (ts.extendIfNeeded now startNow item st).2.2.scheduled ∧
      ∀ events : List LoopEvent, (∀ e ∈ events, e.fires h1 = false) →
        ((ts.extendIfNeeded now startNow item st).2.2.runLoop
            (ts.extendIfNeeded now startNow item st).2.1 events).2.emitted.filter
            (IoEvent.isAuctionEndOf item)
          = ts0.emitted.filter (IoEvent.isAuctionEndOf item) := by
  have harm0 := startTimer_armed ts0 now0 item endTime0 hquiet hrem
  obtain ⟨harm1, hem1⟩ := runLoop_armed events0 item ts0.nextHandle
    (ts0.startTimer now0 item endTime0) st0 harm0 hev0
  rw [hmid] at harm1 hem1
  simp only [startTimer_emitted] at hem1
  obtain ⟨hok, hgone, harm2, hone, hint, htick, hem2⟩ :=
    extendIfNeeded_rearms ts now startNow item st a ts0.nextHandle harm1 ha hw.1 hw.2 hs.1 hs.2
  refine ⟨harm0.1, harm1.1, hok, hgone, ts.nextHandle, ts.nextHandle + 1, harm2.1, hone, hint,
    htick, ?_⟩
  intro events hev
  obtain ⟨_, hem3⟩ := runLoop_armed events item ts.nextHandle _ _ harm2 hev
  rw [hem3, hem2, hem1]

/-- C17 at a concrete input: the example timer started at time 0 for `endTime = 180000`, the
deferred ticker start and one tick, then the extension at `now = 170000`. -/
theorem extension_reschedules_end_witness :
    TimerService.new.QuietFor "item_1" ∧
    (∀ e ∈ exampleTicks, e.fires TimerService.new.nextHandle = false) ∧
    (((TimerService.new.startTimer 0 "item_1" 180000).runLoop exampleStore
      exampleTicks).2.extendIfNeeded 170000 170001 "item_1" exampleStore).1 = .ok true ∧
    (((TimerService.new.startTimer 0 "item_1" 180000).runLoop exampleStore
      exampleTicks).2.extendIfNeeded 170000 170001 "item_1" exampleStore).2.2.scheduled.filter
        (fun t => decide (t.callback = .endAuction "item_1")) =
      [{ handle := 3, delay := 39999, repeating := false, callback := .endAuction "item_1" }] := by
  have hq : TimerService.new.QuietFor "item_1" := by
    constructor <;> intro t ht <;> simp [TimerService.new] at ht
  have hev : ∀ e ∈ exampleTicks, e.fires TimerService.new.nextHandle = false := by decide
  obtain ⟨_, _, hok, _, _⟩ :=
    extension_reschedules_end TimerService.new exampleStore "item_1" 0 180000 exampleTicks
      exampleStore
      ((TimerService.new.startTimer 0 "item_1" 180000).runLoop exampleStore exampleTicks).2
      exampleAuction 170000 170001 hq (by decide) hev rfl rfl (by decide) (by decide)
  exact ⟨hq, hev, hok, rfl⟩

/-! ## The gateway -/

theorem invalidBidData_of_claimed (co : Coercion) (itemId bidAmount : JSValue)
    (h : itemId = .undefined ∨ itemId = .string "" ∨ bidAmount = .undefined ∨
      (∃ q : ℚ, bidAmount = .number (.finite q) ∧ q ≤ 0) ∨ bidAmount = .number .negInf) :
    invalidBidData co itemId bidAmount = true := by
  rcases h with h | h | h | ⟨q, h, hq⟩ | h
  · simp [invalidBidData, h, JSValue.truthy]
  · simp [invalidBidData, h, JSValue.truthy]
  · simp [invalidBidData, h, JSValue.truthy]
  · simp [invalidBidData, h, JSValue.truthy, JSValue.toNumber, JSNumber.leZero, hq]
  · simp [invalidBidData, h, JSValue.truthy, JSValue.toNumber, JSNumber.leZero]

/-- C20. A `BID_PLACED` message whose payload has `itemId` missing or empty, `bidAmount`
missing, or a number `bidAmount <= 0`: the handler completes, the events sent are the ones
sent before followed by exactly one, `BID_ERROR { itemId, error: 'Invalid bid data',
code: 'INVALID_INPUT' }` to the sending socket, and the world (store, rate-limit log, lock
table, timer service) is what it was, whatever `services` holds. -/
theorem bidPlaced_invalid_input (co : Coercion) (services : SocketServices) (socketId : String)
    (userId : JSValue) (clk : HandlerClock) (g : Gateway) (itemId bidAmount : JSValue)
    (h : itemId = .undefined ∨ itemId = .string "" ∨ bidAmount = .undefined ∨
      (∃ q : ℚ, bidAmount = .number (.finite q) ∧ q ≤ 0) ∨ bidAmount = .number .negInf) :
    handleBidPlaced co services socketId userId clk (.fields itemId bidAmount) g =
      (.ok (),
       { world := g.world,
         sent := g.sent ++
           [{ recipient := .socket socketId,
              event := .bidError itemId (some "Invalid bid data") (some "INVALID_INPUT") }] }) := by
  simp [handleBidPlaced, invalidBidData_of_claimed co itemId bidAmount h, Gateway.send]

/-- C20 at a concrete input: a bid of `-5` on `"item_1"`. -/
theorem bidPlaced_invalid_input_witness :
    handleBidPlaced exampleCoercion startServerServices "socket_1" (.string "A")
        (HandlerClock.at 1000) (.fields (.string "item_1") (.number (.finite (-5))))
        exampleGateway =
      (.ok (),
       { world := exampleGateway.world,
         sent := exampleGateway.sent ++
           [{ recipient := .socket "socket_1",
              event := .bidError (.string "item_1") (some "Invalid bid data")
                (some "INVALID_INPUT") }] }) :=
  bidPlaced_invalid_input exampleCoercion startServerServices "socket_1" (.string "A")
    (HandlerClock.at 1000) exampleGateway (.string "item_1") (.number (.finite (-5)))
    (Or.inr (Or.inr (Or.inr (Or.inl ⟨-5, rfl, by norm_num⟩))))

/-- C18 (the code at the failing input). The example auction ends at 180000 and its timer is
running. User `"A"` bids 9000 at time 170000, 10 s before the end, through the handler as
`startServer` wires it. The bid is accepted (`BID_SUCCESS` and `UPDATE_BID` are sent), but
`services.timerService` is not set, `extendIfNeeded` is not called: the stored `endTime` is
still 180000 and the timer service is what it was. With `timerService` set on `services` the
same message moves `endTime` to 210000. -/
theorem startServer_handler_skips_extension :
    (handleBidPlaced exampleCoercion startServerServices "socket_1" (.string "A")
      (HandlerClock.at 170000) (.fields (.string "item_1") (.number (.finite 9000)))
      exampleGateway).2.sent.map (fun e => e.recipient) = [.socket "socket_1", .everyone] ∧
    (∃ a1, (handleBidPlaced exampleCoercion startServerServices "socket_1" (.string "A")
        (HandlerClock.at 170000) (.fields (.string "item_1") (.number (.finite 9000)))
        exampleGateway).2.world.store.getAuction "item_1" = some a1 ∧
      a1.currentBid = 9000 ∧ a1.currentBidder = some "A" ∧ a1.endTime = 180000) ∧
    (handleBidPlaced exampleCoercion startServerServices "socket_1" (.string "A")
      (HandlerClock.at 170000) (.fields (.string "item_1") (.number (.finite 9000)))
      exampleGateway).2.world.timerService = exampleGateway.world.timerService ∧
    (∃ a1, (handleBidPlaced exampleCoercion { timerService := true } "socket_1" (.string "A")
        (HandlerClock.at 170000) (.fields (.string "item_1") (.number (.finite 9000)))
        exampleGateway).2.world.store.getAuction "item_1" = some a1 ∧
      a1.currentBid = 9000 ∧ a1.endTime = 210000) := by
  refine ⟨by decide, ⟨_, rfl, rfl, rfl, rfl⟩, by decide, ⟨_, rfl, rfl, rfl⟩⟩

/-! ## Interleaved calls: mutual exclusion and no lost bid -/

section FirstStretch

variable (svc : BidService) (st : InMemoryStore) (req : BidRequest)

theorem advance_notStarted_invalid
    (h : (BidService.validateInput req.itemId req.userId req.bidAmount).valid = false) :
    (BidTask.notStarted req).advance svc st =
      (.returned (BidResult.failure
        (BidService.validateInput req.itemId req.userId req.bidAmount).error
        (BidService.validateInput req.itemId req.userId req.bidAmount).code), svc, st) := by
  simp [BidTask.advance, h]

theorem advance_notStarted_rateLimited
    (h : (BidService.validateInput req.itemId req.userId req.bidAmount).valid = true)
    (hr : (svc.checkRateLimit req.clk.rateLimitNow req.userId.asString).1.allowed = false) :
    (BidTask.notStarted req).advance svc st =
      (.returned (BidResult.failure
        (some ("Too many bids. Try again in " ++
          toString ((svc.checkRateLimit req.clk.rateLimitNow
            req.userId.asString).1.retryAfter.getD 0) ++ "s"))
        (some "RATE_LIMITED")),
       (svc.checkRateLimit req.clk.rateLimitNow req.userId.asString).2, st) := by
  simp [BidTask.advance, h, hr]

theorem advance_notStarted_inProgress
    (h : (BidService.validateInput req.itemId req.userId req.bidAmount).valid = true)
    (hr : (svc.checkRateLimit req.clk.rateLimitNow req.userId.asString).1.allowed = true)
    (hl : svc.bidLocks.has req.itemId.asString = true) :
    (BidTask.notStarted req).advance svc st =
      (.returned (BidResult.failure (some "Another bid is being processed")
        (some "BID_IN_PROGRESS")),
       (svc.checkRateLimit req.clk.rateLimitNow req.userId.asString).2, st) := by
  simp [BidTask.advance, h, hr, checkRateLimit_bidLocks, hl]

theorem advance_notStarted_acquire
    (h : (BidService.validateInput req.itemId req.userId req.bidAmount).valid = true)
    (hr : (svc.checkRateLimit req.clk.rateLimitNow req.userId.asString).1.allowed = true)
    (hl : svc.bidLocks.has req.itemId.asString = false) :
    (BidTask.notStarted req).advance svc st =
      (.validating req.clk req.itemId.asString req.userId.asString req.bidAmount.asInt
        (st.getAuction req.itemId.asString).isSome,
       { (svc.checkRateLimit req.clk.rateLimitNow req.userId.asString).2 with
         bidLocks := svc.bidLocks.set req.itemId.asString (lockOf req.clk req.userId.asString) },
       st) := by
  simp [BidTask.advance, h, hr, checkRateLimit_bidLocks, hl, lockOf]

end FirstStretch

/-- What one stretch of a call does to the lock table: a call without a lock either leaves
the table alone and still has no lock, or finds the item unlocked and locks it; a call with
a lock either keeps it, table untouched, or releases it. -/
theorem advance_locks (svc : BidService) (st : InMemoryStore) (t : BidTask) :
    (t.lockedItem = none ∧
      (((t.advance svc st).1.lockedItem = none ∧
          (t.advance svc st).2.1.bidLocks = svc.bidLocks) ∨
       (∃ item lock, (t.advance svc st).1.lockedItem = some item ∧
          svc.bidLocks.has item = false ∧
          (t.advance svc st).2.1.bidLocks = svc.bidLocks.set item lock))) ∨
    (∃ item, t.lockedItem = some item ∧
      (((t.advance svc st).1.lockedItem = some item ∧
          (t.advance svc st).2.1.bidLocks = svc.bidLocks) ∨
       ((t.advance svc st).1.lockedItem = none ∧
          (t.advance svc st).2.1.bidLocks = svc.bidLocks.delete item))) := by
  cases t with
  | notStarted req =>
    left
    refine ⟨rfl, ?_⟩
    cases hv : (BidService.validateInput req.itemId req.userId req.bidAmount).valid with
    | false => rw [advance_notStarted_invalid svc st req hv]; left; exact ⟨rfl, rfl⟩
    | true =>
      cases hr : (svc.checkRateLimit req.clk.rateLimitNow req.userId.asString).1.allowed with
      | false =>
        rw [advance_notStarted_rateLimited svc st req hv hr]
        left; exact ⟨rfl, checkRateLimit_bidLocks _ _ _⟩
      | true =>
        cases hl : svc.bidLocks.has req.itemId.asString with
        | true =>
          rw [advance_notStarted_inProgress svc st req hv hr hl]
          left; exact ⟨rfl, checkRateLimit_bidLocks _ _ _⟩
        | false =>
          rw [advance_notStarted_acquire svc st req hv hr hl]
          right
          exact ⟨req.itemId.asString, lockOf req.clk req.userId.asString, rfl, hl, rfl⟩
  | validating clk item user amount found =>
    right; exact ⟨item, rfl, Or.inl ⟨rfl, rfl⟩⟩
  | validated clk item user amount v =>
    right
    refine ⟨item, rfl, ?_⟩
    simp only [BidTask.advance]
    cases v.isValid with
    | false => right; exact ⟨rfl, rfl⟩
    | true => left; exact ⟨rfl, rfl⟩
  | executing clk item user amount found =>
    right
    refine ⟨item, rfl, Or.inl ?_⟩
    simp only [BidTask.advance]
    cases (if found = true then st.getAuction item else none) with
    | none => exact ⟨rfl, rfl⟩
    | some a => exact ⟨rfl, rfl⟩
  | persisting item result => right; exact ⟨item, rfl, Or.inl ⟨rfl, rfl⟩⟩
  | executed item outcome =>
    right
    refine ⟨item, rfl, Or.inr ?_⟩
    cases outcome with
    | ok r => exact ⟨rfl, rfl⟩
    | error e => exact ⟨rfl, rfl⟩
  | returned r => left; exact ⟨rfl, Or.inl ⟨rfl, rfl⟩⟩

/-- Stored auctions only gain bids when a call runs: every auction stays stored and keeps
the bids it has. -/
theorem advance_store_grows (svc : BidService) (st : InMemoryStore) (t : BidTask)
    (key : String) (a : Auction) (ha : st.getAuction key = some a) :
    ∃ a1, (t.advance svc st).2.2.getAuction key = some a1 ∧ ∀ b ∈ a.bids, b ∈ a1.bids := by
  cases t with
  | notStarted req =>
    refine ⟨a, ?_, fun b hb => hb⟩
    simp only [BidTask.advance]
    split_ifs <;> exact ha
  | validating clk item user amount found => exact ⟨a, ha, fun b hb => hb⟩
  | validated clk item user amount v =>
    refine ⟨a, ?_, fun b hb => hb⟩
    simp only [BidTask.advance]
    split_ifs <;> exact ha
  | executing clk item user amount found =>
    simp only [BidTask.advance]
    cases hcur : (if found = true then st.getAuction item else none) with
    | none => exact ⟨a, ha, fun b hb => hb⟩
    | some cur =>
      simp only [InMemoryStore.updateAuction, InMemoryStore.getAuction]
      by_cases hk : key = item
      · subst hk
        have hfound : st.getAuction key = some cur := by
          cases found with
          | true => simpa using hcur
          | false => simp at hcur
        rw [ha] at hfound
        cases hfound
        refine ⟨_, JSMap.get_set_self _ _ _, ?_⟩
        intro b hb
        simp only [committed]
        exact List.mem_append_left _ hb
      · exact ⟨a, by rw [JSMap.get_set_of_ne _ _ hk]; exact ha, fun b hb => hb⟩
  | persisting item result => exact ⟨a, ha, fun b hb => hb⟩
  | executed item outcome =>
    cases outcome with
    | ok r => exact ⟨a, ha, fun b hb => hb⟩
    | error e => exact ⟨a, ha, fun b hb => hb⟩
  | returned r => exact ⟨a, ha, fun b hb => hb⟩

/-- A commit that a call holds after a stretch is one it held before, the store untouched,
or it was made in this stretch and is in the bid list of its auction. -/
theorem advance_commit (svc : BidService) (st : InMemoryStore) (t : BidTask) (d : ExecutedBid)
    (h : (t.advance svc st).1.commit = some d) :
    (t.commit = some d ∧ (t.advance svc st).2.2 = st) ∨
    (∃ a, (t.advance svc st).2.2.getAuction d.bid.itemId = some a ∧ d.bid ∈ a.bids) := by
  cases t with
  | notStarted req =>
    simp only [BidTask.advance] at h
    split_ifs at h <;> simp [BidTask.commit, BidResult.failure] at h
  | validating clk item user amount found => simp [BidTask.advance, BidTask.commit] at h
  | validated clk item user amount v =>
    simp only [BidTask.advance] at h
    split_ifs at h <;> simp [BidTask.commit, BidResult.failure] at h
  | executing clk item user amount found =>
    right
    simp only [BidTask.advance] at h ⊢
    cases hcur : (if found = true then st.getAuction item else none) with
    | none => rw [hcur] at h; simp [BidTask.commit] at h
    | some cur =>
      rw [hcur] at h
      simp only [BidTask.commit, Option.some.injEq] at h
      subst h
      refine ⟨committed clk item user amount cur, ?_, ?_⟩
      · simp [InMemoryStore.updateAuction, InMemoryStore.getAuction, newBidOf,
          JSMap.get_set_self]
      · simp [committed]
  | persisting item result =>
    left
    exact ⟨h, rfl⟩
  | executed item outcome =>
    cases outcome with
    | ok r =>
      left
      simp only [BidTask.advance, BidTask.commit, if_true] at h ⊢
      exact ⟨h, trivial⟩
    | error e => simp [BidTask.advance, BidTask.commit, BidResult.failure] at h
  | returned r =>
    left
    exact ⟨h, rfl⟩

/-- A call that returns `success: true` in a stretch returns the record of its commit. -/
theorem advance_returned (svc : BidService) (st : InMemoryStore) (t : BidTask) (r : BidResult)
    (h : (t.advance svc st).1 = .returned r) (hs : r.success = true) :
    r.data.isSome = true ∨ t = .returned r := by
  cases t with
  | notStarted req =>
    simp only [BidTask.advance] at h
    split_ifs at h <;> simp [BidResult.failure] at h <;> (try (rw [← h] at hs; simp at hs))
  | validating clk item user amount found => simp [BidTask.advance] at h
  | validated clk item user amount v =>
    simp only [BidTask.advance] at h
    split_ifs at h
    simp only [BidResult.failure, BidTask.returned.injEq] at h
    rw [← h] at hs
    simp at hs
  | executing clk item user amount found =>
    simp only [BidTask.advance] at h
    split at h <;> simp at h
  | persisting item result => simp [BidTask.advance] at h
  | executed item outcome =>
    cases outcome with
    | ok res =>
      simp only [BidTask.advance, BidTask.returned.injEq] at h
      left
      rw [← h]
      rfl
    | error e =>
      simp only [BidTask.advance, BidTask.returned.injEq, BidResult.failure] at h
      rw [← h] at hs; simp at hs
  | returned r0 =>
    right
    simp only [BidTask.advance] at h
    exact h

theorem step_of_none (sys : BidSystem) (i : Nat) (h : sys.tasks[i]? = none) :
    sys.step i = sys := by
  simp [BidSystem.step, h]

theorem step_of_some (sys : BidSystem) (i : Nat) (t : BidTask) (h : sys.tasks[i]? = some t) :
    sys.step i =
      { service := (t.advance sys.service sys.store).2.1,
        store := (t.advance sys.service sys.store).2.2,
        tasks := sys.tasks.set i (t.advance sys.service sys.store).1 } := by
  simp [BidSystem.step, h]

/-- The entries of a task list after one entry was replaced. -/
theorem task_after_set (tasks : List BidTask) (i k : Nat) (t t1 u : BidTask)
    (hi : tasks[i]? = some t) (h : (tasks.set i t1)[k]? = some u) :
    (k = i ∧ u = t1) ∨ (k ≠ i ∧ tasks[k]? = some u) := by
  by_cases hk : i = k
  · subst hk
    rw [List.getElem?_set_self'] at h
    rw [hi] at h
    simp at h
    exact Or.inl ⟨rfl, h.symm⟩
  · rw [List.getElem?_set_ne hk] at h
    exact Or.inr ⟨fun hc => hk hc.symm, h⟩

theorem exclusive_step (sys : BidSystem) (i : Nat) (hinv : sys.Exclusive) :
    (sys.step i).Exclusive := by
  cases hi : sys.tasks[i]? with
  | none => rw [step_of_none sys i hi]; exact hinv
  | some t =>
    rw [step_of_some sys i t hi]
    obtain ⟨huniq, hheld⟩ := hinv
    have hlocks := advance_locks sys.service sys.store t
    constructor
    · intro k1 k2 u1 u2 item h1 h2 hl1 hl2
      simp only at h1 h2
      rcases task_after_set sys.tasks i k1 t _ u1 hi h1 with ⟨e1, f1⟩ | ⟨e1, f1⟩ <;>
        rcases task_after_set sys.tasks i k2 t _ u2 hi h2 with ⟨e2, f2⟩ | ⟨e2, f2⟩
      · rw [e1, e2]
      · -- the call that ran holds `item`, another call held it before
        subst e1 f1
        have hold := hheld k2 u2 item f2 hl2
        rcases hlocks with ⟨hnone, hcase⟩ | ⟨item0, hsome, hcase⟩
        · rcases hcase with ⟨hl, _⟩ | ⟨item1, lock, hl, hfree, _⟩
          · rw [hl] at hl1; cases hl1
          · rw [hl] at hl1; cases hl1
            rw [hold] at hfree; cases hfree
        · rcases hcase with ⟨hl, _⟩ | ⟨hl, _⟩
          · rw [hl] at hl1; cases hl1
            exact (huniq k1 k2 t u2 item hi f2 hsome hl2)
          · rw [hl] at hl1; cases hl1
      · subst e2 f2
        have hold := hheld k1 u1 item f1 hl1
        rcases hlocks with ⟨hnone, hcase⟩ | ⟨item0, hsome, hcase⟩
        · rcases hcase with ⟨hl, _⟩ | ⟨item1, lock, hl, hfree, _⟩
          · rw [hl] at hl2; cases hl2
          · rw [hl] at hl2; cases hl2
            rw [hold] at hfree; cases hfree
        · rcases hcase with ⟨hl, _⟩ | ⟨hl, _⟩
          · rw [hl] at hl2; cases hl2
            exact (huniq k1 k2 u1 t item f1 hi hl1 hsome)
          · rw [hl] at hl2; cases hl2
      · exact huniq k1 k2 u1 u2 item f1 f2 hl1 hl2
    · intro k u item h1 hl
      simp only at h1 ⊢
      rcases task_after_set sys.tasks i k t _ u hi h1 with ⟨e1, f1⟩ | ⟨e1, f1⟩
      · subst e1 f1
        rcases hlocks with ⟨hnone, hcase⟩ | ⟨item0, hsome, hcase⟩
        · rcases hcase with ⟨hl0, _⟩ | ⟨item1, lock, hl0, _, hset⟩
          · rw [hl0] at hl; cases hl
          · rw [hl0] at hl; cases hl
            rw [hset]; exact JSMap.has_set_self _ _ _
        · rcases hcase with ⟨hl0, hsame⟩ | ⟨hl0, _⟩
          · rw [hl0] at hl; cases hl
            rw [hsame]; exact hheld k t item hi hsome
          · rw [hl0] at hl; cases hl
      · have hold := hheld k u item f1 hl
        rcases hlocks with ⟨hnone, hcase⟩ | ⟨item0, hsome, hcase⟩
        · rcases hcase with ⟨_, hsame⟩ | ⟨item1, lock, _, _, hset⟩
          · rw [hsame]; exact hold
          · rw [hset]
            by_cases hk : item = item1
            · rw [hk]; exact JSMap.has_set_self _ _ _
            · rw [JSMap.has_set_of_ne _ _ hk]; exact hold
        · rcases hcase with ⟨_, hsame⟩ | ⟨_, hdel⟩
          · rw [hsame]; exact hold
          · rw [hdel]
            have hk : item ≠ item0 := by
              intro hc
              subst hc
              exact e1 (huniq k i u t item f1 hi hl hsome)
            rw [JSMap.has_delete_of_ne _ hk]; exact hold

theorem noLostBid_step (sys : BidSystem) (i : Nat) (hinv : sys.NoLostBid) :
    (sys.step i).NoLostBid := by
  cases hi : sys.tasks[i]? with
  | none => rw [step_of_none sys i hi]; exact hinv
  | some t =>
    rw [step_of_some sys i t hi]
    obtain ⟨hbids, hdata⟩ := hinv
    constructor
    · intro k u d h1 hc
      simp only at h1 ⊢
      rcases task_after_set sys.tasks i k t _ u hi h1 with ⟨e1, f1⟩ | ⟨e1, f1⟩
      · subst e1 f1
        rcases advance_commit sys.service sys.store t d hc with ⟨hold, hsame⟩ | hnew
        · rw [hsame]; exact hbids k t d hi hold
        · exact hnew
      · obtain ⟨a, ha, hmem⟩ := hbids k u d f1 hc
        obtain ⟨a1, ha1, hsub⟩ := advance_store_grows sys.service sys.store t _ a ha
        exact ⟨a1, ha1, hsub _ hmem⟩
    · intro k r h1 hs
      simp only at h1
      rcases task_after_set sys.tasks i k t _ (.returned r) hi h1 with ⟨e1, f1⟩ | ⟨e1, f1⟩
      · subst e1
        rcases advance_returned sys.service sys.store t r f1.symm hs with h | h
        · exact h
        · subst h
          exact hdata k r hi hs
      · exact hdata k r f1 hs

theorem run_invariants (schedule : List Nat) :
    ∀ sys : BidSystem, sys.Exclusive → sys.NoLostBid →
      (sys.run schedule).Exclusive ∧ (sys.run schedule).NoLostBid := by
  induction schedule with
  | nil => intro sys h1 h2; exact ⟨h1, h2⟩
  | cons i rest ih =>
    intro sys h1 h2
    exact ih (sys.step i) (exclusive_step sys i h1) (noLostBid_step sys i h2)

theorem initial_invariants (svc : BidService) (st : InMemoryStore) (reqs : List BidRequest) :
    (BidSystem.initial svc st reqs).Exclusive ∧ (BidSystem.initial svc st reqs).NoLostBid := by
  have hall : ∀ (i : Nat) (t : BidTask), (BidSystem.initial svc st reqs).tasks[i]? = some t →
      ∃ req, t = .notStarted req := by
    intro i t h
    simp only [BidSystem.initial, List.getElem?_map] at h
    cases hr : reqs[i]? with
    | none => rw [hr] at h; simp at h
    | some req => rw [hr] at h; simp at h; exact ⟨req, h.symm⟩
  refine ⟨⟨?_, ?_⟩, ⟨?_, ?_⟩⟩
  · intro i j ti tj item h1 _ hl _
    obtain ⟨req, rfl⟩ := hall i ti h1
    cases hl
  · intro i t item h1 hl
    obtain ⟨req, rfl⟩ := hall i t h1
    cases hl
  · intro i t d h1 hc
    obtain ⟨req, rfl⟩ := hall i t h1
    cases hc
  · intro i r h1 _
    obtain ⟨req, h⟩ := hall i _ h1
    cases h

/-- A call made while another call holds the lock of its item returns in its first stretch,
never with success, and touches neither the store nor the lock table; if its input is valid
and the rate limiter lets it through, its code is BID_IN_PROGRESS. -/
theorem overlapping_call (sys : BidSystem) (hinv : sys.Exclusive) (i j : Nat)
    (req : BidRequest) (item : String) (tj : BidTask)
    (hi : sys.tasks[i]? = some (.notStarted req)) (hitem : req.itemId = .string item)
    (hj : sys.tasks[j]? = some tj) (hl : tj.lockedItem = some item) :
    ∃ r, (sys.step i).tasks[i]? = some (.returned r) ∧ r.success = false ∧
      (sys.step i).store = sys.store ∧
      (sys.step i).service.bidLocks = sys.service.bidLocks ∧
      ((BidService.validateInput req.itemId req.userId req.bidAmount).valid = true →
        (sys.service.checkRateLimit req.clk.rateLimitNow req.userId.asString).1.allowed = true →
        r.code = some "BID_IN_PROGRESS") ∧
      ((BidService.validateInput req.itemId req.userId req.bidAmount).valid = true →
        (sys.service.checkRateLimit req.clk.rateLimitNow req.userId.asString).1.allowed = false →
        r.code = some "RATE_LIMITED") ∧
      ((BidService.validateInput req.itemId req.userId req.bidAmount).valid = false →
        r.code = (BidService.validateInput req.itemId req.userId req.bidAmount).code) := by
  have hheld : sys.service.bidLocks.has req.itemId.asString = true := by
    rw [hitem]
    exact hinv.2 j tj item hj hl
  have hlen : i < sys.tasks.length := by
    by_contra hc
    rw [List.getElem?_eq_none (by omega)] at hi
    cases hi
  rw [step_of_some sys i _ hi]
  simp only [List.getElem?_set_self hlen]
  cases hv : (BidService.validateInput req.itemId req.userId req.bidAmount).valid with
  | false =>
    rw [advance_notStarted_invalid sys.service sys.store req hv]
    exact ⟨_, rfl, rfl, rfl, rfl, fun h => (by cases h), fun h => (by cases h), fun _ => rfl⟩
  | true =>
    cases hr : (sys.service.checkRateLimit req.clk.rateLimitNow
        req.userId.asString).1.allowed with
    | false =>
      rw [advance_notStarted_rateLimited sys.service sys.store req hv hr]
      exact ⟨_, rfl, rfl, rfl, checkRateLimit_bidLocks _ _ _, fun _ h => (by cases h),
        fun _ _ => rfl, fun h => (by cases h)⟩
    | true =>
      rw [advance_notStarted_inProgress sys.service sys.store req hv hr hheld]
      exact ⟨_, rfl, rfl, rfl, checkRateLimit_bidLocks _ _ _, fun _ _ => rfl,
        fun _ h => (by cases h), fun h => (by cases h)⟩

/-- C12 (as amended). Any number of `processBid` calls on the in-memory store, interleaved
in any way at their `await` points, from any starting service and store. At every moment at
most one call per item is between taking the lock and releasing it, so at most one call per
item is inside `validateBid` or `executeBid`. A call made while another holds the lock of
its item returns at once without success and without touching the store or the lock table:
with its validation error if the input is invalid, RATE_LIMITED if the rate limiter rejects
it, and BID_IN_PROGRESS otherwise. Every call that returned `success: true` carries a bid
record that is in the bid list of its auction. -/
theorem interleaved_bids_exclusive (svc : BidService) (st : InMemoryStore)
    (reqs : List BidRequest) (schedule : List Nat) :
    (∀ (i j : Nat) (ti tj : BidTask) (item : String),
      ((BidSystem.initial svc st reqs).run schedule).tasks[i]? = some ti →
      ((BidSystem.initial svc st reqs).run schedule).tasks[j]? = some tj →
      ti.lockedItem = some item → tj.lockedItem = some item → i = j) ∧
    (∀ (i j : Nat) (req : BidRequest) (item : String) (tj : BidTask),
      ((BidSystem.initial svc st reqs).run schedule).tasks[i]? = some (.notStarted req) →
      req.itemId = .string item →
      ((BidSystem.initial svc st reqs).run schedule).tasks[j]? = some tj →
      tj.lockedItem = some item →
      ∃ r, (((BidSystem.initial svc st reqs).run schedule).step i).tasks[i]?
          = some (.returned r) ∧ r.success = false ∧
        (((BidSystem.initial svc st reqs).run schedule).step i).store
          = ((BidSystem.initial svc st reqs).run schedule).store ∧
        (((BidSystem.initial svc st reqs).run schedule).step i).service.bidLocks
          = ((BidSystem.initial svc st reqs).run schedule).service.bidLocks ∧
        ((BidService.validateInput req.itemId req.userId req.bidAmount).valid = true →
          (((BidSystem.initial svc st reqs).run schedule).service.checkRateLimit
            req.clk.rateLimitNow req.userId.asString).1.allowed = true →
          r.code = some "BID_IN_PROGRESS") ∧
        ((BidService.validateInput req.itemId req.userId req.bidAmount).valid = true →
          (((BidSystem.initial svc st reqs).run schedule).service.checkRateLimit
            req.clk.rateLimitNow req.userId.asString).1.allowed = false →
          r.code = some "RATE_LIMITED") ∧
        ((BidService.validateInput req.itemId req.userId req.bidAmount).valid = false →
          r.code = (BidService.validateInput req.itemId req.userId req.bidAmount).code)) ∧
    (∀ (i : Nat) (r : BidResult),
      ((BidSystem.initial svc st reqs).run schedule).tasks[i]? = some (.returned r) →
      r.success = true →
      ∃ d a, r.data = some d ∧
        ((BidSystem.initial svc st reqs).run schedule).store.getAuction d.bid.itemId = some a ∧
        d.bid ∈ a.bids) := by
  obtain ⟨h0, h1⟩ := initial_invariants svc st reqs
  obtain ⟨hex, hnl⟩ := run_invariants schedule _ h0 h1
  refine ⟨hex.1, ?_, ?_⟩
  · intro i j req item tj hi hitem hj hl
    exact overlapping_call _ hex i j req item tj hi hitem hj hl
  · intro i r hi hs
    have hsome := hnl.2 i r hi hs
    cases hd : r.data with
    | none => rw [hd] at hsome; cases hsome
    | some d =>
      have hc : (BidTask.returned r).commit = some d := by
        simp [BidTask.commit, hs, hd]
      obtain ⟨a, ha, hmem⟩ := hnl.1 i _ d hi hc
      exact ⟨d, a, rfl, ha, hmem⟩

/-- C12 (the claim as stated fails). User `"A"` has made five attempts in the last second.
`"B"` bids 9000 on the example auction and takes the lock; while that call waits for the
store, `"A"` bids 9500 on the same auction. The second call overlaps the first and returns
RATE_LIMITED, not BID_IN_PROGRESS. -/
theorem overlapping_call_not_in_progress :
    (((BidSystem.initial exampleBusyService exampleStore exampleOverlap).run [0]).tasks[0]?.bind
      BidTask.lockedItem) = some "item_1" ∧
    ∃ r, ((BidSystem.initial exampleBusyService exampleStore exampleOverlap).run
        [0, 1]).tasks[1]? = some (.returned r) ∧
      r.success = false ∧ r.code = some "RATE_LIMITED" ∧ r.code ≠ some "BID_IN_PROGRESS" := by
  refine ⟨rfl, _, rfl, rfl, rfl, by decide⟩

/-! ## One call on its own: the stretches add up to `processBid` -/

theorem found_get (st : InMemoryStore) (item : String) :
    (if (st.getAuction item).isSome = true then st.getAuction item else none)
      = st.getAuction item := by
  cases st.getAuction item <;> simp

theorem step_single (svc : BidService) (st : InMemoryStore) (t : BidTask) :
    BidSystem.step { service := svc, store := st, tasks := [t] } 0 =
      { service := (t.advance svc st).2.1, store := (t.advance svc st).2.2,
        tasks := [(t.advance svc st).1] } := by
  simp [BidSystem.step]

theorem advance_of_returned (svc : BidService) (st : InMemoryStore) (r : BidResult) :
    (BidTask.returned r).advance svc st = (.returned r, svc, st) := rfl

theorem advance_of_validating (svc : BidService) (st : InMemoryStore) (clk : BidClock)
    (item user : String) (amount : Int) :
    (BidTask.validating clk item user amount (st.getAuction item).isSome).advance svc st =
      (.validated clk item user amount
        (BidService.validateBidRules (st.getAuction item) clk.validateNow user amount),
       svc, st) := by
  simp only [BidTask.advance, found_get]

theorem advance_of_validated_invalid (svc : BidService) (st : InMemoryStore) (clk : BidClock)
    (item user : String) (amount : Int) (v : BidValidation) (h : v.isValid = false) :
    (BidTask.validated clk item user amount v).advance svc st =
      (.returned (BidResult.failure v.error v.code),
       { svc with bidLocks := svc.bidLocks.delete item }, st) := by
  simp [BidTask.advance, h]

theorem advance_of_validated_valid (svc : BidService) (st : InMemoryStore) (clk : BidClock)
    (item user : String) (amount : Int) (v : BidValidation) (h : v.isValid = true) :
    (BidTask.validated clk item user amount v).advance svc st =
      (.executing clk item user amount (st.getAuction item).isSome, svc, st) := by
  simp [BidTask.advance, h]

theorem advance_of_executing (svc : BidService) (st : InMemoryStore) (clk : BidClock)
    (item user : String) (amount : Int) (a : Auction) (ha : st.getAuction item = some a) :
    (BidTask.executing clk item user amount (st.getAuction item).isSome).advance svc st =
      (.persisting item
        { auction := committed clk item user amount a, bid := newBidOf clk item user amount,
          previousBid := a.currentBid, previousBidder := a.currentBidder },
       svc, { st with auctions := st.auctions.set item (committed clk item user amount a) }) := by
  simp [BidTask.advance, ha, InMemoryStore.updateAuction]

theorem advance_of_persisting (svc : BidService) (st : InMemoryStore) (item : String)
    (d : ExecutedBid) :
    (BidTask.persisting item d).advance svc st = (.executed item (.ok d), svc, st) := rfl

theorem advance_of_executed_ok (svc : BidService) (st : InMemoryStore) (item : String)
    (d : ExecutedBid) :
    (BidTask.executed item (.ok d)).advance svc st =
      (.returned { success := true, error := none, code := none, data := some d },
       { svc with bidLocks := svc.bidLocks.delete item }, st) := rfl

/-- A call that runs with no other call in between goes through at most six stretches and
ends with the result and the state that `processBid` gives. -/
theorem single_call_run (svc : BidService) (st : InMemoryStore) (req : BidRequest) :
    (BidSystem.initial svc st [req]).run [0, 0, 0, 0, 0, 0] =
      { service := (BidService.processBid InMemoryStore.api svc req.clk req.itemId req.userId
          req.bidAmount st).2.1,
        store := (BidService.processBid InMemoryStore.api svc req.clk req.itemId req.userId
          req.bidAmount st).2.2,
        tasks := [.returned (BidService.processBid InMemoryStore.api svc req.clk req.itemId
          req.userId req.bidAmount st).1] } := by
  simp only [BidSystem.initial, BidSystem.run, List.map, List.foldl]
  cases hv : (BidService.validateInput req.itemId req.userId req.bidAmount).valid with
  | false =>
    rw [processBid_invalid _ _ _ _ _ _ _ hv]
    simp only [step_single, advance_notStarted_invalid svc st req hv, advance_of_returned]
  | true =>
    cases hr : (svc.checkRateLimit req.clk.rateLimitNow req.userId.asString).1.allowed with
    | false =>
      rw [processBid_rateLimited _ _ _ _ _ _ _ hv hr]
      simp only [step_single, advance_notStarted_rateLimited svc st req hv hr,
        advance_of_returned]
    | true =>
      cases hl : svc.bidLocks.has req.itemId.asString with
      | true =>
        have hl1 : (svc.checkRateLimit req.clk.rateLimitNow
            req.userId.asString).2.bidLocks.has req.itemId.asString = true := by
          rw [checkRateLimit_bidLocks]; exact hl
        rw [processBid_inProgress _ _ _ _ _ _ _ hv hr hl1]
        simp only [step_single, advance_notStarted_inProgress svc st req hv hr hl,
          advance_of_returned]
      | false =>
        have hl1 : (svc.checkRateLimit req.clk.rateLimitNow
            req.userId.asString).2.bidLocks.has req.itemId.asString = false := by
          rw [checkRateLimit_bidLocks]; exact hl
        rw [processBid_underLock _ _ _ _ _ _ _ hv hr hl1]
        simp only [step_single, advance_notStarted_acquire svc st req hv hr hl,
          advance_of_validating, checkRateLimit_bidLocks]
        cases hb : (BidService.validateBidRules (st.getAuction req.itemId.asString)
            req.clk.validateNow req.userId.asString req.bidAmount.asInt).isValid with
        | false =>
          rw [processBidLocked_inMemory_reject st req.clk _ _ _ hb]
          simp only [step_single, advance_of_validated_invalid _ _ _ _ _ _ _ hb,
            advance_of_returned]
        | true =>
          obtain ⟨a, ha, _⟩ := (validateBidRules_isValid_iff _ _ _ _).mp hb
          have hb1 := hb
          rw [ha] at hb1
          rw [processBidLocked_inMemory_accept st req.clk _ _ _ a ha hb1]
          simp only [step_single, advance_of_validated_valid _ _ _ _ _ _ _ hb,
            advance_of_executing _ _ _ _ _ _ a ha, advance_of_persisting,
            advance_of_executed_ok, acceptedResult]

/-! ## The handler as `startServer` wires it -/

@[simp] theorem send_world (g : Gateway) (recipient : Recipient) (event : SocketEvent) :
    (g.send recipient event).world = g.world := rfl

/-- With the `services` object of `startServer` no run of the handler, whatever the message,
touches the timer service: no extension is ever made from the gateway. -/
theorem startServer_handler_keeps_timerService (co : Coercion) (socketId : String)
    (userId : JSValue) (clk : HandlerClock) (data : Payload) (g : Gateway) :
    (handleBidPlaced co startServerServices socketId userId clk data g).2.world.timerService
      = g.world.timerService := by
  cases data with
  | nullish => rfl
  | fields itemId bidAmount =>
    simp only [handleBidPlaced]
    split_ifs
    · rfl
    · rfl
    · split
      · simp only [afterAcceptedBid, startServerServices, Bool.false_eq_true, if_false]
        split
        · split_ifs <;> rfl
        · rfl
      · rfl

/-! ## Rejections leave the store alone -/

/-- C29. A `processBid` call against the in-memory store that returns `success: false`,
whatever the code, leaves the store as it was: every auction, with its `currentBid`,
`currentBidder`, `bids`, `endTime` and `status`, is what it was before the call. Hence a call
that changed the store returned `success: true`; and such a call leaves every auction stored
under another id than the `itemId` passed, and the users, as they were. -/
theorem processBid_rejection_atomic (svc : BidService) (clk : BidClock)
    (itemId userId bidAmount : JSValue) (st : InMemoryStore) :
    ((BidService.processBid InMemoryStore.api svc clk itemId userId bidAmount st).1.success
        = false →
      (BidService.processBid InMemoryStore.api svc clk itemId userId bidAmount st).2.2 = st) ∧
    ((BidService.processBid InMemoryStore.api svc clk itemId userId bidAmount st).2.2 ≠ st →
      (BidService.processBid InMemoryStore.api svc clk itemId userId bidAmount st).1.success
        = true) ∧
    (∀ other : String, JSValue.string other ≠ itemId →
      (BidService.processBid InMemoryStore.api svc clk itemId userId bidAmount
        st).2.2.getAuction other = st.getAuction other) ∧
    (BidService.processBid InMemoryStore.api svc clk itemId userId bidAmount st).2.2.users
      = st.users := by
  rcases processBid_inMemory_step svc clk itemId userId bidAmount st with
    ⟨hf, hst⟩ | ⟨item, user, n, a, hi, _, _, _, _, _, _, _, _, _, hres, hst⟩
  · refine ⟨fun _ => hst, fun h => absurd hst h, fun _ _ => by rw [hst], by rw [hst]⟩
  · refine ⟨?_, ?_, ?_, by rw [hst]⟩
    · intro h
      rw [hres] at h
      simp [acceptedResult] at h
    · intro _
      rw [hres]
      rfl
    · intro other hne
      rw [hst]
      have hk : other ≠ item := fun hc => hne (by rw [hc, hi])
      simp only [InMemoryStore.getAuction]
      exact JSMap.get_set_of_ne _ _ hk

/-! ## What `endAuction`, `startTimer` and `cancelTimer` do -/

@[simp] theorem emit_timers (ts : TimerService) (e : IoEvent) : (ts.emit e).timers = ts.timers :=
  rfl

@[simp] theorem emit_intervals (ts : TimerService) (e : IoEvent) :
    (ts.emit e).intervals = ts.intervals := rfl

theorem cancelTimer_timers (ts : TimerService) (item : String) :
    (ts.cancelTimer item).timers = ts.timers.delete item := by
  rw [cancelTimer_eq]

theorem cancelTimer_intervals (ts : TimerService) (item : String) :
    (ts.cancelTimer item).intervals = ts.intervals.delete item := by
  rw [cancelTimer_eq]

/-- C25. For a stored auction whose status is `'active'`, `endAuction(itemId)` at time `now`
stores the auction with `status = 'ended'` and `endedAt = now` and every other field
(`currentBid`, `currentBidder`, `bids`, `endTime`, `startingPrice`, ...) as it was; afterwards
neither `timers` nor `intervals` has an entry for the item; the broadcast log gains exactly
one event, AUCTION_END with `winner = currentBidder`, `finalBid = currentBid` and
`timestamp = now`, the stored `endedAt`; and when the auction satisfies the data invariant
and has no bid, the winner is null. For an item id that is not in the store the call changes
nothing and emits nothing. -/
theorem endAuction_effects (ts : TimerService) (now : Int) (item : String)
    (st : InMemoryStore) :
    (∀ a, st.getAuction item = some a → a.status = "active" →
      (ts.endAuction now item st).1.getAuction item
        = some { a with status := "ended", endedAt := some now } ∧
      (ts.endAuction now item st).2.timers.get item = none ∧
      (ts.endAuction now item st).2.intervals.get item = none ∧
      (ts.endAuction now item st).2.emitted
        = ts.emitted ++ [.auctionEnd item a.currentBidder a.currentBid now] ∧
      (a.Invariant → a.bids = [] →
        (ts.endAuction now item st).2.emitted
          = ts.emitted ++ [.auctionEnd item none a.currentBid now])) ∧
    (st.getAuction item = none → ts.endAuction now item st = (st, ts)) := by
  refine ⟨?_, endAuction_of_missing ts now item st⟩
  intro a ha hs
  rw [endAuction_of_active ts now item st a ha hs]
  refine ⟨?_, ?_, ?_, ?_, ?_⟩
  · simp [InMemoryStore.getAuction, JSMap.get_set_self]
  · simp [cancelTimer_timers, JSMap.get_delete_self]
  · simp [cancelTimer_intervals, JSMap.get_delete_self]
  · simp [TimerService.emit]
  · intro hinv hb
    have hnone : a.currentBidder = none := by
      rw [hinv.2.1, hb]
      rfl
    simp [TimerService.emit, hnone]

/-- C25 at a concrete input: the example auction, which has no bid, ended at 180000 by a
service whose timer for it was started at time 0. -/
theorem endAuction_effects_witness :
    exampleStore.getAuction "item_1" = some exampleAuction ∧
    exampleAuction.status = "active" ∧
    ((TimerService.new.startTimer 0 "item_1" 180000).endAuction 180000 "item_1"
        exampleStore).1.getAuction "item_1"
      = some { exampleAuction with status := "ended", endedAt := some 180000 } ∧
    ((TimerService.new.startTimer 0 "item_1" 180000).endAuction 180000 "item_1"
        exampleStore).2.timers.get "item_1" = none ∧
    ((TimerService.new.startTimer 0 "item_1" 180000).endAuction 180000 "item_1"
        exampleStore).2.emitted = [.auctionEnd "item_1" none 8500 180000] := by
  obtain ⟨h1, h2, _, h4, _⟩ :=
    (endAuction_effects (TimerService.new.startTimer 0 "item_1" 180000) 180000 "item_1"
      exampleStore).1 exampleAuction rfl rfl
  exact ⟨rfl, rfl, h1, h2, h4⟩

/-- A call of `cancelTimer` for an item with no registration changes nothing. -/
theorem cancelTimer_of_unregistered (ts : TimerService) (item : String)
    (ht : ts.timers.get item = none) (hi : ts.intervals.get item = none) :
    ts.cancelTimer item = ts := by
  rw [cancelTimer_eq, ht, hi, JSMap.delete_of_get_none _ _ ht, JSMap.delete_of_get_none _ _ hi]
  simp

/-- C27. After `cancelTimer(itemId)` neither `timers` nor `intervals` has an entry for
`itemId`. A second call changes nothing, and a call for an item with no registration changes
nothing (the function has no failing path: it is total). The registrations of every other
item id are what they were, a host timer that is not registered for `itemId` stays in the
host queue, and nothing is broadcast. -/
theorem cancelTimer_idempotent_local (ts : TimerService) (item : String) :
    (ts.cancelTimer item).timers.get item = none ∧
    (ts.cancelTimer item).intervals.get item = none ∧
    (ts.cancelTimer item).cancelTimer item = ts.cancelTimer item ∧
    (ts.timers.get item = none → ts.intervals.get item = none → ts.cancelTimer item = ts) ∧
    (∀ other : String, other ≠ item →
      (ts.cancelTimer item).timers.get other = ts.timers.get other ∧
      (ts.cancelTimer item).intervals.get other = ts.intervals.get other) ∧
    (∀ t ∈ ts.scheduled, some t.handle ≠ ts.timers.get item →
      some t.handle ≠ ts.intervals.get item → t ∈ (ts.cancelTimer item).scheduled) ∧
    (ts.cancelTimer item).emitted = ts.emitted := by
  have h1 : (ts.cancelTimer item).timers.get item = none := by
    rw [cancelTimer_timers]; exact JSMap.get_delete_self _ _
  have h2 : (ts.cancelTimer item).intervals.get item = none := by
    rw [cancelTimer_intervals]; exact JSMap.get_delete_self _ _
  refine ⟨h1, h2, cancelTimer_of_unregistered _ _ h1 h2, cancelTimer_of_unregistered ts item,
    ?_, ?_, cancelTimer_emitted ts item⟩
  · intro other hne
    rw [cancelTimer_timers, cancelTimer_intervals]
    exact ⟨JSMap.get_delete_of_ne _ hne, JSMap.get_delete_of_ne _ hne⟩
  · intro t ht hn1 hn2
    rw [cancelTimer_eq]
    show t ∈ (ts.scheduled.filter _).filter _
    simp only [List.mem_filter, decide_eq_true_eq]
    exact ⟨⟨ht, hn1⟩, hn2⟩

/-- The call that `startTimer` starts without awaiting it, when nothing remains, is
`endAuction(itemId)`. -/
theorem startTimer_pending_runs (ts : TimerService) (now now2 : Int) (item : String)
    (endTime : Int) (st : InMemoryStore) (h : endTime - now ≤ 0) (hp : ts.pending = []) :
    (ts.startTimer now item endTime).runPending now2 st = ts.endAuction now2 item st := by
  rw [startTimer_eq, if_pos h]
  obtain ⟨t, i, s, n, p, e⟩ := ts
  simp only at hp
  subst hp
  rfl

/-- C26, as amended. Method `startTimer(itemId, endTime)` at time `now`, with
`remaining = endTime - now`. If `remaining ≤ 0` the only effect is the call
`endAuction(itemId)`, started without being awaited: no end-timer and no ticker is
registered. Otherwise, when `remaining ≤ 2147483647` (the largest delay the host honours),
one end-timer for `itemId` with delay exactly `remaining` joins the host queue and is
registered in `timers`, and no `endAuction` call is started; if `remaining ≤ 60000` (60000
included) `startCountdownBroadcast(itemId, endTime)` runs at once, so that a ticker is
registered for the item afterwards (the new one, of period 1000, unless one was registered
already); if `60000 < remaining ≤ 2147483647` a timeout with delay exactly
`remaining - 60000` that will call `startCountdownBroadcast(itemId, endTime)` joins the host
queue and `intervals` is what it was. -/
theorem startTimer_branches (ts : TimerService) (now : Int) (item : String) (endTime : Int) :
    (endTime - now ≤ 0 →
      ts.startTimer now item endTime = { ts with pending := ts.pending ++ [.endAuction item] }) ∧
    (0 < endTime - now → endTime - now ≤ 2147483647 →
      (ts.startTimer now item endTime).timers = ts.timers.set item ts.nextHandle ∧
      (ts.startTimer now item endTime).pending = ts.pending ∧
      (ts.startTimer now item endTime).scheduled.filter
          (fun t => decide (t.callback = .endAuction item))
        = ts.scheduled.filter (fun t => decide (t.callback = .endAuction item)) ++
          [{ handle := ts.nextHandle, delay := endTime - now, repeating := false,
             callback := .endAuction item }]) ∧
    (0 < endTime - now → endTime - now ≤ 60000 →
      (ts.startTimer now item endTime).intervals.has item = true ∧
      (ts.intervals.has item = false →
        (ts.startTimer now item endTime).scheduled = ts.scheduled ++
          [{ handle := ts.nextHandle, delay := endTime - now, repeating := false,
             callback := .endAuction item },
           { handle := ts.nextHandle + 1, delay := 1000, repeating := true,
             callback := .countdownTick item endTime }] ∧
        (ts.startTimer now item endTime).intervals = ts.intervals.set item (ts.nextHandle + 1)) ∧
      (ts.intervals.has item = true →
        (ts.startTimer now item endTime).scheduled = ts.scheduled ++
          [{ handle := ts.nextHandle, delay := endTime - now, repeating := false,
             callback := .endAuction item }] ∧
        (ts.startTimer now item endTime).intervals = ts.intervals)) ∧
    (60000 < endTime - now → endTime - now ≤ 2147483647 →
      (ts.startTimer now item endTime).scheduled = ts.scheduled ++
        [{ handle := ts.nextHandle, delay := endTime - now, repeating := false,
           callback := .endAuction item },
         { handle := ts.nextHandle + 1, delay := endTime - now - 60000, repeating := false,
           callback := .startCountdownBroadcast item endTime }] ∧
      (ts.startTimer now item endTime).intervals = ts.intervals) := by
  refine ⟨?_, ?_, ?_, ?_⟩
  · intro h
    rw [startTimer_eq, if_pos h]
  · intro h hmax
    rw [startTimer_eq, if_neg (by omega), timerDelay_of_range (endTime - now) (by omega) hmax]
    split_ifs with h60
    · rw [startCountdownBroadcast_eq]
      split_ifs with hhas
      · exact ⟨rfl, rfl, by simp [List.filter_append]⟩
      · exact ⟨rfl, rfl, by simp [List.filter_append]⟩
    · exact ⟨rfl, rfl, by simp [List.filter_append, List.filter_cons]⟩
  · intro h h60
    rw [startTimer_eq, if_neg (by omega), if_pos h60, startCountdownBroadcast_eq,
      timerDelay_of_range (endTime - now) (by omega) (by omega)]
    refine ⟨?_, ?_, ?_⟩
    · split_ifs with hhas
      · exact hhas
      · exact JSMap.has_set_self _ _ _
    · intro hhas
      simp [hhas]
    · intro hhas
      simp [hhas]
  · intro h hmax
    rw [startTimer_eq, if_neg (by omega), if_neg (by omega),
      timerDelay_of_range (endTime - now) (by omega) hmax,
      timerDelay_of_range (endTime - now - 60000) (by omega) (by omega)]
    exact ⟨rfl, rfl⟩

/-- C26 at a concrete input: `startTimer("item_1", 180000)` on a fresh service at the times
180000 (nothing remains), 120000 (exactly 60000 ms remain) and 0 (180000 ms remain). -/
theorem startTimer_branches_witness :
    TimerService.new.startTimer 180000 "item_1" 180000
      = { TimerService.new with pending := [.endAuction "item_1"] } ∧
    (TimerService.new.startTimer 120000 "item_1" 180000).scheduled =
      [{ handle := 0, delay := 60000, repeating := false, callback := .endAuction "item_1" },
       { handle := 1, delay := 1000, repeating := true,
         callback := .countdownTick "item_1" 180000 }] ∧
    (TimerService.new.startTimer 0 "item_1" 180000).scheduled =
      [{ handle := 0, delay := 180000, repeating := false, callback := .endAuction "item_1" },
       { handle := 1, delay := 120000, repeating := false,
         callback := .startCountdownBroadcast "item_1" 180000 }] := by
  have h1 := (startTimer_branches TimerService.new 180000 "item_1" 180000).1 (by decide)
  have h2 := ((startTimer_branches TimerService.new 120000 "item_1" 180000).2.2.1 (by decide)
    (by decide)).2.1 rfl
  have h3 := (startTimer_branches TimerService.new 0 "item_1" 180000).2.2.2 (by decide)
    (by decide)
  exact ⟨h1, h2.1, h3.1⟩

/-- C26 as first stated fails for an auction that ends more than `TIMEOUT_MAX` ms ahead:
`startTimer("item_1", 3000000000)` at time 0 has `remaining = 3000000000`, the host replaces
both delay arguments by 1 ms, so the end-timer and the deferred ticker start are due after
1 ms: no live timer calls `endAuction("item_1")` after `remaining` ms, and none starts the
ticker after `remaining - 60000` ms. -/
theorem startTimer_overflows_host_delay :
    (TimerService.new.startTimer 0 "item_1" 3000000000).scheduled =
      [{ handle := 0, delay := 1, repeating := false, callback := .endAuction "item_1" },
       { handle := 1, delay := 1, repeating := false,
         callback := .startCountdownBroadcast "item_1" 3000000000 }] ∧
    ¬ (∃ t ∈ (TimerService.new.startTimer 0 "item_1" 3000000000).scheduled,
        t.callback = .endAuction "item_1" ∧ t.delay = 3000000000 - 0) ∧
    ¬ (∃ t ∈ (TimerService.new.startTimer 0 "item_1" 3000000000).scheduled,
        t.callback = .startCountdownBroadcast "item_1" 3000000000 ∧
        t.delay = 3000000000 - 0 - 60000) := by
  have h : (TimerService.new.startTimer 0 "item_1" 3000000000).scheduled =
      [{ handle := 0, delay := 1, repeating := false, callback := .endAuction "item_1" },
       { handle := 1, delay := 1, repeating := false,
         callback := .startCountdownBroadcast "item_1" 3000000000 }] := by
    rw [startTimer_eq, if_neg (by decide), if_neg (by decide),
      timerDelay_of_overflow _ (by decide), timerDelay_of_overflow _ (by decide)]
    rfl
  refine ⟨h, ?_, ?_⟩
  · rw [h]
    decide
  · rw [h]
    decide

/-- A rejected call leaves the in-memory store as it was. -/
theorem processBid_rejection_store (svc : BidService) (clk : BidClock)
    (itemId userId bidAmount : JSValue) (st : InMemoryStore)
    (hf : (BidService.processBid InMemoryStore.api svc clk itemId userId bidAmount st).1.success
      = false) :
    (BidService.processBid InMemoryStore.api svc clk itemId userId bidAmount st).2.2 = st := by
  rcases processBid_inMemory_step svc clk itemId userId bidAmount st with
    ⟨_, hst⟩ | ⟨item, user, n, a, _, _, _, _, _, _, _, _, _, _, hres, _⟩
  · exact hst
  · rw [hres] at hf
    simp [acceptedResult] at hf

/-! ## The handler: replies, broadcasts and notifications -/

@[simp] theorem send_sent (g : Gateway) (recipient : Recipient) (event : SocketEvent) :
    (g.send recipient event).sent = g.sent ++ [{ recipient := recipient, event := event }] := rfl

theorem sentSince_of_append (g g0 : Gateway) (new : List Emission)
    (h : g.sent = g0.sent ++ new) : g.sentSince g0 = new := by
  simp [Gateway.sentSince, h]

/-- The handler on a payload that `invalidBidData` rejects. -/
theorem handleBidPlaced_of_invalid (co : Coercion) (services : SocketServices)
    (socketId : String) (userId : JSValue) (clk : HandlerClock) (g : Gateway)
    (itemId bidAmount : JSValue) (h : invalidBidData co itemId bidAmount = true) :
    handleBidPlaced co services socketId userId clk (.fields itemId bidAmount) g =
      (.ok (), g.send (.socket socketId)
        (.bidError itemId (some "Invalid bid data") (some "INVALID_INPUT"))) := by
  simp [handleBidPlaced, h]

/-- The handler on a payload that is forwarded and that `processBid` rejects. -/
theorem handleBidPlaced_of_failure (co : Coercion) (services : SocketServices)
    (socketId : String) (userId : JSValue) (clk : HandlerClock) (g : Gateway)
    (itemId bidAmount : JSValue) (h : invalidBidData co itemId bidAmount = false)
    (hf : (BidService.processBid InMemoryStore.api g.world.bidService clk.bid itemId userId
      bidAmount g.world.store).1.success = false) :
    handleBidPlaced co services socketId userId clk (.fields itemId bidAmount) g =
      (.ok (),
       Gateway.send
        { g with world := { g.world with
            bidService := (BidService.processBid InMemoryStore.api g.world.bidService clk.bid
              itemId userId bidAmount g.world.store).2.1,
            store := (BidService.processBid InMemoryStore.api g.world.bidService clk.bid
              itemId userId bidAmount g.world.store).2.2 } }
        (.socket socketId)
        (.bidError itemId
          (BidService.processBid InMemoryStore.api g.world.bidService clk.bid itemId userId
            bidAmount g.world.store).1.error
          (BidService.processBid InMemoryStore.api g.world.bidService clk.bid itemId userId
            bidAmount g.world.store).1.code)) := by
  simp [handleBidPlaced, h, hf]

/-- The handler on a payload that is forwarded and that `processBid` accepts. -/
theorem handleBidPlaced_of_success (co : Coercion) (services : SocketServices)
    (socketId : String) (userId : JSValue) (clk : HandlerClock) (g : Gateway)
    (itemId bidAmount : JSValue) (d : ExecutedBid)
    (h : invalidBidData co itemId bidAmount = false)
    (hs : (BidService.processBid InMemoryStore.api g.world.bidService clk.bid itemId userId
      bidAmount g.world.store).1.success = true)
    (hd : (BidService.processBid InMemoryStore.api g.world.bidService clk.bid itemId userId
      bidAmount g.world.store).1.data = some d) :
    handleBidPlaced co services socketId userId clk (.fields itemId bidAmount) g =
      (.ok (),
       afterAcceptedBid services socketId userId itemId clk d
        { g with world := { g.world with
            bidService := (BidService.processBid InMemoryStore.api g.world.bidService clk.bid
              itemId userId bidAmount g.world.store).2.1,
            store := (BidService.processBid InMemoryStore.api g.world.bidService clk.bid
              itemId userId bidAmount g.world.store).2.2 } }) := by
  simp [handleBidPlaced, h, hs, hd]

/-- C22. A `BID_PLACED` message with a payload object that is rejected inline, or for which
`processBid` returns `success: false`: the handler completes and sends exactly one event,
`BID_ERROR { itemId, error, code }` to the sending socket (so nothing goes to everyone and
nothing to a room: no UPDATE_BID, no OUTBID_NOTIFICATION). For the inline rejection the event
carries `'Invalid bid data'` and `INVALID_INPUT`, otherwise the error and code of the
`processBid` result. The timer service and the store are what they were: `extendIfNeeded` is
not called. -/
theorem bidPlaced_error_not_broadcast (co : Coercion) (services : SocketServices)
    (socketId : String) (userId : JSValue) (clk : HandlerClock) (g : Gateway)
    (itemId bidAmount : JSValue)
    (h : invalidBidData co itemId bidAmount = true ∨
      (BidService.processBid InMemoryStore.api g.world.bidService clk.bid itemId userId
        bidAmount g.world.store).1.success = false) :
    (handleBidPlaced co services socketId userId clk (.fields itemId bidAmount) g).1 = .ok () ∧
    (handleBidPlaced co services socketId userId clk (.fields itemId bidAmount) g).2.sentSince g
      = [{ recipient := .socket socketId,
           event :=
             if invalidBidData co itemId bidAmount then
               .bidError itemId (some "Invalid bid data") (some "INVALID_INPUT")
             else
               .bidError itemId
                 (BidService.processBid InMemoryStore.api g.world.bidService clk.bid itemId
                   userId bidAmount g.world.store).1.error
                 (BidService.processBid InMemoryStore.api g.world.bidService clk.bid itemId
                   userId bidAmount g.world.store).1.code }] ∧
    (handleBidPlaced co services socketId userId clk (.fields itemId bidAmount)
      g).2.world.timerService = g.world.timerService ∧
    (handleBidPlaced co services socketId userId clk (.fields itemId bidAmount)
      g).2.world.store = g.world.store := by
  cases hi : invalidBidData co itemId bidAmount with
  | true =>
    rw [handleBidPlaced_of_invalid co services socketId userId clk g itemId bidAmount hi]
    exact ⟨rfl, sentSince_of_append _ _ _ (by simp), rfl, rfl⟩
  | false =>
    have hf : (BidService.processBid InMemoryStore.api g.world.bidService clk.bid itemId userId
        bidAmount g.world.store).1.success = false := by
      rcases h with h | h
      · rw [hi] at h; cases h
      · exact h
    rw [handleBidPlaced_of_failure co services socketId userId clk g itemId bidAmount hi hf]
    refine ⟨rfl, sentSince_of_append _ _ _ (by simp), rfl, ?_⟩
    exact (processBid_rejection_store g.world.bidService clk.bid itemId userId bidAmount
      g.world.store hf)

/-- C22 at a concrete input: on the example gateway user `"A"` bids 8000 on `"item_1"`,
whose current bid is 8500. -/
theorem bidPlaced_error_not_broadcast_witness :
    (handleBidPlaced exampleCoercion { timerService := true } "socket_1" (.string "A")
      (HandlerClock.at 170000) (.fields (.string "item_1") (.number (.finite 8000)))
      exampleGateway).2.sentSince exampleGateway
      = [{ recipient := .socket "socket_1",
           event := .bidError (.string "item_1") (some "Bid must be higher than $8500")
             (some "BID_TOO_LOW") }] ∧
    (handleBidPlaced exampleCoercion { timerService := true } "socket_1" (.string "A")
      (HandlerClock.at 170000) (.fields (.string "item_1") (.number (.finite 8000)))
      exampleGateway).2.world.timerService = exampleGateway.world.timerService := by
  have h := bidPlaced_error_not_broadcast exampleCoercion { timerService := true } "socket_1"
    (.string "A") (HandlerClock.at 170000) exampleGateway (.string "item_1")
    (.number (.finite 8000)) (Or.inr rfl)
  exact ⟨h.2.1.trans rfl, h.2.2.1⟩

/-- C30 (the code at the failing input). A `BID_PLACED` message sent with no payload, so
that `data` is `undefined` (or `null`): the destructuring `const { itemId, bidAmount } = data`
stands before the `try`, its `TypeError` rejects the handler, and nothing is sent: no
BID_ERROR reaches the sender. This holds for every socket, user, clock and gateway state. -/
theorem bidPlaced_without_payload_rejects (co : Coercion) (services : SocketServices)
    (socketId : String) (userId : JSValue) (clk : HandlerClock) (g : Gateway) :
    handleBidPlaced co services socketId userId clk .nullish g = (.error "TypeError", g) ∧
    (handleBidPlaced co services socketId userId clk .nullish g).2.sentSince g = [] := by
  refine ⟨rfl, ?_⟩
  simp [handleBidPlaced, Gateway.sentSince]

theorem afterAcceptedBid_sent (services : SocketServices) (socketId : String)
    (userId itemId : JSValue) (clk : HandlerClock) (d : ExecutedBid) (g : Gateway) :
    ∃ tail : List Emission,
      (afterAcceptedBid services socketId userId itemId clk d g).sent =
        g.sent ++
          ([{ recipient := .socket socketId,
              event := .bidSuccess itemId d.bid d.auction.currentBid },
            { recipient := .everyone,
              event := .updateBid itemId d.auction.currentBid d.auction.currentBidder
                d.auction.bids.length d.bid.timestamp }] ++
            outbidEmissions userId itemId d ++ tail) ∧
      (tail = [] ∨
        tail = [{ recipient := .socket socketId,
                  event := .bidError itemId (some "Server error processing bid")
                    (some "SERVER_ERROR") }]) := by
  obtain ⟨flag⟩ := services
  cases flag with
  | false =>
    refine ⟨[], ?_, Or.inl rfl⟩
    cases hp : d.previousBidder with
    | none => simp [afterAcceptedBid, outbidEmissions, hp]
    | some p =>
      by_cases hc : p ≠ "" ∧ JSValue.string p ≠ userId
      · simp [afterAcceptedBid, outbidEmissions, hp, hc]
      · simp [afterAcceptedBid, outbidEmissions, hp, hc]
  | true =>
    cases he : (g.world.timerService.extendIfNeeded clk.extendNow clk.startNow itemId.asString
        g.world.store).1 with
    | ok b =>
      refine ⟨[], ?_, Or.inl rfl⟩
      cases hp : d.previousBidder with
      | none => simp [afterAcceptedBid, outbidEmissions, hp, he]
      | some p =>
        by_cases hc : p ≠ "" ∧ JSValue.string p ≠ userId
        · simp [afterAcceptedBid, outbidEmissions, hp, hc, he]
        · simp [afterAcceptedBid, outbidEmissions, hp, hc, he]
    | error x =>
      refine ⟨_, ?_, Or.inr rfl⟩
      cases hp : d.previousBidder with
      | none => simp [afterAcceptedBid, outbidEmissions, hp, he]
      | some p =>
        by_cases hc : p ≠ "" ∧ JSValue.string p ≠ userId
        · simp [afterAcceptedBid, outbidEmissions, hp, hc, he]
        · simp [afterAcceptedBid, outbidEmissions, hp, hc, he]


/-- A rejected message, inline or by `processBid`, is answered by one BID_ERROR to the
sending socket and by nothing else. -/
theorem handleBidPlaced_rejection_sent (co : Coercion) (services : SocketServices)
    (socketId : String) (userId : JSValue) (clk : HandlerClock) (g : Gateway)
    (itemId bidAmount : JSValue)
    (h : invalidBidData co itemId bidAmount = true ∨
      (BidService.processBid InMemoryStore.api g.world.bidService clk.bid itemId userId
        bidAmount g.world.store).1.success = false) :
    ∃ error code,
      (handleBidPlaced co services socketId userId clk (.fields itemId bidAmount) g).2.sentSince g
        = [{ recipient := .socket socketId, event := .bidError itemId error code }] := by
  cases hi : invalidBidData co itemId bidAmount with
  | true =>
    rw [handleBidPlaced_of_invalid co services socketId userId clk g itemId bidAmount hi]
    exact ⟨_, _, sentSince_of_append _ _ _ rfl⟩
  | false =>
    have hf : (BidService.processBid InMemoryStore.api g.world.bidService clk.bid itemId userId
        bidAmount g.world.store).1.success = false := by
      rcases h with h | h
      · rw [hi] at h; cases h
      · exact h
    rw [handleBidPlaced_of_failure co services socketId userId clk g itemId bidAmount hi hf]
    exact ⟨_, _, sentSince_of_append _ _ _ rfl⟩

/-- A call that returned `success: true` had input that passed `validateInput`. -/
theorem processBid_success_valid {σ : Type} (api : StoreApi σ) (svc : BidService)
    (clk : BidClock) (itemId userId bidAmount : JSValue) (st : σ)
    (hs : (BidService.processBid api svc clk itemId userId bidAmount st).1.success = true) :
    (BidService.validateInput itemId userId bidAmount).valid = true := by
  cases hv : (BidService.validateInput itemId userId bidAmount).valid with
  | true => rfl
  | false =>
    rw [processBid_invalid _ _ _ _ _ _ _ hv] at hs
    simp [BidResult.failure] at hs

theorem jsTrim_empty : jsTrim "" = "" := by decide

/-- C21. A bid accepted through the `BID_PLACED` handler (the run sent a BID_SUCCESS), on a
store whose bidders are named: the message carried an item id, the user and an integer
amount, the auction `a` was stored under that id, and its `currentBidder` before the bid
was not the new bidder. The OUTBID_NOTIFICATION events of the run are: when `a` had a
`currentBidder` `p`, exactly one, addressed to the room `user_p` with
`{ itemId, newBid: the accepted amount, yourBid: a.currentBid }`; when it had none, none. So
a notification is sent exactly when the auction had a `currentBidder` before the bid. -/
theorem bidPlaced_outbid_notification (co : Coercion) (services : SocketServices)
    (socketId : String) (userId : JSValue) (clk : HandlerClock) (g : Gateway)
    (itemId bidAmount : JSValue)
    (hacc : ∃ e ∈ (handleBidPlaced co services socketId userId clk (.fields itemId bidAmount)
      g).2.sentSince g, e.event.isBidSuccess = true)
    (hid : g.world.store.BiddersNamed) :
    ∃ (item user : String) (n : Int) (a : Auction),
      itemId = .string item ∧ userId = .string user ∧ bidAmount = .number (.finite (n : ℚ)) ∧
      g.world.store.getAuction item = some a ∧ a.currentBidder ≠ some user ∧
      ((handleBidPlaced co services socketId userId clk (.fields itemId bidAmount)
          g).2.sentSince g).filter (fun e => e.event.isOutbidNotification) =
        (match a.currentBidder with
         | some p =>
           [{ recipient := .room ("user_" ++ p),
              event := .outbidNotification itemId n a.currentBid }]
         | none => []) ∧
      ((∃ e ∈ (handleBidPlaced co services socketId userId clk (.fields itemId bidAmount)
          g).2.sentSince g, e.event.isOutbidNotification = true) ↔ a.currentBidder ≠ none) := by
  obtain ⟨e, he, hev⟩ := hacc
  cases hi : invalidBidData co itemId bidAmount with
  | true =>
    obtain ⟨error, code, hsent⟩ := handleBidPlaced_rejection_sent co services socketId userId
      clk g itemId bidAmount (Or.inl hi)
    rw [hsent, List.mem_singleton] at he
    rw [he] at hev
    cases hev
  | false =>
    rcases processBid_inMemory_step g.world.bidService clk.bid itemId userId bidAmount
        g.world.store with
      ⟨hf, _⟩ | ⟨item, user, n, a, h1, h2, h3, _, _, ha, _, _, _, hne, hres, _⟩
    · obtain ⟨error, code, hsent⟩ := handleBidPlaced_rejection_sent co services socketId userId
        clk g itemId bidAmount (Or.inr hf)
      rw [hsent, List.mem_singleton] at he
      rw [he] at hev
      cases hev
    · have hs : (BidService.processBid InMemoryStore.api g.world.bidService clk.bid itemId
          userId bidAmount g.world.store).1.success = true := by rw [hres]; rfl
      have hd : (BidService.processBid InMemoryStore.api g.world.bidService clk.bid itemId
          userId bidAmount g.world.store).1.data = some
            { auction := committed clk.bid item user n a, bid := newBidOf clk.bid item user n,
              previousBid := a.currentBid, previousBidder := a.currentBidder } := by
        rw [hres]; rfl
      have hblank := hid item a ha
      rw [handleBidPlaced_of_success co services socketId userId clk g itemId bidAmount _ hi hs hd]
      obtain ⟨tail, hsent, htail⟩ := afterAcceptedBid_sent services socketId userId itemId clk
        { auction := committed clk.bid item user n a, bid := newBidOf clk.bid item user n,
          previousBid := a.currentBid, previousBidder := a.currentBidder }
        { g with world := { g.world with
            bidService := (BidService.processBid InMemoryStore.api g.world.bidService clk.bid
              itemId userId bidAmount g.world.store).2.1,
            store := (BidService.processBid InMemoryStore.api g.world.bidService clk.bid
              itemId userId bidAmount g.world.store).2.2 } }
      have hout : outbidEmissions userId itemId
          { auction := committed clk.bid item user n a, bid := newBidOf clk.bid item user n,
            previousBid := a.currentBid, previousBidder := a.currentBidder } =
          (match a.currentBidder with
           | some p =>
             [{ recipient := .room ("user_" ++ p),
                event := .outbidNotification itemId n a.currentBid }]
           | none => []) := by
        cases hp : a.currentBidder with
        | none => simp [outbidEmissions, hp]
        | some p =>
          have hp1 : p ≠ "" := fun hc => hblank (by rw [hp, hc])
          have hp2 : JSValue.string p ≠ userId := by
            rw [h2]
            intro hc
            cases hc
            exact hne hp
          simp [outbidEmissions, hp, hp1, hp2, committed]
      rw [sentSince_of_append _ g _ hsent, hout]
      refine ⟨item, user, n, a, h1, h2, h3, ha, hne, ?_, ?_⟩
      · rcases htail with rfl | rfl <;> cases a.currentBidder <;>
          simp [List.filter_cons, SocketEvent.isOutbidNotification]
      · rcases htail with rfl | rfl <;> cases a.currentBidder <;>
          simp [SocketEvent.isOutbidNotification]

/-! ## Stored bidders are named -/

theorem biddersNamed_set (st : InMemoryStore) (item : String) (a1 : Auction)
    (h : st.BiddersNamed) (ha : a1.currentBidder ≠ some "") :
    ({ st with auctions := st.auctions.set item a1 } : InMemoryStore).BiddersNamed := by
  intro id a hget
  by_cases hk : id = item
  · subst hk
    simp only [InMemoryStore.getAuction, JSMap.get_set_self] at hget
    cases hget
    exact ha
  · simp only [InMemoryStore.getAuction] at hget
    rw [JSMap.get_set_of_ne _ _ hk] at hget
    exact h id a hget

theorem JSMap.mem_of_get {β : Type} (m : JSMap β) (k : String) (v : β)
    (h : m.get k = some v) : (k, v) ∈ m := by
  induction m with
  | nil => simp [JSMap.get] at h
  | cons e rest ih =>
    obtain ⟨k1, v1⟩ := e
    by_cases hk : k1 = k
    · simp only [JSMap.get, hk, if_true] at h
      cases h
      rw [hk]
      exact List.mem_cons_self _ _
    · simp only [JSMap.get, hk, if_false] at h
      exact List.mem_cons_of_mem _ (ih h)

theorem biddersNamed_of_forall (st : InMemoryStore)
    (h : ∀ e ∈ st.auctions, e.2.currentBidder ≠ some "") : st.BiddersNamed :=
  fun id a hget => h (id, a) (JSMap.mem_of_get _ _ _ hget)

theorem processBid_biddersNamed (svc : BidService) (clk : BidClock)
    (itemId userId bidAmount : JSValue) (st : InMemoryStore) (h : st.BiddersNamed) :
    (BidService.processBid InMemoryStore.api svc clk itemId userId bidAmount
      st).2.2.BiddersNamed := by
  rcases processBid_inMemory_step svc clk itemId userId bidAmount st with
    ⟨_, hst⟩ | ⟨item, user, n, a, _, hu, _, _, _, _, _, _, _, _, hres, hst⟩
  · rw [hst]; exact h
  · have hs : (BidService.processBid InMemoryStore.api svc clk itemId userId bidAmount
        st).1.success = true := by rw [hres]; rfl
    obtain ⟨_, user1, _, _, _, hu1, htrim, _⟩ :=
      (validateInput_valid_iff itemId userId bidAmount).mp
        (processBid_success_valid _ _ _ _ _ _ _ hs)
    rw [hu] at hu1
    cases hu1
    rw [hst]
    refine biddersNamed_set st item _ h ?_
    intro hc
    simp only [committed, Option.some.injEq] at hc
    rw [hc] at htrim
    exact htrim jsTrim_empty

theorem endAuction_biddersNamed (ts : TimerService) (now : Int) (item : String)
    (st : InMemoryStore) (h : st.BiddersNamed) : (ts.endAuction now item st).1.BiddersNamed := by
  cases ha : st.getAuction item with
  | none => rw [endAuction_of_missing ts now item st ha]; exact h
  | some a =>
    by_cases hs : a.status = "active"
    · rw [endAuction_of_active ts now item st a ha hs]
      exact biddersNamed_set st item _ h (h item a ha)
    · rw [endAuction_of_not_active ts now item st a ha hs]; exact h

theorem extendIfNeeded_biddersNamed (ts : TimerService) (now startNow : Int) (item : String)
    (st : InMemoryStore) (h : st.BiddersNamed) :
    (ts.extendIfNeeded now startNow item st).2.1.BiddersNamed := by
  cases ha : st.getAuction item with
  | none => rw [extendIfNeeded_of_missing ts now startNow item st ha]; exact h
  | some a =>
    by_cases hw : 0 < a.endTime - now ∧ a.endTime - now < 30000
    · rw [extendIfNeeded_of_window ts now startNow item st a ha hw.1 hw.2]
      exact biddersNamed_set st item _ h (h item a ha)
    · rw [extendIfNeeded_of_not_window ts now startNow item st a ha hw]; exact h

/-- Every operation that writes auctions keeps the stored bidders named. -/
theorem step_biddersNamed (w : World) (op : Operation) (h : w.store.BiddersNamed) :
    (w.step op).store.BiddersNamed := by
  cases op with
  | processBid clk itemId userId bidAmount =>
    exact processBid_biddersNamed w.bidService clk itemId userId bidAmount w.store h
  | endAuction now item => exact endAuction_biddersNamed w.timerService now item w.store h
  | extendIfNeeded now startNow item =>
    exact extendIfNeeded_biddersNamed w.timerService now startNow item w.store h

theorem run_biddersNamed (ops : List Operation) (w : World) (h : w.store.BiddersNamed) :
    (w.run ops).store.BiddersNamed := by
  induction ops generalizing w with
  | nil => exact h
  | cons op rest ih => exact ih (w.step op) (step_biddersNamed w op h)

theorem afterAcceptedBid_biddersNamed (services : SocketServices) (socketId : String)
    (userId itemId : JSValue) (clk : HandlerClock) (d : ExecutedBid) (g : Gateway)
    (h : g.world.store.BiddersNamed) :
    (afterAcceptedBid services socketId userId itemId clk d g).world.store.BiddersNamed := by
  have hx := extendIfNeeded_biddersNamed g.world.timerService clk.extendNow clk.startNow
    itemId.asString g.world.store h
  obtain ⟨flag⟩ := services
  cases flag with
  | false =>
    cases hp : d.previousBidder with
    | none => simpa [afterAcceptedBid, hp] using h
    | some p =>
      by_cases hc : p ≠ "" ∧ JSValue.string p ≠ userId
      · simpa [afterAcceptedBid, hp, hc] using h
      · simpa [afterAcceptedBid, hp, hc] using h
  | true =>
    cases he : (g.world.timerService.extendIfNeeded clk.extendNow clk.startNow itemId.asString
        g.world.store).1 with
    | ok b =>
      cases hp : d.previousBidder with
      | none => simpa [afterAcceptedBid, hp, he] using hx
      | some p =>
        by_cases hc : p ≠ "" ∧ JSValue.string p ≠ userId
        · simpa [afterAcceptedBid, hp, hc, he] using hx
        · simpa [afterAcceptedBid, hp, hc, he] using hx
    | error x =>
      cases hp : d.previousBidder with
      | none => simpa [afterAcceptedBid, hp, he] using h
      | some p =>
        by_cases hc : p ≠ "" ∧ JSValue.string p ≠ userId
        · simpa [afterAcceptedBid, hp, hc, he] using h
        · simpa [afterAcceptedBid, hp, hc, he] using h

/-- Every run of the handler keeps the stored bidders named. -/
theorem handleBidPlaced_biddersNamed (co : Coercion) (services : SocketServices)
    (socketId : String) (userId : JSValue) (clk : HandlerClock) (data : Payload) (g : Gateway)
    (h : g.world.store.BiddersNamed) :
    (handleBidPlaced co services socketId userId clk data g).2.world.store.BiddersNamed := by
  have hp := processBid_biddersNamed g.world.bidService clk.bid
  cases data with
  | nullish => exact h
  | fields itemId bidAmount =>
    simp only [handleBidPlaced]
    split_ifs
    · exact h
    · exact hp itemId userId bidAmount g.world.store h
    · split
      · exact afterAcceptedBid_biddersNamed _ _ _ _ _ _ _ (hp itemId userId bidAmount _ h)
      · exact hp itemId userId bidAmount g.world.store h

/-- C21 at a concrete input: on the example gateway, where `"A"` leads with 9000, user `"B"`
bids 9600 at time 2000 from `"socket_2"`. -/
theorem bidPlaced_outbid_notification_witness :
    exampleLeadGateway.world.store.BiddersNamed ∧
    (∃ (item user : String) (n : Int) (a : Auction),
      JSValue.string "item_1" = .string item ∧ JSValue.string "B" = .string user ∧
      JSValue.number (.finite 9600) = .number (.finite (n : ℚ)) ∧
      exampleLeadGateway.world.store.getAuction item = some a ∧ a.currentBidder ≠ some user ∧
      ((handleBidPlaced exampleCoercion startServerServices "socket_2" (.string "B")
          (HandlerClock.at 2000) (.fields (.string "item_1") (.number (.finite 9600)))
          exampleLeadGateway).2.sentSince exampleLeadGateway).filter
          (fun e => e.event.isOutbidNotification) =
        (match a.currentBidder with
         | some p =>
           [{ recipient := .room ("user_" ++ p),
              event := .outbidNotification (.string "item_1") n a.currentBid }]
         | none => []) ∧
      ((∃ e ∈ (handleBidPlaced exampleCoercion startServerServices "socket_2" (.string "B")
          (HandlerClock.at 2000) (.fields (.string "item_1") (.number (.finite 9600)))
          exampleLeadGateway).2.sentSince exampleLeadGateway,
          e.event.isOutbidNotification = true) ↔ a.currentBidder ≠ none)) ∧
    ((handleBidPlaced exampleCoercion startServerServices "socket_2" (.string "B")
        (HandlerClock.at 2000) (.fields (.string "item_1") (.number (.finite 9600)))
        exampleLeadGateway).2.sentSince exampleLeadGateway).filter
        (fun e => e.event.isOutbidNotification) =
      [{ recipient := .room "user_A",
         event := .outbidNotification (.string "item_1") 9600 9000 }] := by
  have hid : exampleLeadGateway.world.store.BiddersNamed :=
    handleBidPlaced_biddersNamed _ _ _ _ _ _ _ (biddersNamed_of_forall exampleStore (by decide))
  exact ⟨hid,
    bidPlaced_outbid_notification exampleCoercion startServerServices "socket_2" (.string "B")
      (HandlerClock.at 2000) exampleLeadGateway (.string "item_1") (.number (.finite 9600))
      ⟨_, List.mem_cons_self _ _, rfl⟩ hid,
    rfl⟩

/-! ## The connection registries -/

theorem socketsOf_append (live : List Socket) (s : Socket) (u : String) :
    socketsOf (live ++ [s]) u = socketsOf live u ++ (if s.userId = u then [s.id] else []) := by
  unfold socketsOf
  by_cases h : s.userId = u
  · simp [List.filter_append, List.filter_cons, h]
  · simp [List.filter_append, List.filter_cons, h]

theorem socketsOf_subset (live : List Socket) (u x : String) (h : x ∈ socketsOf live u) :
    x ∈ live.map (fun s => s.id) := by
  unfold socketsOf at h
  obtain ⟨s, hs, rfl⟩ := List.mem_map.mp h
  exact List.mem_map.mpr ⟨s, (List.mem_filter.mp hs).1, rfl⟩

theorem socketsOf_remove (live : List Socket) (s : Socket) (u : String) :
    socketsOf (live.filter (fun t => decide (t.id ≠ s.id))) u =
      (socketsOf live u).filter (fun y => decide (y ≠ s.id)) := by
  unfold socketsOf
  induction live with
  | nil => rfl
  | cons t rest ih =>
    by_cases h1 : t.id = s.id <;> by_cases h2 : t.userId = u <;>
      simp [List.filter_cons, h1, h2] at ih ⊢ <;> exact ih

/-- Two connected sockets with the same id are the same socket. -/
theorem socket_eq_of_id (live : List Socket) (hn : (live.map (fun s => s.id)).Nodup)
    (s t : Socket) (hs : s ∈ live) (ht : t ∈ live) (h : t.id = s.id) : t = s :=
  List.inj_on_of_nodup_map hn ht hs h

theorem socketsOf_remove_other (live : List Socket) (hn : (live.map (fun s => s.id)).Nodup)
    (s : Socket) (hs : s ∈ live) (u : String) (hu : u ≠ s.userId) :
    socketsOf (live.filter (fun t => decide (t.id ≠ s.id))) u = socketsOf live u := by
  rw [socketsOf_remove]
  apply List.filter_eq_self.mpr
  intro x hx
  unfold socketsOf at hx
  obtain ⟨t, ht, rfl⟩ := List.mem_map.mp hx
  obtain ⟨ht1, ht2⟩ := List.mem_filter.mp ht
  have ht3 : t.userId = u := by simpa using ht2
  simp only [ne_eq, decide_eq_true_eq]
  intro hc
  have := socket_eq_of_id live hn s t hs ht1 hc
  rw [this] at ht3
  exact hu ht3.symm

theorem onConnection_activeConnections (p : Presence) (now : Int) (socket : Socket) :
    (p.onConnection now socket).activeConnections = p.activeConnections.add socket.id := by
  unfold Presence.onConnection
  simp only [Presence.send]
  split_ifs <;> rfl

theorem onConnection_userSockets_get (p : Presence) (now : Int) (socket : Socket) (u : String) :
    (p.onConnection now socket).userSockets.get u =
      if u = socket.userId then
        some (((p.userSockets.get socket.userId).getD []).add socket.id)
      else p.userSockets.get u := by
  unfold Presence.onConnection
  simp only [Presence.send]
  cases hg : p.userSockets.get socket.userId with
  | none =>
    by_cases hu : u = socket.userId
    · subst hu
      simp [JSMap.has, hg, JSMap.get_set_self]
    · simp [JSMap.has, hg, hu, JSMap.get_set_of_ne _ _ hu]
  | some l =>
    by_cases hu : u = socket.userId
    · subst hu
      simp [JSMap.has, hg, JSMap.get_set_self]
    · simp [JSMap.has, hg, hu, JSMap.get_set_of_ne _ _ hu]

theorem onConnection_sent (p : Presence) (now : Int) (socket : Socket) :
    (p.onConnection now socket).sent = p.sent ++
      [{ recipient := .socket socket.id,
         event := .connected socket.userId socket.username now },
       { recipient := .everyone,
         event := .activeUsers (p.activeConnections.add socket.id).size }] := by
  unfold Presence.onConnection
  simp only [Presence.send]
  split_ifs <;> simp

theorem onDisconnect_activeConnections (p : Presence) (socket : Socket) :
    (p.onDisconnect socket).activeConnections = p.activeConnections.delete socket.id := by
  unfold Presence.onDisconnect
  simp only [Presence.send]
  split_ifs <;> rfl

theorem onDisconnect_userSockets_get (p : Presence) (socket : Socket) (u : String) :
    (p.onDisconnect socket).userSockets.get u =
      if u = socket.userId then
        match p.userSockets.get socket.userId with
        | none => none
        | some l => if (l.delete socket.id).size = 0 then none else some (l.delete socket.id)
      else p.userSockets.get u := by
  unfold Presence.onDisconnect
  simp only [Presence.send]
  cases hg : p.userSockets.get socket.userId with
  | none =>
    by_cases hu : u = socket.userId
    · subst hu
      simp [JSMap.has, hg]
    · simp [JSMap.has, hg, hu]
  | some l =>
    by_cases hz : (JSSet.delete l socket.id).size = 0
    · by_cases hu : u = socket.userId
      · subst hu
        simp [JSMap.has, hg, hz, JSMap.get_delete_self]
      · simp [JSMap.has, hg, hz, hu, JSMap.get_delete_of_ne _ hu, JSMap.get_set_of_ne _ _ hu]
    · by_cases hu : u = socket.userId
      · subst hu
        simp [JSMap.has, hg, hz, JSMap.get_set_self]
      · simp [JSMap.has, hg, hz, hu, JSMap.get_set_of_ne _ _ hu]

theorem onDisconnect_sent (p : Presence) (socket : Socket) :
    (p.onDisconnect socket).sent = p.sent ++
      [{ recipient := .everyone,
         event := .activeUsers (p.activeConnections.delete socket.id).size }] := by
  unfold Presence.onDisconnect
  simp only [Presence.send]
  split_ifs <;> rfl

/-- The connection handler keeps the registries true to the connected sockets. -/
theorem onConnection_tracks (p : Presence) (live : List Socket) (now : Int) (socket : Socket)
    (h : p.Tracks live) (hfresh : socket.id ∉ live.map (fun s => s.id)) :
    (p.onConnection now socket).Tracks (live ++ [socket]) := by
  obtain ⟨h1, h2, h3⟩ := h
  refine ⟨?_, ?_, ?_⟩
  · rw [onConnection_activeConnections, h1]
    simp [JSSet.add, hfresh]
  · rw [List.map_append, List.nodup_append]
    refine ⟨h2, List.nodup_singleton _, ?_⟩
    intro x hx hx1
    simp only [List.map_cons, List.map_nil, List.mem_singleton] at hx1
    rw [hx1] at hx
    exact hfresh hx
  · intro u
    rw [onConnection_userSockets_get, socketsOf_append]
    by_cases hu : u = socket.userId
    · subst hu
      have hnot : socket.id ∉ socketsOf live socket.userId :=
        fun hc => hfresh (socketsOf_subset live _ _ hc)
      rw [h3 socket.userId]
      by_cases he : socketsOf live socket.userId = []
      · simp [he, JSSet.add]
      · simp [he, JSSet.add, hnot]
    · have hu1 : ¬ socket.userId = u := fun hc => hu hc.symm
      simp [hu, hu1, h3 u]

/-- The disconnect handler keeps the registries true to the connected sockets. -/
theorem onDisconnect_tracks (p : Presence) (live : List Socket) (socket : Socket)
    (h : p.Tracks live) (hlive : socket ∈ live) :
    (p.onDisconnect socket).Tracks (live.filter (fun s => decide (s.id ≠ socket.id))) := by
  obtain ⟨h1, h2, h3⟩ := h
  refine ⟨?_, ?_, ?_⟩
  · rw [onDisconnect_activeConnections, h1]
    simp only [JSSet.delete]
    rw [List.filter_map]
    rfl
  · exact (List.Nodup.sublist (List.Sublist.map _ (List.filter_sublist _)) h2)
  · intro u
    rw [onDisconnect_userSockets_get]
    by_cases hu : u = socket.userId
    · subst hu
      rw [socketsOf_remove, h3 socket.userId]
      have hne : socketsOf live socket.userId ≠ [] := by
        intro hc
        have : socket.id ∈ socketsOf live socket.userId := by
          unfold socketsOf
          exact List.mem_map.mpr ⟨socket, List.mem_filter.mpr ⟨hlive, by simp⟩, rfl⟩
        rw [hc] at this
        cases this
      simp only [hne, if_true, if_false, JSSet.delete, JSSet.size]
      by_cases hz : (socketsOf live socket.userId).filter (fun y => decide (y ≠ socket.id)) = []
      · simp [hz]
      · simp [hz]
    · simp only [hu, if_false]
      rw [socketsOf_remove_other live h2 socket hlive u hu]
      exact h3 u

theorem activeUsersCounts_append (l1 l2 : List PresenceEmission) :
    activeUsersCounts (l1 ++ l2) = activeUsersCounts l1 ++ activeUsersCounts l2 := by
  simp [activeUsersCounts, List.filterMap_append]

/-- One event: the registries stay true to the connected sockets, and the one ACTIVE_USERS
broadcast of the handler carries the number of connected sockets after the event. -/
theorem step_tracks (p : Presence) (live : List Socket) (e : SocketLife)
    (h : p.Tracks live) (hv : validLife live [e] = true) :
    (p.step e).Tracks (liveStep live e) ∧
    activeUsersCounts (p.step e).sent = activeUsersCounts p.sent ++ [(liveStep live e).length] := by
  cases e with
  | connect now socket =>
    have hfresh : socket.id ∉ live.map (fun s => s.id) := by
      simpa [validLife] using hv
    have ht := onConnection_tracks p live now socket h hfresh
    refine ⟨ht, ?_⟩
    show activeUsersCounts (p.onConnection now socket).sent = _
    rw [onConnection_sent, activeUsersCounts_append, ← onConnection_activeConnections p now,
      ht.1]
    simp [activeUsersCounts, JSSet.size, liveStep]
  | disconnect socket =>
    have hlive : socket ∈ live := by simpa [validLife] using hv
    have ht := onDisconnect_tracks p live socket h hlive
    refine ⟨ht, ?_⟩
    show activeUsersCounts (p.onDisconnect socket).sent = _
    rw [onDisconnect_sent, activeUsersCounts_append, ← onDisconnect_activeConnections, ht.1]
    simp [activeUsersCounts, JSSet.size, liveStep]

theorem validLife_cons (live : List Socket) (e : SocketLife) (rest : List SocketLife)
    (hv : validLife live (e :: rest) = true) :
    validLife live [e] = true ∧ validLife (liveStep live e) rest = true := by
  cases e with
  | connect now socket =>
    simp only [validLife, Bool.and_eq_true, Bool.and_true] at hv ⊢
    exact hv
  | disconnect socket =>
    simp only [validLife, Bool.and_eq_true, Bool.and_true] at hv ⊢
    exact hv

theorem run_tracks (events : List SocketLife) (p : Presence) (live : List Socket)
    (h : p.Tracks live) (hv : validLife live events = true) :
    (p.run events).Tracks (liveAfter live events) ∧
    activeUsersCounts (p.run events).sent =
      activeUsersCounts p.sent ++ liveCounts live events := by
  induction events generalizing p live with
  | nil => exact ⟨h, by simp [Presence.run, liveCounts]⟩
  | cons e rest ih =>
    obtain ⟨hv1, hv2⟩ := validLife_cons live e rest hv
    obtain ⟨ht, hc⟩ := step_tracks p live e h hv1
    obtain ⟨ht2, hc2⟩ := ih (p.step e) (liveStep live e) ht hv2
    refine ⟨ht2, ?_⟩
    show activeUsersCounts ((p.step e).run rest).sent = _
    rw [hc2, hc]
    simp [liveCounts]

theorem tracks_new : Presence.new.Tracks [] :=
  ⟨rfl, List.nodup_nil, fun _ => rfl⟩

/-- C28. After any sequence of connect and disconnect events on a fresh gateway, in which a
socket that connects has an id no connected socket has and a socket that disconnects is
connected: `activeConnections` holds exactly the ids of the connected sockets, each once;
`userSockets` maps the user of every connected socket to the ids of that user's connected
sockets; every entry of `userSockets` holds a non-empty set, the ids of the connected sockets
of its user; and the counts of the ACTIVE_USERS broadcasts are, in order, the numbers of
connected sockets after each event (sockets, not users). -/
theorem connection_registry_invariant (events : List SocketLife)
    (hv : validLife [] events = true) :
    (Presence.new.run events).activeConnections
      = (liveAfter [] events).map (fun s => s.id) ∧
    ((liveAfter [] events).map (fun s => s.id)).Nodup ∧
    (∀ s ∈ liveAfter [] events,
      (Presence.new.run events).userSockets.get s.userId
        = some (socketsOf (liveAfter [] events) s.userId)) ∧
    (∀ (u : String) (sockets : JSSet),
      (Presence.new.run events).userSockets.get u = some sockets →
        sockets ≠ [] ∧ sockets = socketsOf (liveAfter [] events) u) ∧
    activeUsersCounts (Presence.new.run events).sent = liveCounts [] events := by
  obtain ⟨⟨h1, h2, h3⟩, hc⟩ := run_tracks events Presence.new [] tracks_new hv
  refine ⟨h1, h2, ?_, ?_, by simpa [Presence.new, activeUsersCounts] using hc⟩
  · intro s hs
    rw [h3 s.userId]
    have hne : socketsOf (liveAfter [] events) s.userId ≠ [] := by
      intro hc1
      have : s.id ∈ socketsOf (liveAfter [] events) s.userId := by
        unfold socketsOf
        exact List.mem_map.mpr ⟨s, List.mem_filter.mpr ⟨hs, by simp⟩, rfl⟩
      rw [hc1] at this
      cases this
    simp [hne]
  · intro u sockets hg
    rw [h3 u] at hg
    split_ifs at hg with he
    cases hg
    exact ⟨he, rfl⟩

/-- C28 at a concrete input: the five example events leave the socket `"s2"` of `"u1"`
connected, and the broadcast counts were 1, 2, 3, 2, 1. -/
theorem connection_registry_invariant_witness :
    validLife [] exampleLife = true ∧
    (Presence.new.run exampleLife).activeConnections = ["s2"] ∧
    (Presence.new.run exampleLife).userSockets = [("u1", ["s2"])] ∧
    activeUsersCounts (Presence.new.run exampleLife).sent = [1, 2, 3, 2, 1] := by
  have h := connection_registry_invariant exampleLife rfl
  exact ⟨rfl, h.1.trans rfl, rfl, h.2.2.2.2.trans rfl⟩

/-! ## The login route -/

theorem jsLength_empty : jsLength "" = 0 := rfl

/-- C24. `POST /auth/login` with a body whose `username` is missing, or a string whose
length after `trim()` is less than 2 (the empty string included): the response is status 400
with `success: false`, the message `'Username must be at least 2 characters'` and the code
`INVALID_USERNAME`; it carries no token and no user, and the store is what it was, so no user
was created. With a string `username` whose trimmed length is at least 2 the status is not
400, whatever the store holds and whatever `toLowerCase` and `jwt.sign` do. Lengths are those
of JavaScript strings (UTF-16 code units). -/
theorem login_username_validation (host : LoginHost) (clk : LoginClock) (st : InMemoryStore) :
    (∀ username : JSValue,
      (username = .undefined ∨ ∃ s, username = .string s ∧ jsLength (jsTrim s) < 2) →
      login host clk username st =
        ({ status := 400, success := false,
           message := some "Username must be at least 2 characters",
           code := some "INVALID_USERNAME", token := none, user := none }, st)) ∧
    (∀ s : String, 2 ≤ jsLength (jsTrim s) → (login host clk (.string s) st).1.status ≠ 400) := by
  constructor
  · rintro username (rfl | ⟨s, rfl, hs⟩)
    · rfl
    · by_cases he : s = ""
      · simp [login, JSValue.truthy, he, LoginResponse.failure]
      · simp [login, JSValue.truthy, he, hs, LoginResponse.failure]
  · intro s hs
    have he : s ≠ "" := by
      intro hc
      rw [hc] at hs
      revert hs
      decide
    have hlt : ¬ jsLength (jsTrim s) < 2 := by omega
    simp only [login, JSValue.truthy, he, hlt, ne_eq, not_false_eq_true, decide_True,
      Bool.not_true, Bool.false_eq_true, if_false]
    split <;> simp [LoginResponse.failure]

/-- C24 at concrete inputs: the username of the end-to-end test, `'a'`; a username of two
spaces and a letter; and `'Ann'`, which logs in. -/
theorem login_username_validation_witness :
    (login exampleLoginHost exampleLoginClock (.string "a") InMemoryStore.new).1.status = 400 ∧
    (login exampleLoginHost exampleLoginClock (.string "  b ") InMemoryStore.new).1.code
      = some "INVALID_USERNAME" ∧
    (login exampleLoginHost exampleLoginClock (.string "  b ") InMemoryStore.new).2
      = InMemoryStore.new ∧
    (login exampleLoginHost exampleLoginClock (.string "Ann") InMemoryStore.new).1.status ≠ 400 ∧
    (login exampleLoginHost exampleLoginClock (.string "Ann") InMemoryStore.new).1.user
      = some { id := "user_5000_k3x9qz", username := "ann",
               avatar := "https://api.dicebear.com/7.x/avataaars/svg?seed=ann" } := by
  have h := login_username_validation exampleLoginHost exampleLoginClock InMemoryStore.new
  have h1 := h.1 (.string "a") (Or.inr ⟨"a", rfl, by decide⟩)
  have h2 := h.1 (.string "  b ") (Or.inr ⟨"  b ", rfl, by decide⟩)
  exact ⟨by rw [h1], by rw [h2], by rw [h2], h.2 "Ann" (by decide), by decide⟩

/-! ## The handler replies on every payload that is not nullish -/

/-- For every payload other than `undefined` and `null` the handler completes, and the first
event it sends goes to the sending socket and is a BID_ERROR or a BID_SUCCESS. -/
theorem handleBidPlaced_replies (co : Coercion) (services : SocketServices)
    (socketId : String) (userId : JSValue) (clk : HandlerClock) (g : Gateway)
    (itemId bidAmount : JSValue) :
    (handleBidPlaced co services socketId userId clk (.fields itemId bidAmount) g).1 = .ok () ∧
    ∃ e rest,
      (handleBidPlaced co services socketId userId clk (.fields itemId bidAmount) g).2.sentSince g
        = e :: rest ∧
      e.recipient = .socket socketId ∧
      (e.event.isBidError = true ∨ e.event.isBidSuccess = true) := by
  constructor
  · simp only [handleBidPlaced]
    split_ifs
    · rfl
    · rfl
    · split <;> rfl
  · cases hi : invalidBidData co itemId bidAmount with
    | true =>
      obtain ⟨error, code, hsent⟩ := handleBidPlaced_rejection_sent co services socketId userId
        clk g itemId bidAmount (Or.inl hi)
      exact ⟨_, _, hsent, rfl, Or.inl rfl⟩
    | false =>
      cases hs : (BidService.processBid InMemoryStore.api g.world.bidService clk.bid itemId
          userId bidAmount g.world.store).1.success with
      | false =>
        obtain ⟨error, code, hsent⟩ := handleBidPlaced_rejection_sent co services socketId
          userId clk g itemId bidAmount (Or.inr hs)
        exact ⟨_, _, hsent, rfl, Or.inl rfl⟩
      | true =>
        cases hd : (BidService.processBid InMemoryStore.api g.world.bidService clk.bid itemId
            userId bidAmount g.world.store).1.data with
        | none =>
          refine ⟨{ recipient := .socket socketId,
                    event := .bidError itemId (some "Server error processing bid")
                      (some "SERVER_ERROR") }, [], sentSince_of_append _ g _ ?_, rfl,
            Or.inl rfl⟩
          simp [handleBidPlaced, hi, hs, hd]
        | some d =>
          rw [handleBidPlaced_of_success co services socketId userId clk g itemId bidAmount d
            hi hs hd]
          obtain ⟨tail, hsent, _⟩ := afterAcceptedBid_sent services socketId userId itemId clk d
            { g with world := { g.world with
                bidService := (BidService.processBid InMemoryStore.api g.world.bidService
                  clk.bid itemId userId bidAmount g.world.store).2.1,
                store := (BidService.processBid InMemoryStore.api g.world.bidService clk.bid
                  itemId userId bidAmount g.world.store).2.2 } }
          exact ⟨_, _, sentSince_of_append _ g _ hsent, rfl, Or.inr rfl⟩

/-! ## The scenario of four bids -/

theorem invalidBidData_of_bid (co : Coercion) (item : String) (n : Int)
    (hitem : jsTrim item ≠ "") (hn : 1 ≤ n) :
    invalidBidData co (.string item) (.number (.finite (n : ℚ))) = false := by
  have h1 : item ≠ "" := fun hc => hitem (by rw [hc]; exact jsTrim_empty)
  have h2 : (n : ℚ) ≠ 0 := by
    intro hc
    have : n = 0 := by exact_mod_cast hc
    omega
  have h3 : ¬ (n : ℚ) ≤ 0 := by
    intro hc
    have : n ≤ 0 := by exact_mod_cast hc
    omega
  simp [invalidBidData, JSValue.truthy, JSValue.toNumber, JSNumber.leZero, h1, h2, h3]

theorem validateInput_of_bid (item user : String) (n : Int) (hitem : jsTrim item ≠ "")
    (huser : jsTrim user ≠ "") (hn1 : 1 ≤ n) (hn2 : n ≤ 10000000) :
    (BidService.validateInput (.string item) (.string user) (.number (.finite (n : ℚ)))).valid
      = true :=
  (validateInput_valid_iff _ _ _).mpr ⟨item, user, n, rfl, hitem, rfl, huser, rfl, hn1, hn2⟩

@[simp] theorem attempted_bidLocks (svc : BidService) (now : Int) (user : String) :
    (svc.attempted now user).bidLocks = svc.bidLocks := rfl

theorem attempted_logOf (svc : BidService) (now : Int) (user u : String) :
    (svc.attempted now user).logOf u =
      if u = user then recentOf now (svc.logOf user) ++ [now] else svc.logOf u := by
  unfold BidService.attempted BidService.logOf
  by_cases h : u = user
  · subst h
    simp [JSMap.get_set_self]
  · simp [h, JSMap.get_set_of_ne _ _ h]

theorem recentOf_length_le (now : Int) (l : List Int) : (recentOf now l).length ≤ l.length :=
  List.length_filter_le _ _

/-- A call with valid input that the rate limiter lets pass and that finds the item
unlocked: the result and the store are those of the locked section, and the service has
logged the attempt. -/
theorem processBid_of_allowed {σ : Type} (api : StoreApi σ) (svc : BidService) (clk : BidClock)
    (item user : String) (n : Int) (st : σ) (hitem : jsTrim item ≠ "")
    (huser : jsTrim user ≠ "") (hn1 : 1 ≤ n) (hn2 : n ≤ 10000000)
    (hrate : (recentOf clk.rateLimitNow (svc.logOf user)).length < MAX_BIDS_PER_WINDOW)
    (hlock : svc.bidLocks.has item = false) :
    BidService.processBid api svc clk (.string item) (.string user)
        (.number (.finite (n : ℚ))) st =
      ((BidService.processBidLocked api clk item user n st).1,
       svc.attempted clk.rateLimitNow user,
       (BidService.processBidLocked api clk item user n st).2) := by
  have hv := validateInput_of_bid item user n hitem huser hn1 hn2
  have hr : (svc.checkRateLimit clk.rateLimitNow (JSValue.string user).asString).1.allowed
      = true := by
    cases hc : (svc.checkRateLimit clk.rateLimitNow (JSValue.string user).asString).1.allowed with
    | true => rfl
    | false =>
      have := (checkRateLimit_allowed_iff svc clk.rateLimitNow user).mp hc
      omega
  have hcr := checkRateLimit_allowed svc clk.rateLimitNow user hr
  have hl : (svc.checkRateLimit clk.rateLimitNow
      (JSValue.string user).asString).2.bidLocks.has (JSValue.string item).asString = false := by
    rw [checkRateLimit_bidLocks]
    exact hlock
  rw [processBid_underLock api svc clk _ _ _ st hv hr hl]
  simp only [JSValue.asString, asInt_intCast]
  have hg : (svc.checkRateLimit clk.rateLimitNow user).2.bidLocks.get item = none := by
    rw [checkRateLimit_bidLocks]
    simpa [JSMap.has] using hlock
  rw [JSMap.delete_set_of_get_none _ _ _ hg, hcr]
  rfl

/-- After an accepted bid on which no extension is due (or with no timer service on
`services`), the handler has sent BID_SUCCESS, UPDATE_BID and the notification of the previous
bidder, and the world is what `processBid` left. -/
theorem afterAcceptedBid_of_quiet (services : SocketServices) (socketId : String)
    (userId itemId : JSValue) (clk : HandlerClock) (d : ExecutedBid) (g : Gateway)
    (hq : services.timerService = true →
      ∃ a1, g.world.store.getAuction itemId.asString = some a1 ∧
        ¬ (0 < a1.endTime - clk.extendNow ∧ a1.endTime - clk.extendNow < 30000)) :
    afterAcceptedBid services socketId userId itemId clk d g =
      { world := g.world,
        sent := g.sent ++
          ([{ recipient := .socket socketId,
              event := .bidSuccess itemId d.bid d.auction.currentBid },
            { recipient := .everyone,
              event := .updateBid itemId d.auction.currentBid d.auction.currentBidder
                d.auction.bids.length d.bid.timestamp }] ++
            outbidEmissions userId itemId d) } := by
  obtain ⟨flag⟩ := services
  cases flag with
  | false =>
    cases hp : d.previousBidder with
    | none => simp [afterAcceptedBid, outbidEmissions, hp, Gateway.send]
    | some p =>
      by_cases hc : p ≠ "" ∧ JSValue.string p ≠ userId
      · simp [afterAcceptedBid, outbidEmissions, hp, hc, Gateway.send]
      · simp [afterAcceptedBid, outbidEmissions, hp, hc, Gateway.send]
  | true =>
    obtain ⟨a1, ha1, hw⟩ := hq rfl
    have he := extendIfNeeded_of_not_window g.world.timerService clk.extendNow clk.startNow
      itemId.asString g.world.store a1 ha1 hw
    cases hp : d.previousBidder with
    | none => simp [afterAcceptedBid, outbidEmissions, hp, he, Gateway.send]
    | some p =>
      by_cases hc : p ≠ "" ∧ JSValue.string p ≠ userId
      · simp [afterAcceptedBid, outbidEmissions, hp, hc, he, Gateway.send]
      · simp [afterAcceptedBid, outbidEmissions, hp, hc, he, Gateway.send]

/-- The handler on a well-formed bid that the rate limiter lets pass, on an unlocked item,
and that passes the business rules, when no extension is due. -/
theorem handleBidPlaced_accepts (co : Coercion) (services : SocketServices)
    (socketId item user : String) (n : Int) (clk : HandlerClock) (g : Gateway) (a : Auction)
    (hitem : jsTrim item ≠ "") (huser : jsTrim user ≠ "") (hn1 : 1 ≤ n) (hn2 : n ≤ 10000000)
    (hrate : (recentOf clk.bid.rateLimitNow (g.world.bidService.logOf user)).length
      < MAX_BIDS_PER_WINDOW)
    (hlock : g.world.bidService.bidLocks.has item = false)
    (ha : g.world.store.getAuction item = some a) (hs : a.status = "active")
    (ht : clk.bid.validateNow < a.endTime) (hb : a.currentBid < n)
    (hne : a.currentBidder ≠ some user)
    (hq : ¬ (0 < a.endTime - clk.extendNow ∧ a.endTime - clk.extendNow < 30000)) :
    handleBidPlaced co services socketId (.string user) clk (bidPayload item n) g =
      (.ok (),
       { world :=
           { store := { g.world.store with
               auctions := g.world.store.auctions.set item (committed clk.bid item user n a) },
             bidService := g.world.bidService.attempted clk.bid.rateLimitNow user,
             timerService := g.world.timerService },
         sent := g.sent ++
           ([{ recipient := .socket socketId,
               event := .bidSuccess (.string item) (newBidOf clk.bid item user n) n },
             { recipient := .everyone,
               event := .updateBid (.string item) n (some user) (a.bids.length + 1)
                 clk.bid.bidTimestamp }] ++
             outbidEmissions (.string user) (.string item) (executedOf clk.bid item user n a)) }) := by
  have hinv := invalidBidData_of_bid co item n hitem hn1
  have hrules : (BidService.validateBidRules (some a) clk.bid.validateNow user n).isValid
      = true := (validateBidRules_isValid_iff _ _ _ _).mpr ⟨a, rfl, hs, ht, hb, hne⟩
  have hp := processBid_of_allowed InMemoryStore.api g.world.bidService clk.bid item user n
    g.world.store hitem huser hn1 hn2 hrate hlock
  rw [processBidLocked_inMemory_accept g.world.store clk.bid item user n a ha hrules] at hp
  have hsucc : (BidService.processBid InMemoryStore.api g.world.bidService clk.bid
      (.string item) (.string user) (.number (.finite (n : ℚ))) g.world.store).1.success
      = true := by rw [hp]; rfl
  have hdata : (BidService.processBid InMemoryStore.api g.world.bidService clk.bid
      (.string item) (.string user) (.number (.finite (n : ℚ))) g.world.store).1.data
      = some (executedOf clk.bid item user n a) := by rw [hp]; rfl
  unfold bidPayload
  rw [handleBidPlaced_of_success co services socketId (.string user) clk g (.string item)
    (.number (.finite (n : ℚ))) (executedOf clk.bid item user n a) hinv hsucc hdata, hp]
  rw [afterAcceptedBid_of_quiet]
  · simp [executedOf, committed, newBidOf]
  · intro _
    refine ⟨committed clk.bid item user n a, ?_, hq⟩
    show (g.world.store.auctions.set item (committed clk.bid item user n a)).get item = _
    exact JSMap.get_set_self _ _ _

/-- The handler on a well-formed bid that the rate limiter lets pass, on an unlocked item,
and that fails a business rule. -/
theorem handleBidPlaced_rejects (co : Coercion) (services : SocketServices)
    (socketId item user : String) (n : Int) (clk : HandlerClock) (g : Gateway)
    (hitem : jsTrim item ≠ "") (huser : jsTrim user ≠ "") (hn1 : 1 ≤ n) (hn2 : n ≤ 10000000)
    (hrate : (recentOf clk.bid.rateLimitNow (g.world.bidService.logOf user)).length
      < MAX_BIDS_PER_WINDOW)
    (hlock : g.world.bidService.bidLocks.has item = false)
    (hrules : (BidService.validateBidRules (g.world.store.getAuction item) clk.bid.validateNow
      user n).isValid = false) :
    handleBidPlaced co services socketId (.string user) clk (bidPayload item n) g =
      (.ok (),
       { world :=
           { store := g.world.store,
             bidService := g.world.bidService.attempted clk.bid.rateLimitNow user,
             timerService := g.world.timerService },
         sent := g.sent ++
           [{ recipient := .socket socketId,
              event := .bidError (.string item)
                (BidService.validateBidRules (g.world.store.getAuction item)
                  clk.bid.validateNow user n).error
                (BidService.validateBidRules (g.world.store.getAuction item)
                  clk.bid.validateNow user n).code }] }) := by
  have hinv := invalidBidData_of_bid co item n hitem hn1
  have hp := processBid_of_allowed InMemoryStore.api g.world.bidService clk.bid item user n
    g.world.store hitem huser hn1 hn2 hrate hlock
  rw [processBidLocked_inMemory_reject g.world.store clk.bid item user n hrules] at hp
  have hfail : (BidService.processBid InMemoryStore.api g.world.bidService clk.bid
      (.string item) (.string user) (.number (.finite (n : ℚ))) g.world.store).1.success
      = false := by rw [hp]; rfl
  unfold bidPayload
  rw [handleBidPlaced_of_failure co services socketId (.string user) clk g (.string item)
    (.number (.finite (n : ℚ))) hinv hfail, hp]
  simp [BidResult.failure, Gateway.send]

theorem attempted_logOf_length_le (svc : BidService) (now : Int) (user u : String) :
    ((svc.attempted now user).logOf u).length ≤ (svc.logOf u).length + 1 := by
  rw [attempted_logOf]
  split_ifs with h
  · subst h
    have := recentOf_length_le now (svc.logOf u)
    simp only [List.length_append, List.length_singleton]
    omega
  · omega

theorem attempted_logOf_of_ne (svc : BidService) (now : Int) (user u : String) (h : u ≠ user) :
    (svc.attempted now user).logOf u = svc.logOf u := by
  rw [attempted_logOf, if_neg h]

/-- C23. The scenario. An active auction stored under `item` has `currentBid = 100`, no bid
and no bidder, and at every clock reading of the four handler runs more than 30 s remain to
its `endTime`; the users `A` and `B` are distinct, neither is rate limited (each has at most
three attempts on record) and the item is not locked. The messages (A, 110), (A, 130),
(B, 90), (B, 150) are handled in that order, each run to completion, for any `services`.
Every run completes. The first bid is accepted: BID_SUCCESS goes to A's socket, UPDATE_BID
with `currentBid = 110`, `currentBidder = A`, `bidCount = 1` to everyone, and the stored
auction has these values. The second is answered by BID_ERROR ALREADY_HIGHEST_BIDDER and the
third by BID_ERROR BID_TOO_LOW with the message `'Bid must be higher than $110'`, each to the
sender only, and the store stays as the first bid left it. The fourth is accepted: the stored
auction has `currentBid = 150`, `currentBidder = B` and two bids, and after BID_SUCCESS and
UPDATE_BID the room `user_A` receives OUTBID_NOTIFICATION with `newBid = 150` and
`yourBid = 110`. -/
theorem scenario_four_bids (co : Coercion) (services : SocketServices)
    (socketA socketB item userA userB : String) (c1 c2 c3 c4 : HandlerClock) (g : Gateway)
    (a : Auction) (hitem : jsTrim item ≠ "") (hA : jsTrim userA ≠ "") (hB : jsTrim userB ≠ "")
    (hAB : userA ≠ userB) (ha : g.world.store.getAuction item = some a)
    (hs : a.status = "active") (hcur : a.currentBid = 100) (hbids : a.bids = [])
    (hnone : a.currentBidder = none)
    (hend : ∀ c ∈ [c1, c2, c3, c4],
      30000 < a.endTime - c.bid.validateNow ∧ 30000 < a.endTime - c.extendNow)
    (hlogA : (g.world.bidService.logOf userA).length ≤ 3)
    (hlogB : (g.world.bidService.logOf userB).length ≤ 3)
    (hlock : g.world.bidService.bidLocks.has item = false) :
    ∃ (g1 g2 g3 g4 : Gateway) (a1 a4 : Auction),
      handleBidPlaced co services socketA (.string userA) c1 (bidPayload item 110) g
        = (.ok (), g1) ∧
      handleBidPlaced co services socketA (.string userA) c2 (bidPayload item 130) g1
        = (.ok (), g2) ∧
      handleBidPlaced co services socketB (.string userB) c3 (bidPayload item 90) g2
        = (.ok (), g3) ∧
      handleBidPlaced co services socketB (.string userB) c4 (bidPayload item 150) g3
        = (.ok (), g4) ∧
      g1.sentSince g =
        [{ recipient := .socket socketA,
           event := .bidSuccess (.string item) (newBidOf c1.bid item userA 110) 110 },
         { recipient := .everyone,
           event := .updateBid (.string item) 110 (some userA) 1 c1.bid.bidTimestamp }] ∧
      g1.world.store.getAuction item = some a1 ∧
      a1.currentBid = 110 ∧ a1.currentBidder = some userA ∧ a1.bids.length = 1 ∧
      g2.sentSince g1 =
        [{ recipient := .socket socketA,
           event := .bidError (.string item) (some "You are already the highest bidder")
             (some "ALREADY_HIGHEST_BIDDER") }] ∧
      g2.world.store = g1.world.store ∧
      g3.sentSince g2 =
        [{ recipient := .socket socketB,
           event := .bidError (.string item) (some "Bid must be higher than $110")
             (some "BID_TOO_LOW") }] ∧
      g3.world.store = g1.world.store ∧
      g4.sentSince g3 =
        [{ recipient := .socket socketB,
           event := .bidSuccess (.string item) (newBidOf c4.bid item userB 150) 150 },
         { recipient := .everyone,
           event := .updateBid (.string item) 150 (some userB) 2 c4.bid.bidTimestamp },
         { recipient := .room ("user_" ++ userA),
           event := .outbidNotification (.string item) 150 110 }] ∧
      g4.world.store.getAuction item = some a4 ∧
      a4.currentBid = 150 ∧ a4.currentBidder = some userB ∧ a4.bids.length = 2 := by
  have hc1 := hend c1 (by simp)
  have hc2 := hend c2 (by simp)
  have hc3 := hend c3 (by simp)
  have hc4 := hend c4 (by simp)
  have hrate : ∀ (svc : BidService) (now : Int) (u : String), (svc.logOf u).length ≤ 4 →
      (recentOf now (svc.logOf u)).length < MAX_BIDS_PER_WINDOW := by
    intro svc now u h
    have := recentOf_length_le now (svc.logOf u)
    simp only [MAX_BIDS_PER_WINDOW]
    omega
  -- the first bid
  have e1 := handleBidPlaced_accepts co services socketA item userA 110 c1 g a hitem hA
    (by norm_num) (by norm_num) (hrate _ _ _ (by omega)) hlock ha hs (by omega) (by omega)
    (by rw [hnone]; simp) (by omega)
  have ho1 : outbidEmissions (.string userA) (.string item) (executedOf c1.bid item userA 110 a)
      = [] := by simp [outbidEmissions, executedOf, hnone]
  rw [ho1, hbids] at e1
  obtain ⟨g1, e1, hst1, hsvc1, hsent1⟩ : ∃ g1 : Gateway,
      handleBidPlaced co services socketA (.string userA) c1 (bidPayload item 110) g
        = (.ok (), g1) ∧
      g1.world.store.getAuction item = some (committed c1.bid item userA 110 a) ∧
      g1.world.bidService = g.world.bidService.attempted c1.bid.rateLimitNow userA ∧
      g1.sent = g.sent ++
        [{ recipient := .socket socketA,
           event := .bidSuccess (.string item) (newBidOf c1.bid item userA 110) 110 },
         { recipient := .everyone,
           event := .updateBid (.string item) 110 (some userA) 1 c1.bid.bidTimestamp }] :=
    ⟨_, e1, JSMap.get_set_self _ _ _, rfl, by simp⟩
  have hlogA1 : (g1.world.bidService.logOf userA).length ≤ 4 := by
    rw [hsvc1]
    have := attempted_logOf_length_le g.world.bidService c1.bid.rateLimitNow userA userA
    omega
  have hlogB1 : (g1.world.bidService.logOf userB).length ≤ 3 := by
    rw [hsvc1, attempted_logOf_of_ne _ _ _ _ (Ne.symm hAB)]
    exact hlogB
  have hlock1 : g1.world.bidService.bidLocks.has item = false := by
    rw [hsvc1]
    exact hlock
  -- the second bid
  have hr2 : BidService.validateBidRules (g1.world.store.getAuction item) c2.bid.validateNow
      userA 130 =
      { isValid := false, error := some "You are already the highest bidder",
        code := some "ALREADY_HIGHEST_BIDDER" } := by
    rw [hst1]
    have h1 : ¬ (a.endTime ≤ c2.bid.validateNow) := by omega
    simp [BidService.validateBidRules, committed, hs, h1]
  have e2 := handleBidPlaced_rejects co services socketA item userA 130 c2 g1 hitem hA
    (by norm_num) (by norm_num) (hrate _ _ _ hlogA1) hlock1 (by rw [hr2])
  rw [hr2] at e2
  obtain ⟨g2, e2, hst2, hsvc2, hsent2⟩ : ∃ g2 : Gateway,
      handleBidPlaced co services socketA (.string userA) c2 (bidPayload item 130) g1
        = (.ok (), g2) ∧
      g2.world.store = g1.world.store ∧
      g2.world.bidService = g1.world.bidService.attempted c2.bid.rateLimitNow userA ∧
      g2.sent = g1.sent ++
        [{ recipient := .socket socketA,
           event := .bidError (.string item) (some "You are already the highest bidder")
             (some "ALREADY_HIGHEST_BIDDER") }] :=
    ⟨_, e2, rfl, rfl, rfl⟩
  have hlogB2 : (g2.world.bidService.logOf userB).length ≤ 3 := by
    rw [hsvc2, attempted_logOf_of_ne _ _ _ _ (Ne.symm hAB)]
    exact hlogB1
  have hlock2 : g2.world.bidService.bidLocks.has item = false := by
    rw [hsvc2]
    exact hlock1
  -- the third bid
  have hr3 : BidService.validateBidRules (g2.world.store.getAuction item) c3.bid.validateNow
      userB 90 =
      { isValid := false, error := some "Bid must be higher than $110",
        code := some "BID_TOO_LOW" } := by
    rw [hst2, hst1]
    have h1 : ¬ (a.endTime ≤ c3.bid.validateNow) := by omega
    simp [BidService.validateBidRules, committed, hs, h1]
    rfl
  have e3 := handleBidPlaced_rejects co services socketB item userB 90 c3 g2 hitem hB
    (by norm_num) (by norm_num) (hrate _ _ _ (by omega)) hlock2 (by rw [hr3])
  rw [hr3] at e3
  obtain ⟨g3, e3, hst3, hsvc3, hsent3⟩ : ∃ g3 : Gateway,
      handleBidPlaced co services socketB (.string userB) c3 (bidPayload item 90) g2
        = (.ok (), g3) ∧
      g3.world.store = g1.world.store ∧
      g3.world.bidService = g2.world.bidService.attempted c3.bid.rateLimitNow userB ∧
      g3.sent = g2.sent ++
        [{ recipient := .socket socketB,
           event := .bidError (.string item) (some "Bid must be higher than $110")
             (some "BID_TOO_LOW") }] :=
    ⟨_, e3, hst2, rfl, rfl⟩
  have hlogB3 : (g3.world.bidService.logOf userB).length ≤ 4 := by
    rw [hsvc3]
    have := attempted_logOf_length_le g2.world.bidService c3.bid.rateLimitNow userB userB
    omega
  have hlock3 : g3.world.bidService.bidLocks.has item = false := by
    rw [hsvc3]
    exact hlock2
  have hget3 : g3.world.store.getAuction item = some (committed c1.bid item userA 110 a) := by
    rw [hst3]
    exact hst1
  -- the fourth bid
  have hAB1 : (some userA : Option String) ≠ some userB := by
    intro hc
    cases hc
    exact hAB rfl
  have e4 := handleBidPlaced_accepts co services socketB item userB 150 c4 g3
    (committed c1.bid item userA 110 a) hitem hB (by norm_num) (by norm_num)
    (hrate _ _ _ hlogB3) hlock3 hget3 hs (by show c4.bid.validateNow < a.endTime; omega)
    (by show (110 : Int) < 150; norm_num) hAB1
    (by show ¬ (0 < a.endTime - c4.extendNow ∧ a.endTime - c4.extendNow < 30000); omega)
  have hA1 : userA ≠ "" := fun hc => hA (by rw [hc]; exact jsTrim_empty)
  have hAB2 : JSValue.string userA ≠ JSValue.string userB := by
    intro hc
    cases hc
    exact hAB rfl
  have ho4 : outbidEmissions (.string userB) (.string item)
      (executedOf c4.bid item userB 150 (committed c1.bid item userA 110 a)) =
      [{ recipient := .room ("user_" ++ userA),
         event := .outbidNotification (.string item) 150 110 }] := by
    simp [outbidEmissions, executedOf, committed, hA1, hAB2]
  rw [ho4] at e4
  refine ⟨g1, g2, g3, _, committed c1.bid item userA 110 a,
    committed c4.bid item userB 150 (committed c1.bid item userA 110 a),
    e1, e2, e3, e4, sentSince_of_append _ _ _ hsent1, hst1, rfl, rfl, ?_,
    sentSince_of_append _ _ _ hsent2, hst2,
    sentSince_of_append _ _ _ hsent3, hst3,
    sentSince_of_append _ _ _ ?_, JSMap.get_set_self _ _ _, rfl, rfl, ?_⟩
  · simp [committed, hbids]
  · simp [committed, hbids]
  · simp [committed, hbids]

/-- C23 at a concrete input: the scenario auction under `"item_1"` with `endTime` 180000,
fresh services, users `"A"` and `"B"`, the four messages at the times 1000, 2000, 3000 and
4000. -/
theorem scenario_four_bids_witness :
    ∃ (g1 g2 g3 g4 : Gateway) (a4 : Auction),
      handleBidPlaced exampleCoercion startServerServices "socket_1" (.string "A")
        (HandlerClock.at 1000) (bidPayload "item_1" 110) scenarioGateway = (.ok (), g1) ∧
      handleBidPlaced exampleCoercion startServerServices "socket_1" (.string "A")
        (HandlerClock.at 2000) (bidPayload "item_1" 130) g1 = (.ok (), g2) ∧
      handleBidPlaced exampleCoercion startServerServices "socket_2" (.string "B")
        (HandlerClock.at 3000) (bidPayload "item_1" 90) g2 = (.ok (), g3) ∧
      handleBidPlaced exampleCoercion startServerServices "socket_2" (.string "B")
        (HandlerClock.at 4000) (bidPayload "item_1" 150) g3 = (.ok (), g4) ∧
      g3.sentSince g2 =
        [{ recipient := .socket "socket_2",
           event := .bidError (.string "item_1") (some "Bid must be higher than $110")
             (some "BID_TOO_LOW") }] ∧
      g4.sentSince g3 =
        [{ recipient := .socket "socket_2",
           event := .bidSuccess (.string "item_1")
             (newBidOf (HandlerClock.at 4000).bid "item_1" "B" 150) 150 },
         { recipient := .everyone,
           event := .updateBid (.string "item_1") 150 (some "B") 2
             (HandlerClock.at 4000).bid.bidTimestamp },
         { recipient := .room ("user_" ++ "A"),
           event := .outbidNotification (.string "item_1") 150 110 }] ∧
      g4.world.store.getAuction "item_1" = some a4 ∧
      a4.currentBid = 150 ∧ a4.currentBidder = some "B" ∧ a4.bids.length = 2 := by
  obtain ⟨g1, g2, g3, g4, _, a4, e1, e2, e3, e4, _, _, _, _, _, _, _, h3, _, h4, h5, h6, h7, h8⟩ :=
    scenario_four_bids exampleCoercion startServerServices "socket_1" "socket_2" "item_1" "A"
      "B" (HandlerClock.at 1000) (HandlerClock.at 2000) (HandlerClock.at 3000)
      (HandlerClock.at 4000) scenarioGateway scenarioAuction (by decide) (by decide)
      (by decide) (by decide) rfl rfl rfl rfl rfl (by decide) (by decide) (by decide) rfl
  exact ⟨g1, g2, g3, g4, a4, e1, e2, e3, e4, h3, h4, h5, h6, h7, h8⟩

end Bidding
